import Mathlib

/-!
Verification of the layout engine of the `sigma` repository.

The development shallowly embeds the layout code in Lean 4:

* `ElkGroups` embeds the advisor-grouping / ELK adapter module
  (source: `ElkLayout.tsx`, given as `src/unnamed/part_005`): the
  circle-packing primitive `packCircles`, the business-type reader and the
  advisor-inference walk `inferAdvisor` / `inferAdvisorFromNeighbors`.
* `MindMap` embeds the radial layout engine (`useLayout`, given as
  `src/unnamed/part_008`): adjacency building, connected components,
  pseudo-root selection, the BFS spanning forest, angular allocation,
  radial bands, the bounded relaxation passes, component packing and the
  final centering, composed into `computeMindMapLayout`.
* `Canvas` embeds the ring-mode branch of `handleExpandNode`
  (source: `src/components/Graph/SigmaCanvas.tsx`).

JavaScript numbers are modelled as real numbers, JS `Map`/`Set` as
insertion-ordered association lists (`JsMap`) and duplicate-free lists.
`Array.prototype.sort` (stable since ES2019) is modelled as the stable
`List.insertionSort` over the comparator's ordering; `localeCompare` on
the ASCII keys used here is modelled as the `String` order.  Loops whose
termination is not structural carry explicit fuel chosen at least as
large as the JS iteration count.
-/

namespace JsMap

/-- Lookup in a JS `Map` modelled as an association list (first match; the
`set` operation keeps keys unique, so this is the only match). -/
def get? {α : Type} : List (String × α) → String → Option α
  | [], _ => none
  | p :: t, k => if p.1 = k then some p.2 else get? t k

/-- `Map.prototype.set`: replace in place when the key exists (keeping the
original insertion position), otherwise append at the end. -/
def set {α : Type} : List (String × α) → String → α → List (String × α)
  | [], k, v => [(k, v)]
  | p :: t, k, v => if p.1 = k then (k, v) :: t else p :: set t k v

/-- Keys of the modelled map, in insertion order. -/
def keys {α : Type} (l : List (String × α)) : List String :=
  l.map Prod.fst

theorem set_cons_pos {α : Type} (p : String × α) (t : List (String × α)) (k : String)
    (v : α) (hp : p.1 = k) : set (p :: t) k v = (k, v) :: t := by
  simp [set, hp]

theorem set_cons_neg {α : Type} (p : String × α) (t : List (String × α)) (k : String)
    (v : α) (hp : ¬ p.1 = k) : set (p :: t) k v = p :: set t k v := by
  simp [set, hp]

theorem get?_set_self {α : Type} (l : List (String × α)) (k : String) (v : α) :
    get? (set l k v) k = some v := by
  induction l with
  | nil => simp [set, get?]
  | cons p t ih =>
    by_cases hp : p.1 = k
    · simp [set, get?, hp]
    · simp [set, get?, hp, ih]

theorem get?_set_ne {α : Type} (l : List (String × α)) (k : String) (v : α)
    (k' : String) (hk : k' ≠ k) : get? (set l k v) k' = get? l k' := by
  have hk2 : ¬ (k = k') := fun h => hk h.symm
  induction l with
  | nil => simp [set, get?, hk2]
  | cons p t ih =>
    by_cases hp : p.1 = k
    · have hpk : ¬ (p.1 = k') := by
        rw [hp]
        exact hk2
      simp [set, get?, hp, hpk, hk2]
    · rw [set_cons_neg p t k v hp]
      by_cases hp' : p.1 = k'
      · simp [get?, hp']
      · simp [get?, hp', ih]

theorem mem_keys_set {α : Type} (l : List (String × α)) (k : String) (v : α)
    (k' : String) : k' ∈ keys (set l k v) ↔ k' ∈ keys l ∨ k' = k := by
  induction l with
  | nil => simp [set, keys, eq_comm]
  | cons p t ih =>
    by_cases hp : p.1 = k
    · rw [set_cons_pos p t k v hp]
      simp only [keys, List.map_cons, List.mem_cons, hp]
      tauto
    · rw [set_cons_neg p t k v hp]
      simp only [keys, List.map_cons, List.mem_cons] at *
      rw [ih]
      tauto

theorem nodup_keys_set {α : Type} (l : List (String × α)) (k : String) (v : α)
    (h : (keys l).Nodup) : (keys (set l k v)).Nodup := by
  induction l with
  | nil => simp [set, keys]
  | cons p t ih =>
    by_cases hp : p.1 = k
    · rw [set_cons_pos p t k v hp]
      simp only [keys, List.map_cons, List.nodup_cons] at *
      constructor
      · rw [← hp]
        exact h.1
      · exact h.2
    · simp only [keys, List.map_cons, List.nodup_cons] at h
      have ht := ih h.2
      rw [set_cons_neg p t k v hp]
      simp only [keys, List.map_cons, List.nodup_cons]
      refine ⟨fun hm => ?_, ht⟩
      rcases (mem_keys_set t k v p.1).mp hm with hm' | hm'
      · exact h.1 hm'
      · exact hp hm'

theorem get?_isSome_iff_mem_keys {α : Type} (l : List (String × α)) (k : String) :
    (get? l k).isSome ↔ k ∈ keys l := by
  induction l with
  | nil => simp [get?, keys]
  | cons p t ih =>
    by_cases hp : p.1 = k
    · simp [get?, keys, hp]
    · have : ¬ (k = p.1) := fun h => hp h.symm
      simp [get?, keys, hp, ih, this]

theorem get?_mem {α : Type} (l : List (String × α)) (k : String) (v : α)
    (h : get? l k = some v) : (k, v) ∈ l := by
  induction l with
  | nil => simp [get?] at h
  | cons p t ih =>
    by_cases hp : p.1 = k
    · simp only [get?, if_pos hp, Option.some.injEq] at h
      subst h
      have : p = (k, p.2) := by
        rw [← hp]
      rw [← this]
      exact List.mem_cons_self p t
    · simp only [get?, if_neg hp] at h
      exact List.mem_cons_of_mem p (ih h)

theorem mem_set {α : Type} (l : List (String × α)) (k : String) (v : α)
    (q : String × α) (h : q ∈ set l k v) : q ∈ l ∨ q = (k, v) := by
  induction l with
  | nil => simpa [set] using h
  | cons p t ih =>
    by_cases hp : p.1 = k
    · simp only [set, if_pos hp, List.mem_cons] at h
      rcases h with rfl | h
      · exact Or.inr rfl
      · exact Or.inl (List.mem_cons_of_mem p h)
    · simp only [set, if_neg hp, List.mem_cons] at h
      rcases h with h | h
      · exact Or.inl (by rw [h]; exact List.mem_cons_self _ _)
      · rcases ih h with h' | h'
        · exact Or.inl (List.mem_cons_of_mem p h')
        · exact Or.inr h'

end JsMap

/-! ## `ElkLayout.tsx` (src/unnamed/part_005): circle packing -/

namespace ElkGroups

/-- Input circle of `packCircles` (a laid-out advisor group: id and bounding
radius). -/
structure Circle where
  id : String
  radius : ℝ

/-- Output entry of `packCircles`. -/
structure PackedCircle where
  id : String
  x : ℝ
  y : ℝ
  radius : ℝ

/-- Euclidean distance used by the overlap test of `packCircles`
(`Math.sqrt(dx*dx + dy*dy)`). -/
noncomputable def circleDist (p q : PackedCircle) : ℝ :=
  Real.sqrt ((p.x - q.x) * (p.x - q.x) + (p.y - q.y) * (p.y - q.y))

/-- Separation accepted by the overlap test: center distance at least the sum
of the radii. -/
noncomputable def separated (p q : PackedCircle) : Prop :=
  circleDist p q ≥ p.radius + q.radius

noncomputable instance (p q : PackedCircle) : Decidable (separated p q) := by
  unfold separated
  infer_instance

/-- The golden angle `Math.PI * (3 - Math.sqrt(5))`. -/
noncomputable def goldenAngle : ℝ :=
  Real.pi * (3 - Real.sqrt 5)

/-- Candidate spiral position number `k` for a circle, at the given spiral
step: `theta = k * goldenAngle`, `r = step * Math.sqrt(k)`. -/
noncomputable def spiralCandidate (c : Circle) (stepSize : ℝ) (k : ℕ) : PackedCircle :=
  let theta := (k : ℝ) * goldenAngle
  let r := stepSize * Real.sqrt (k : ℝ)
  ⟨c.id, Real.cos theta * r, Real.sin theta * r, c.radius⟩

/-- The body of the `while (k < 20000)` search of `packCircles`, with fuel:
starting from spiral index `k`, return the first candidate position separated
from every already-placed circle, or `none` when the bound is exhausted.  In
the source an exhausted search falls through the loop and the circle is never
pushed. -/
noncomputable def findSlotAux (placed : List PackedCircle) (c : Circle) (stepSize : ℝ) :
    ℕ → ℕ → Option PackedCircle
  | 0, _ => none
  | fuel + 1, k =>
    if k < 20000 then
      let cand := spiralCandidate c stepSize k
      if ∀ p ∈ placed, separated p cand then some cand
      else findSlotAux placed c stepSize fuel (k + 1)
    else none

/-- The spiral search, started at `k = 1` as in the source; the fuel `20000`
covers every index the `while (k < 20000)` loop can reach. -/
noncomputable def findSlot (placed : List PackedCircle) (c : Circle) (stepSize : ℝ) :
    Option PackedCircle :=
  findSlotAux placed c stepSize 20000 1

/-- Stable descending sort by radius (`[...input.circles].sort((a, b) =>
b.radius - a.radius)`). -/
noncomputable def sortCircles (circles : List Circle) : List Circle :=
  List.insertionSort (fun a b => b.radius ≤ a.radius) circles

/-- The spiral step `Math.max(...circles.map(c => c.radius), 500)`. -/
noncomputable def spiralStep (circles : List Circle) : ℝ :=
  (circles.map (fun c => c.radius)).foldl max 500

/-- The map `byId = new Map(circles.map(c => [c.id, c]))` over the sorted
circles (later duplicates of a key overwrite earlier ones). -/
noncomputable def byIdMap (circles : List Circle) : List (String × Circle) :=
  (sortCircles circles).foldl (fun m c => JsMap.set m c.id c) []

/-- The designated center circle: `byId.get(input.centerId) ?? circles[0]`
(where `circles` is already the sorted copy). -/
noncomputable def centerCircle (circles : List Circle) (centerId : String) : Option Circle :=
  (JsMap.get? (byIdMap circles) centerId).elim (sortCircles circles).head? fun c => some c

/-- The remaining circles: everything whose id differs from the chosen
center's id. -/
noncomputable def remainingCircles (circles : List Circle) (centerId : String) : List Circle :=
  match centerCircle circles centerId with
  | none => sortCircles circles
  | some ctr => (sortCircles circles).filter (fun c => c.id ≠ ctr.id)

/-- One step of the placement fold: try to place one circle along the spiral;
on exhaustion the circle is dropped. -/
noncomputable def placeStep (stepSize : ℝ) (placed : List PackedCircle) (c : Circle) :
    List PackedCircle :=
  match findSlot placed c stepSize with
  | some cand => placed ++ [cand]
  | none => placed

/-- The initial `placed` list: the center circle at the origin (when there is
one). -/
noncomputable def placed0Of (circles : List Circle) (centerId : String) : List PackedCircle :=
  match centerCircle circles centerId with
  | some ctr => [⟨ctr.id, 0, 0, ctr.radius⟩]
  | none => []

/-- The full `placed` list of `packCircles`: the center at the origin, then
every remaining circle placed by the golden-angle spiral search. -/
noncomputable def packPlaced (circles : List Circle) (centerId : String) : List PackedCircle :=
  (remainingCircles circles centerId).foldl (placeStep (spiralStep circles))
    (placed0Of circles centerId)

/-- The `placed` list just before a given circle is processed: the fold over
the remaining circles that precede it. -/
noncomputable def placedBefore (circles : List Circle) (centerId : String) (c : Circle) :
    List PackedCircle :=
  ((remainingCircles circles centerId).takeWhile (fun d => d.id ≠ c.id)).foldl
    (placeStep (spiralStep circles)) (placed0Of circles centerId)

/-- `packCircles` (source lines 426-465): returns `new Map(placed.map(p =>
[p.id, p]))`. -/
noncomputable def packCircles (circles : List Circle) (centerId : String) :
    List (String × PackedCircle) :=
  (packPlaced circles centerId).foldl (fun m p => JsMap.set m p.id p) []

theorem separated_symm : Symmetric separated := by
  intro p q h
  unfold separated circleDist at *
  have hsq : (q.x - p.x) * (q.x - p.x) + (q.y - p.y) * (q.y - p.y)
      = (p.x - q.x) * (p.x - q.x) + (p.y - q.y) * (p.y - q.y) := by
    ring
  rw [hsq, add_comm q.radius p.radius]
  exact h

theorem findSlotAux_sound (placed : List PackedCircle) (c : Circle) (s : ℝ)
    (fuel k : ℕ) (cand : PackedCircle)
    (h : findSlotAux placed c s fuel k = some cand) :
    (∀ p ∈ placed, separated p cand) ∧ cand.id = c.id ∧ cand.radius = c.radius := by
  induction fuel generalizing k with
  | zero => simp [findSlotAux] at h
  | succ fuel ih =>
    rw [findSlotAux] at h
    by_cases hk : k < 20000
    · rw [if_pos hk] at h
      by_cases hsep : ∀ p ∈ placed, separated p (spiralCandidate c s k)
      · rw [if_pos hsep] at h
        cases h
        exact ⟨hsep, rfl, rfl⟩
      · rw [if_neg hsep] at h
        exact ih (k + 1) h
    · rw [if_neg hk] at h
      cases h

theorem findSlot_sound (placed : List PackedCircle) (c : Circle) (s : ℝ)
    (cand : PackedCircle) (h : findSlot placed c s = some cand) :
    (∀ p ∈ placed, separated p cand) ∧ cand.id = c.id ∧ cand.radius = c.radius :=
  findSlotAux_sound placed c s 20000 1 cand h

theorem placeStep_pairwise (s : ℝ) (placed : List PackedCircle) (c : Circle)
    (h : placed.Pairwise separated) : (placeStep s placed c).Pairwise separated := by
  unfold placeStep
  generalize hf : findSlot placed c s = res
  cases res with
  | none => exact h
  | some cand =>
    rw [List.pairwise_append]
    refine ⟨h, List.pairwise_singleton _ _, ?_⟩
    intro a ha b hb
    rw [List.mem_singleton] at hb
    rw [hb]
    exact (findSlot_sound placed c s cand hf).1 a ha

theorem foldl_placeStep_pairwise (s : ℝ) (cs : List Circle)
    (placed : List PackedCircle) (h : placed.Pairwise separated) :
    (cs.foldl (placeStep s) placed).Pairwise separated := by
  induction cs generalizing placed with
  | nil => exact h
  | cons c t ih => exact ih (placeStep s placed c) (placeStep_pairwise s placed c h)

theorem packPlaced_pairwise (circles : List Circle) (centerId : String) :
    (packPlaced circles centerId).Pairwise separated := by
  unfold packPlaced
  apply foldl_placeStep_pairwise
  unfold placed0Of
  cases centerCircle circles centerId with
  | none => exact List.Pairwise.nil
  | some ctr => exact List.pairwise_singleton _ _

theorem entry_mem_foldl_set {α : Type} (key : α → String) (ps : List α)
    (m0 : List (String × α)) (e : String × α)
    (he : e ∈ ps.foldl (fun m p => JsMap.set m (key p) p) m0) :
    e ∈ m0 ∨ (e.2 ∈ ps ∧ e.1 = key e.2) := by
  induction ps generalizing m0 with
  | nil => exact Or.inl he
  | cons p t ih =>
    rcases ih (JsMap.set m0 (key p) p) he with h | h
    · rcases JsMap.mem_set m0 (key p) p e h with h' | h'
      · exact Or.inl h'
      · subst h'
        exact Or.inr ⟨List.mem_cons_self _ _, rfl⟩
    · exact Or.inr ⟨List.mem_cons_of_mem p h.1, h.2⟩

theorem mem_keys_foldl_set {α : Type} (key : α → String) (ps : List α)
    (m0 : List (String × α)) (k : String) :
    k ∈ JsMap.keys (ps.foldl (fun m p => JsMap.set m (key p) p) m0) ↔
      k ∈ JsMap.keys m0 ∨ k ∈ ps.map key := by
  induction ps generalizing m0 with
  | nil => simp
  | cons p t ih =>
    simp only [List.foldl_cons, List.map_cons, List.mem_cons]
    rw [ih, JsMap.mem_keys_set]
    tauto

theorem get?_foldl_set_skip {α : Type} (key : α → String) (ps : List α)
    (m0 : List (String × α)) (k : String) (h : ∀ p ∈ ps, key p ≠ k) :
    JsMap.get? (ps.foldl (fun m p => JsMap.set m (key p) p) m0) k = JsMap.get? m0 k := by
  induction ps generalizing m0 with
  | nil => rfl
  | cons p t ih =>
    simp only [List.foldl_cons]
    rw [ih (JsMap.set m0 (key p) p) (fun q hq => h q (List.mem_cons_of_mem p hq))]
    exact JsMap.get?_set_ne m0 (key p) p k
      (fun hk => h p (List.mem_cons_self p t) hk.symm)

theorem packCircles_entry (circles : List Circle) (centerId : String)
    (e : String × PackedCircle) (he : e ∈ packCircles circles centerId) :
    e.2 ∈ packPlaced circles centerId ∧ e.1 = e.2.id := by
  rw [packCircles] at he
  rcases entry_mem_foldl_set (fun p => p.id) (packPlaced circles centerId) [] e he with h | h
  · cases h
  · exact h

theorem sortCircles_perm (circles : List Circle) : (sortCircles circles).Perm circles :=
  List.perm_insertionSort _ circles

theorem centerCircle_spec (circles : List Circle) (centerId : String)
    (hc : centerId ∈ circles.map (fun c => c.id)) :
    ∃ ctr, centerCircle circles centerId = some ctr ∧ ctr.id = centerId ∧ ctr ∈ circles := by
  have hperm : ((sortCircles circles).map (fun c => c.id)).Perm
      (circles.map (fun c => c.id)) := (sortCircles_perm circles).map _
  have hkeys : centerId ∈ JsMap.keys (byIdMap circles) := by
    rw [byIdMap, mem_keys_foldl_set (fun c => c.id) (sortCircles circles) []]
    exact Or.inr (hperm.mem_iff.mpr hc)
  have hsome := (JsMap.get?_isSome_iff_mem_keys _ centerId).mpr hkeys
  obtain ⟨ctr, hctr⟩ := Option.isSome_iff_exists.mp hsome
  have hmem := JsMap.get?_mem _ centerId ctr hctr
  rw [byIdMap] at hmem
  rcases entry_mem_foldl_set (fun c => c.id) (sortCircles circles) [] (centerId, ctr)
      hmem with h | h
  · cases h
  · refine ⟨ctr, ?_, h.2.symm, (sortCircles_perm circles).mem_iff.mp h.1⟩
    unfold centerCircle
    rw [hctr]
    rfl

theorem foldl_placeStep_suffix (s : ℝ) (cs : List Circle) (placed : List PackedCircle) :
    ∃ suffix, cs.foldl (placeStep s) placed = placed ++ suffix ∧
      ∀ p ∈ suffix, p.id ∈ cs.map (fun c => c.id) := by
  induction cs generalizing placed with
  | nil => exact ⟨[], by simp, by simp⟩
  | cons c t ih =>
    simp only [List.foldl_cons]
    obtain ⟨suffix, heq, hids⟩ := ih (placeStep s placed c)
    rcases hres : findSlot placed c s with _ | cand
    · have hps : placeStep s placed c = placed := by
        rw [placeStep, hres]
      rw [hps] at heq ⊢
      exact ⟨suffix, heq, fun p hp => List.mem_cons_of_mem _ (hids p hp)⟩
    · have hps : placeStep s placed c = placed ++ [cand] := by
        rw [placeStep, hres]
      rw [hps] at heq ⊢
      refine ⟨[cand] ++ suffix, by rw [heq, List.append_assoc], ?_⟩
      intro p hp
      rcases List.mem_append.mp hp with hp | hp
      · rw [List.mem_singleton] at hp
        rw [hp, List.map_cons, (findSlot_sound placed c s cand hres).2.1]
        exact List.mem_cons_self _ _
      · exact List.mem_cons_of_mem _ (hids p hp)

theorem packPlaced_split (circles : List Circle) (centerId : String) (ctr : Circle)
    (hctr : centerCircle circles centerId = some ctr) :
    ∃ suffix,
      packPlaced circles centerId = (⟨ctr.id, 0, 0, ctr.radius⟩ : PackedCircle) :: suffix ∧
      ∀ p ∈ suffix, p.id ∈ (remainingCircles circles centerId).map (fun c => c.id) := by
  have hpp : packPlaced circles centerId
      = (remainingCircles circles centerId).foldl (placeStep (spiralStep circles))
          [(⟨ctr.id, 0, 0, ctr.radius⟩ : PackedCircle)] := by
    simp only [packPlaced, placed0Of, hctr]
  obtain ⟨suffix, heq, hids⟩ := foldl_placeStep_suffix (spiralStep circles)
    (remainingCircles circles centerId) [(⟨ctr.id, 0, 0, ctr.radius⟩ : PackedCircle)]
  exact ⟨suffix, by rw [hpp, heq, List.singleton_append], hids⟩

theorem remaining_ids_ne (circles : List Circle) (centerId : String) (ctr : Circle)
    (hctr : centerCircle circles centerId = some ctr) :
    ∀ c ∈ remainingCircles circles centerId, c.id ≠ ctr.id := by
  intro c hc
  rw [remainingCircles, hctr] at hc
  have := (List.mem_filter.mp hc).2
  simpa using this

/-- C5: for at most 50 circles with a designated center id, any two entries of
the returned map with distinct keys are separated by at least the sum of their
radii (with no best-effort exception needed: an exhausted circle is simply
absent), and the designated center is placed at the origin. -/
theorem packCircles_separation_and_center (circles : List Circle) (centerId : String)
    (_hlen : circles.length ≤ 50) (hc : centerId ∈ circles.map (fun c => c.id)) :
    (∀ e1 ∈ packCircles circles centerId, ∀ e2 ∈ packCircles circles centerId,
        e1.1 ≠ e2.1 → circleDist e1.2 e2.2 ≥ e1.2.radius + e2.2.radius) ∧
    (∃ pc, JsMap.get? (packCircles circles centerId) centerId = some pc ∧
        pc.x = 0 ∧ pc.y = 0) := by
  constructor
  · intro e1 he1 e2 he2 hne
    obtain ⟨hm1, hk1⟩ := packCircles_entry circles centerId e1 he1
    obtain ⟨hm2, hk2⟩ := packCircles_entry circles centerId e2 he2
    have hne' : e1.2 ≠ e2.2 := by
      intro h
      apply hne
      rw [hk1, hk2, h]
    have hpw := packPlaced_pairwise circles centerId
    exact hpw.forall separated_symm hm1 hm2 hne'
  · obtain ⟨ctr, hctr, hcid, _⟩ := centerCircle_spec circles centerId hc
    obtain ⟨suffix, hsplit, hids⟩ := packPlaced_split circles centerId ctr hctr
    refine ⟨⟨ctr.id, 0, 0, ctr.radius⟩, ?_, rfl, rfl⟩
    rw [packCircles, hsplit, List.foldl_cons]
    have hne : ∀ p ∈ suffix, p.id ≠ centerId := by
      intro p hp hpk
      obtain ⟨c, hcmem, hcide⟩ := List.mem_map.mp (hids p hp)
      exact remaining_ids_ne circles centerId ctr hctr c hcmem (by rw [hcide, hpk, ← hcid])
    rw [get?_foldl_set_skip (fun p => p.id) suffix _ centerId hne]
    have : (⟨ctr.id, 0, 0, ctr.radius⟩ : PackedCircle).id = centerId := hcid
    rw [show JsMap.set ([] : List (String × PackedCircle))
        (⟨ctr.id, 0, 0, ctr.radius⟩ : PackedCircle).id ⟨ctr.id, 0, 0, ctr.radius⟩
        = [(ctr.id, ⟨ctr.id, 0, 0, ctr.radius⟩)] from rfl]
    simp [JsMap.get?, hcid]

/-- C5 witness: the theorem applied at a concrete one-circle input. -/
theorem packCircles_separation_and_center_witness :
    (∀ e1 ∈ packCircles [⟨"a", 600⟩] "a", ∀ e2 ∈ packCircles [⟨"a", 600⟩] "a",
        e1.1 ≠ e2.1 → circleDist e1.2 e2.2 ≥ e1.2.radius + e2.2.radius) ∧
    (∃ pc, JsMap.get? (packCircles [⟨"a", 600⟩] "a") "a" = some pc ∧
        pc.x = 0 ∧ pc.y = 0) :=
  packCircles_separation_and_center [⟨"a", 600⟩] "a" (by simp) (by simp)

/-- Concrete input exercising the C4 claim: two circles sharing one id. -/
noncomputable def c4input : List Circle :=
  [⟨"a", 700⟩, ⟨"a", 600⟩]

theorem c4_sorted : sortCircles c4input = [⟨"a", 700⟩, ⟨"a", 600⟩] := by
  rw [sortCircles, c4input]
  simp only [List.insertionSort, List.orderedInsert]
  rw [if_pos (by norm_num)]

theorem c4_byId : byIdMap c4input = [("a", (⟨"a", 600⟩ : Circle))] := by
  rw [byIdMap, c4_sorted]
  simp [JsMap.set]

theorem c4_center : centerCircle c4input "a" = some ⟨"a", 600⟩ := by
  rw [centerCircle, c4_byId]
  simp [JsMap.get?]

theorem c4_remaining : remainingCircles c4input "a" = [] := by
  rw [remainingCircles, c4_center, c4_sorted]
  simp

theorem c4_map : packCircles c4input "a" = [("a", ⟨"a", 0, 0, 600⟩)] := by
  rw [packCircles, packPlaced, placed0Of, c4_center, c4_remaining]
  simp [JsMap.set]

/-- The output of `packCircles` keeps circles that found a slot: elements of
the takeWhile prefix of the remaining list all carry an id different from the
target's, so the per-circle fold can be split around the target circle. -/
theorem split_at_id (c : Circle) (l : List Circle)
    (hnd : (l.map (fun d => d.id)).Nodup) (hc : c ∈ l) :
    ∃ post, l = l.takeWhile (fun d => d.id ≠ c.id) ++ c :: post ∧
      ∀ d ∈ post, d.id ≠ c.id := by
  induction l with
  | nil => cases hc
  | cons r t ih =>
    simp only [List.map_cons, List.nodup_cons] at hnd
    by_cases hr : r.id = c.id
    · have hrc : r = c := by
        rcases List.mem_cons.mp hc with h | h
        · exact h.symm
        · exfalso
          exact hnd.1 (by rw [hr]; exact List.mem_map.mpr ⟨c, h, rfl⟩)
      subst hrc
      refine ⟨t, ?_, ?_⟩
      · have : (List.takeWhile (fun d => decide (d.id ≠ r.id)) (r :: t)) = [] := by
          simp [List.takeWhile]
        simp [this]
      · intro d hd hdr
        exact hnd.1 (List.mem_map.mpr ⟨d, hd, hdr⟩)
    · have hct : c ∈ t := by
        rcases List.mem_cons.mp hc with h | h
        · exact absurd (by rw [h]) hr
        · exact h
      obtain ⟨post, heq, hpost⟩ := ih hnd.2 hct
      refine ⟨post, ?_, hpost⟩
      have : (List.takeWhile (fun d => decide (d.id ≠ c.id)) (r :: t))
          = r :: List.takeWhile (fun d => decide (d.id ≠ c.id)) t := by
        simp [List.takeWhile, hr]
      rw [this]
      simpa using congrArg (fun x => r :: x) heq

theorem remaining_nodup_ids (circles : List Circle) (centerId : String)
    (hnd : (circles.map (fun c => c.id)).Nodup) :
    ((remainingCircles circles centerId).map (fun c => c.id)).Nodup := by
  have hsorted : ((sortCircles circles).map (fun c => c.id)).Nodup :=
    (((sortCircles_perm circles).map (fun c => c.id)).nodup_iff).mpr hnd
  unfold remainingCircles
  cases centerCircle circles centerId with
  | none => exact hsorted
  | some ctr =>
    exact List.Nodup.sublist (List.Sublist.map _ (List.filter_sublist _)) hsorted

/-- C4, amended: with pairwise-distinct ids and a designated center, every
input circle either appears in the returned map under its own id with its own
radius, or — precisely when its golden-angle spiral search exhausts the
20000-attempt bound — it is omitted from the map entirely (it is not placed
at the last tested position). -/
theorem packCircles_membership_amended (circles : List Circle) (centerId : String)
    (hnd : (circles.map (fun c => c.id)).Nodup)
    (hcid : centerId ∈ circles.map (fun c => c.id))
    (c : Circle) (hmem : c ∈ circles) :
    (∃ p, JsMap.get? (packCircles circles centerId) c.id = some p ∧
        p.id = c.id ∧ p.radius = c.radius) ∨
    (JsMap.get? (packCircles circles centerId) c.id = none ∧
      findSlot (placedBefore circles centerId c) c (spiralStep circles) = none) := by
  obtain ⟨ctr, hctr, hctrid, hctrmem⟩ := centerCircle_spec circles centerId hcid
  by_cases hcc : c.id = ctr.id
  · left
    have hceq : c = ctr :=
      List.inj_on_of_nodup_map hnd hmem hctrmem (by rw [hcc])
    obtain ⟨suffix, hsplit, hids⟩ := packPlaced_split circles centerId ctr hctr
    refine ⟨⟨ctr.id, 0, 0, ctr.radius⟩, ?_, by rw [hcc], by rw [hceq]⟩
    rw [packCircles, hsplit, List.foldl_cons, hcc]
    have hne : ∀ p ∈ suffix, p.id ≠ ctr.id := by
      intro p hp hpk
      obtain ⟨d, hdmem, hdid⟩ := List.mem_map.mp (hids p hp)
      exact remaining_ids_ne circles centerId ctr hctr d hdmem (by rw [hdid, hpk])
    rw [get?_foldl_set_skip (fun p => p.id) suffix _ ctr.id hne]
    rw [show JsMap.set ([] : List (String × PackedCircle))
        (⟨ctr.id, 0, 0, ctr.radius⟩ : PackedCircle).id ⟨ctr.id, 0, 0, ctr.radius⟩
        = [(ctr.id, ⟨ctr.id, 0, 0, ctr.radius⟩)] from rfl]
    simp [JsMap.get?]
  · have hcrem : c ∈ remainingCircles circles centerId := by
      rw [remainingCircles, hctr]
      refine List.mem_filter.mpr ⟨(sortCircles_perm circles).mem_iff.mpr hmem, by simpa using hcc⟩
    obtain ⟨post, hsplit, hpost⟩ := split_at_id c (remainingCircles circles centerId)
      (remaining_nodup_ids circles centerId hnd) hcrem
    have hfold : packPlaced circles centerId
        = post.foldl (placeStep (spiralStep circles))
            (placeStep (spiralStep circles) (placedBefore circles centerId c) c) := by
      rw [packPlaced, placedBefore]
      conv =>
        lhs
        rw [hsplit]
      rw [List.foldl_append, List.foldl_cons]
    have hpre : ∀ p ∈ placedBefore circles centerId c, p.id ≠ c.id := by
      intro p hp
      rw [placedBefore] at hp
      obtain ⟨suffix, heq, hids⟩ := foldl_placeStep_suffix (spiralStep circles)
        ((remainingCircles circles centerId).takeWhile (fun d => d.id ≠ c.id))
        (placed0Of circles centerId)
      rw [heq] at hp
      rcases List.mem_append.mp hp with hp | hp
      · rw [placed0Of, hctr] at hp
        rw [List.mem_singleton] at hp
        rw [hp]
        exact fun h => hcc h.symm
      · obtain ⟨d, hdmem, hdid⟩ := List.mem_map.mp (hids p hp)
        have := List.mem_takeWhile_imp hdmem
        rw [← hdid]
        simpa using this
    rcases hfs : findSlot (placedBefore circles centerId c) c (spiralStep circles)
        with _ | cand
    · right
      refine ⟨?_, rfl⟩
      have hps : placeStep (spiralStep circles) (placedBefore circles centerId c) c
          = placedBefore circles centerId c := by
        rw [placeStep, hfs]
      obtain ⟨suffix, heq, hids⟩ := foldl_placeStep_suffix (spiralStep circles) post
        (placedBefore circles centerId c)
      have hpl : packPlaced circles centerId
          = placedBefore circles centerId c ++ suffix := by
        rw [hfold, hps, heq]
      rw [packCircles, hpl, List.foldl_append]
      have hnsuffix : ∀ p ∈ suffix, p.id ≠ c.id := by
        intro p hp
        obtain ⟨d, hdmem, hdid⟩ := List.mem_map.mp (hids p hp)
        rw [← hdid]
        exact hpost d hdmem
      rw [get?_foldl_set_skip (fun p => p.id) suffix _ c.id hnsuffix]
      rw [get?_foldl_set_skip (fun p => p.id) (placedBefore circles centerId c) _ c.id hpre]
      rfl
    · left
      obtain ⟨hsep, hcand_id, hcand_rad⟩ :=
        findSlot_sound (placedBefore circles centerId c) c (spiralStep circles) cand hfs
      have hps : placeStep (spiralStep circles) (placedBefore circles centerId c) c
          = placedBefore circles centerId c ++ [cand] := by
        rw [placeStep, hfs]
      obtain ⟨suffix, heq, hids⟩ := foldl_placeStep_suffix (spiralStep circles) post
        (placedBefore circles centerId c ++ [cand])
      have hpl : packPlaced circles centerId
          = placedBefore circles centerId c ++ (cand :: suffix) := by
        rw [hfold, hps, heq, List.append_assoc]
        rfl
      refine ⟨cand, ?_, hcand_id, hcand_rad⟩
      rw [packCircles, hpl, List.foldl_append, List.foldl_cons]
      have hsuffix_ne : ∀ p ∈ suffix, p.id ≠ c.id := by
        intro p hp
        obtain ⟨d, hdmem, hdid⟩ := List.mem_map.mp (hids p hp)
        rw [← hdid]
        exact hpost d hdmem
      rw [get?_foldl_set_skip (fun p => p.id) suffix _ c.id hsuffix_ne]
      rw [hcand_id, JsMap.get?_set_self]

/-- C4 amended witness: the theorem applied at a concrete one-circle input. -/
theorem packCircles_membership_amended_witness :
    (∃ p, JsMap.get? (packCircles [⟨"a", 600⟩] "a") (Circle.id ⟨"a", 600⟩) = some p ∧
        p.id = (⟨"a", 600⟩ : Circle).id ∧ p.radius = (⟨"a", 600⟩ : Circle).radius) ∨
    (JsMap.get? (packCircles [⟨"a", 600⟩] "a") (Circle.id ⟨"a", 600⟩) = none ∧
      findSlot (placedBefore [⟨"a", 600⟩] "a" ⟨"a", 600⟩) ⟨"a", 600⟩
        (spiralStep [⟨"a", 600⟩]) = none) :=
  packCircles_membership_amended [⟨"a", 600⟩] "a" (by simp) (by simp) ⟨"a", 600⟩
    (by simp)

/-! ### Advisor inference (`inferAdvisor`, source lines 178-227)

The sigma graph is modelled with just the attributes the inference reads:
the node's business type (`payload.data.metaData.businessType`) and the
typed edges.  `inferAdvisor` recurses into `inferAdvisorFromNeighbors`,
which recurses back into `inferAdvisor`; the memo cache `nodeAdvisorCache`
is only written *after* the neighbor recursion returns, so the recursion is
not structurally bounded.  The embedding makes the call-depth explicit as
fuel: a result of `none` means the computation did not finish within the
given call depth. -/

/-- A sigma node: id and optional business type tag. -/
structure SNode where
  id : String
  businessType : Option String

/-- A sigma edge with its optional `edgeType` attribute. -/
structure SEdge where
  id : String
  source : String
  target : String
  edgeType : Option String

/-- A sigma graph snapshot. -/
structure SGraph where
  nodes : List SNode
  edges : List SEdge

/-- `getBusinessType`: read the node's business-type tag (the per-call cache
in the source is pure memoization and does not change the value). -/
def getBusinessType (g : SGraph) (nodeId : String) : Option String :=
  (g.nodes.find? (fun n => n.id == nodeId)).bind (fun n => n.businessType)

/-- `getInboundStructuralParent`: the first inbound edge tagged `structural`,
in edge insertion order. -/
def getInboundStructuralParent (g : SGraph) (nodeId : String) : Option String :=
  ((g.edges.filter (fun e => e.target == nodeId)).find?
    (fun e => e.edgeType == some "structural")).map (fun e => e.source)

/-- Neighbors of a node (both directions, deduplicated, edge insertion
order), as `graphology`'s `forEachNeighbor` enumerates them. -/
def neighborsOf (g : SGraph) (nodeId : String) : List String :=
  g.edges.foldl (fun acc e =>
    if e.source = nodeId then (if e.target ∈ acc then acc else acc ++ [e.target])
    else if e.target = nodeId then (if e.source ∈ acc then acc else acc ++ [e.source])
    else acc) []

/-- The bounded ancestry walk of `inferAdvisor` (source lines 193-207):
at most 10 hops up inbound structural parents, stopping on a revisit, and
returning the first advisor-tagged ancestor. -/
def ancestryWalkAux (g : SGraph) : ℕ → List String → String → Option String
  | 0, _, _ => none
  | d + 1, visited, current =>
    match getInboundStructuralParent g current with
    | none => none
    | some parent =>
      if parent ∈ visited then none
      else if getBusinessType g parent = some "理專" then some parent
      else ancestryWalkAux g d (visited ++ [parent]) parent

/-- The ancestry walk started at a node, with the source's hop cap of 10. -/
def ancestryWalk (g : SGraph) (nodeId : String) : Option String :=
  ancestryWalkAux g 10 [nodeId] nodeId

/-- The advisor memo cache `nodeAdvisorCache`. -/
abbrev AdvisorCache := List (String × Option String)

/-- `inferAdvisor` with explicit call-depth fuel.  `none` means the mutual
recursion with `inferAdvisorFromNeighbors` did not return within the given
depth (in the source this is a JavaScript stack overflow).  The memo cache is
threaded exactly as in the source: it is written only when a call returns.
The neighbor loop of `inferAdvisorFromNeighbors` is inlined as a fold that
skips the recursion once an advisor has been inferred (`if (inferred)
return;`) and aborts when a recursive call runs out of depth. -/
def inferAdvisorF (g : SGraph) : ℕ → String → AdvisorCache →
    Option (Option String × AdvisorCache)
  | 0, _, _ => none
  | fuel + 1, nodeId, cache =>
    match JsMap.get? cache nodeId with
    | some v => some (v, cache)
    | none =>
      if getBusinessType g nodeId = some "理專" then
        some (some nodeId, JsMap.set cache nodeId (some nodeId))
      else
        match ancestryWalk g nodeId with
        | some adv => some (some adv, JsMap.set cache nodeId (some adv))
        | none =>
          match (neighborsOf g nodeId).foldl
              (fun (st : Option (Option String × AdvisorCache)) n =>
                match st with
                | none => none
                | some (inferred, c2) =>
                  if inferred.isSome then some (inferred, c2)
                  else inferAdvisorF g fuel n c2)
              (some (none, cache)) with
          | none => none
          | some (inferred, cache2) =>
            some (inferred, JsMap.set cache2 nodeId inferred)

/-- `inferAdvisorFromNeighbors` at a given recursion depth for the per-node
calls: the neighbor fold of `inferAdvisorF`, as a standalone function. -/
def inferFromNeighborsF (g : SGraph) (fuel : ℕ) (ns : List String)
    (cache : AdvisorCache) : Option (Option String × AdvisorCache) :=
  ns.foldl
    (fun (st : Option (Option String × AdvisorCache)) n =>
      match st with
      | none => none
      | some (inferred, c2) =>
        if inferred.isSome then some (inferred, c2)
        else inferAdvisorF g fuel n c2)
    (some (none, cache))

/-- Two nodes without business types joined by a single transactional edge:
the ancestry walk finds no structural parent on either side and neither node
resolves, so `inferAdvisor` bounces between the two neighbors forever. -/
def c3graph : SGraph :=
  ⟨[⟨"X", none⟩, ⟨"Y", none⟩], [⟨"t1", "X", "Y", some "transactional"⟩]⟩

theorem c3_both_diverge (fuel : ℕ) :
    inferAdvisorF c3graph fuel "X" [] = none ∧
    inferAdvisorF c3graph fuel "Y" [] = none := by
  induction fuel with
  | zero => exact ⟨rfl, rfl⟩
  | succ fuel ih =>
    constructor
    · rw [inferAdvisorF]
      rw [show JsMap.get? ([] : AdvisorCache) "X" = none from rfl]
      rw [show getBusinessType c3graph "X" = none from rfl]
      rw [show ancestryWalk c3graph "X" = none from rfl]
      rw [show neighborsOf c3graph "X" = ["Y"] from rfl]
      simp [ih.2]
    · rw [inferAdvisorF]
      rw [show JsMap.get? ([] : AdvisorCache) "Y" = none from rfl]
      rw [show getBusinessType c3graph "Y" = none from rfl]
      rw [show ancestryWalk c3graph "Y" = none from rfl]
      rw [show neighborsOf c3graph "Y" = ["X"] from rfl]
      simp [ih.1]

/-- C3: the claim promises termination on every finite graph, including
transactional-only cycles with no advisor ancestor.  The code violates this:
on the two-node transactional cycle `X - Y` with no business types,
`inferAdvisor("X")` fails to return at every call depth — the memo cache is
written only after the neighbor recursion returns, so the mutual recursion
`X → Y → X → …` never terminates (a stack overflow in the source). -/
theorem inferAdvisor_cycle_divergence :
    ∀ fuel : ℕ, inferAdvisorF c3graph fuel "X" [] = none :=
  fun fuel => (c3_both_diverge fuel).1

/-- C4, as stated, is false: in a two-circle input sharing one id the circle
of radius 700 has no entry in the returned map (the map holds a single entry,
of radius 600), so not every input circle is assigned a position. -/
theorem packCircles_entry_counterexample :
    (⟨"a", 700⟩ : Circle) ∈ c4input ∧
    ∀ p ∈ packCircles c4input "a", p.2.radius ≠ (⟨"a", 700⟩ : Circle).radius := by
  constructor
  · rw [c4input]
    exact List.mem_cons_self _ _
  · intro p hp
    rw [c4_map, List.mem_singleton] at hp
    rw [hp]
    norm_num

end ElkGroups

/-! ## `useLayout` (src/unnamed/part_008): the radial mind-map layout

Nodes are flattened: the optional `data` record's fields used by the layout
(`nationalId`, `label`, `caseName`, the lock flags) appear directly on the
node, `none` standing for a missing field.  `localeCompare` on the sort keys
is modelled by the `String` order; JS stable `Array.prototype.sort` by
`List.insertionSort` over the comparator's non-strict order. -/

namespace MindMap

open ElkGroups (SGraph)

noncomputable def NODE_WIDTH : ℝ := 150

noncomputable def NODE_HEIGHT : ℝ := 50

noncomputable def FIRST_RADIUS : ℝ := 220

noncomputable def LEVEL_GAP : ℝ := 200

noncomputable def NODE_MARGIN : ℝ := 24

noncomputable def MIN_ANGLE_RAD : ℝ := 15 * Real.pi / 180

noncomputable def ARC_EXTRA_BY_DEGREE : ℝ := 15 / 100

noncomputable def COMPONENT_GAP : ℝ := 420

def MAX_RING_ITERATIONS : ℕ := 12

def MAX_RADIAL_ITERATIONS : ℕ := 12

/-- A 2D position. -/
structure Position where
  x : ℝ
  y : ℝ

/-- An input node (`AppNodeType`), flattened to the fields the layout reads. -/
structure AppNode where
  id : String
  nationalId : Option String := none
  labelText : Option String := none
  caseName : Option String := none
  lockedFlag : Bool := false
  isLockedFlag : Bool := false
  draggable : Option Bool := none
  measuredWidth : Option ℝ := none
  measuredHeight : Option ℝ := none
  position : Option Position := none

/-- An input edge; `useLayout` ignores the edge type. -/
structure GEdge where
  id : String
  source : String
  target : String

/-- `toLowerCase`, modelled character-wise (the ids and labels sorted here
are ASCII, where this agrees with the JS call). -/
def jsToLower (s : String) : String :=
  String.mk (s.data.map Char.toLower)

/-- Lexicographic character-code comparison, the model of
`a.localeCompare(b) <= 0` on the ASCII sort keys used here. -/
def charListLe : List Char → List Char → Bool
  | [], _ => true
  | _ :: _, [] => false
  | c :: cs, d :: ds =>
    if c.toNat < d.toNat then true
    else if d.toNat < c.toNat then false
    else charListLe cs ds

/-- The comparator order underlying every `localeCompare` sort. -/
def localeLe (a b : String) : Bool :=
  charListLe a.data b.data

/-- `getNodeSortKey`: first nonempty of trimmed `nationalId`, `label`,
`caseName`, else the node id, lower-cased. -/
def getNodeSortKey (n : AppNode) : String :=
  let candidates := ([n.nationalId.map String.trim, n.labelText.map String.trim,
    n.caseName.map String.trim].filterMap id).filter (fun s => s.length > 0)
  jsToLower (candidates.head?.getD n.id)

/-- `isNodeLocked`: `data.locked === true || data.isLocked === true ||
node.draggable === false`. -/
def isNodeLocked (n : AppNode) : Bool :=
  n.lockedFlag || n.isLockedFlag || n.draggable == some false

/-- Append to a JS `Set` modelled as a duplicate-free insertion-ordered
list. -/
def addNeighbor (l : List String) (v : String) : List String :=
  if v ∈ l then l else l ++ [v]

/-- `buildAdjacency` (source lines 70-86): undirected adjacency from all
edges; endpoints missing from the node list still get adjacency entries. -/
def buildAdjacency (nodes : List AppNode) (edges : List GEdge) :
    List (String × List String) :=
  let init := nodes.foldl (fun adj n => JsMap.set adj n.id []) []
  edges.foldl (fun adj e =>
    let adj1 := if (JsMap.get? adj e.source).isSome then adj else JsMap.set adj e.source []
    let adj2 := if (JsMap.get? adj1 e.target).isSome then adj1 else JsMap.set adj1 e.target []
    let adj3 := match JsMap.get? adj2 e.source with
      | some l => JsMap.set adj2 e.source (addNeighbor l e.target)
      | none => adj2
    match JsMap.get? adj3 e.target with
      | some l => JsMap.set adj3 e.target (addNeighbor l e.source)
      | none => adj3) init

/-- The per-node layout record (`LayoutNode`). -/
structure LayoutNode where
  id : String
  node : AppNode
  width : ℝ
  height : ℝ
  locked : Bool
  sortKey : String
  degree : ℕ

/-- The layout record of one node (source lines 221-233). -/
noncomputable def mkLayoutNode (adjacency : List (String × List String))
    (node : AppNode) : LayoutNode :=
  { id := node.id
    node := node
    width := node.measuredWidth.getD NODE_WIDTH
    height := node.measuredHeight.getD NODE_HEIGHT
    locked := isNodeLocked node
    sortKey := getNodeSortKey node
    degree := ((JsMap.get? adjacency node.id).getD []).length }

/-- The `nodes` map of `computeMindMapLayout` (source lines 220-234). -/
noncomputable def buildNodesMap (nodesToLayout : List AppNode)
    (adjacency : List (String × List String)) : List (String × LayoutNode) :=
  nodesToLayout.foldl (fun m node => JsMap.set m node.id (mkLayoutNode adjacency node)) []

/-- Sort key of an id, via the nodes map (`nodes.get(a)?.sortKey ?? a`). -/
noncomputable def sortKeyOf (nodes : List (String × LayoutNode)) (id : String) : String :=
  match JsMap.get? nodes id with
  | some meta => meta.sortKey
  | none => id

/-- One BFS of `getConnectedComponents`: process the queue, appending each
dequeued id to the component and enqueueing unvisited neighbors in sort-key
order.  Fuel bounds the loop; every call below passes fuel exceeding the
number of reachable ids, which the JS `while` can never exceed either. -/
noncomputable def componentBFS (adjacency : List (String × List String))
    (nodes : List (String × LayoutNode)) :
    ℕ → List String → List String → List String → (List String × List String)
  | 0, visited, _, component => (component, visited)
  | _ + 1, visited, [], component => (component, visited)
  | fuel + 1, visited, current :: rest, component =>
    let component2 := component ++ [current]
    let neighbors := (JsMap.get? adjacency current).getD []
    let ordered := List.insertionSort
      (fun a b => localeLe (sortKeyOf nodes a) (sortKeyOf nodes b) = true) neighbors
    let vq := ordered.foldl (fun (vq : List String × List String) nb =>
        if nb ∈ vq.1 then vq else (vq.1 ++ [nb], vq.2 ++ [nb])) (visited, rest)
    componentBFS adjacency nodes fuel vq.1 vq.2 component2

/-- `getConnectedComponents` (source lines 88-131): BFS from each unvisited
id, seeds and neighbors both in stable sort-key order. -/
noncomputable def getConnectedComponents (adjacency : List (String × List String))
    (nodes : List (String × LayoutNode)) : List (List String) :=
  let sortedIds := List.insertionSort
    (fun a b => localeLe (sortKeyOf nodes a) (sortKeyOf nodes b) = true) (JsMap.keys nodes)
  let fuel := adjacency.length + nodes.length + 1
  (sortedIds.foldl (fun (st : List (List String) × List String) id =>
      if id ∈ st.2 then st
      else
        let cv := componentBFS adjacency nodes fuel (st.2 ++ [id]) [id] []
        (st.1 ++ [cv.1], cv.2)) ([], [])).1

/-- The comparator of `selectPseudoRoots`: descending degree, ties by
ascending sort key. -/
def rootOrder (a b : LayoutNode) : Prop :=
  b.degree < a.degree ∨ (a.degree = b.degree ∧ localeLe a.sortKey b.sortKey = true)

instance (a b : LayoutNode) : Decidable (rootOrder a b) := by
  unfold rootOrder
  infer_instance

/-- `selectPseudoRoots` (source lines 133-160).  `floor(highestDegree * 0.7)`
on JS numbers agrees with `7 * d / 10` in natural division for the degrees a
graph can produce. -/
noncomputable def selectPseudoRoots (componentNodes : List LayoutNode)
    (preferredRootIds : List String) : List LayoutNode :=
  if preferredRootIds ≠ [] then
    List.insertionSort rootOrder (componentNodes.filter (fun n => n.id ∈ preferredRootIds))
  else
    let sortedByDegree := List.insertionSort rootOrder componentNodes
    let highestDegree := match sortedByDegree.head? with
      | some n => n.degree
      | none => 0
    if highestDegree = 0 then sortedByDegree.take 1
    else
      let threshold := max 3 (7 * highestDegree / 10)
      match sortedByDegree.filter (fun n => threshold ≤ n.degree) with
      | [] => sortedByDegree.take 1
      | r :: rs => r :: rs

/-- An axis-aligned bounding box. -/
structure BoundingBox where
  minX : ℝ
  maxX : ℝ
  minY : ℝ
  maxY : ℝ

/-- `toBoundingBox` (source lines 162-186): minimal box covering the centers
inflated by half sizes; all-zero for an empty input. -/
noncomputable def toBoundingBox (positions : List (String × Position))
    (nodes : List (String × LayoutNode)) : BoundingBox :=
  let pts := positions.filterMap (fun p => (JsMap.get? nodes p.1).map (fun meta => (p.2, meta)))
  match pts with
  | [] => ⟨0, 0, 0, 0⟩
  | q :: _ =>
    ⟨pts.foldl (fun m r => min m (r.1.x - r.2.width / 2)) (q.1.x - q.2.width / 2),
     pts.foldl (fun m r => max m (r.1.x + r.2.width / 2)) (q.1.x + q.2.width / 2),
     pts.foldl (fun m r => min m (r.1.y - r.2.height / 2)) (q.1.y - q.2.height / 2),
     pts.foldl (fun m r => max m (r.1.y + r.2.height / 2)) (q.1.y + q.2.height / 2)⟩

/-- `mergeBoundingBoxes` (source lines 188-193). -/
noncomputable def mergeBoundingBoxes (a b : BoundingBox) : BoundingBox :=
  ⟨min a.minX b.minX, max a.maxX b.maxX, min a.minY b.minY, max a.maxY b.maxY⟩

/-- `boxOverlap` (source lines 200-212): padded axis-aligned boxes
intersect. -/
noncomputable def boxOverlap (a : Position) (aMeta : LayoutNode) (b : Position)
    (bMeta : LayoutNode) (padding : ℝ) : Prop :=
  |a.x - b.x| < (aMeta.width / 2 + padding) + (bMeta.width / 2 + padding) ∧
  |a.y - b.y| < (aMeta.height / 2 + padding) + (bMeta.height / 2 + padding)

/-- State of the spanning-forest BFS (source lines 255-305). -/
structure BfsState where
  unassigned : List String
  parentById : List (String × Option String)
  depthById : List (String × ℕ)
  treeById : List (String × String)

/-- The nodes of one component, as layout records (dangling ids filtered
out). -/
noncomputable def componentNodesOf (nodes : List (String × LayoutNode))
    (component : List String) : List LayoutNode :=
  component.filterMap (fun id => JsMap.get? nodes id)

/-- The inner `while (queue.length > 0)` of the spanning-forest BFS: dequeue,
then assign parent / depth / tree to each still-unassigned neighbor (in
component, sort-key order) and enqueue it. -/
noncomputable def forestStep (adjacency : List (String × List String))
    (nodes : List (String × LayoutNode)) (componentSet : List String) (rootId : String) :
    ℕ → List String → BfsState → BfsState
  | 0, _, st => st
  | _ + 1, [], st => st
  | fuel + 1, current :: rest, st =>
    let neighbors := (JsMap.get? adjacency current).getD []
    let ordered := List.insertionSort
      (fun a b => localeLe (sortKeyOf nodes a) (sortKeyOf nodes b) = true)
      (neighbors.filter (fun id => id ∈ componentSet))
    let sq := ordered.foldl (fun (sq : BfsState × List String) nb =>
        if nb ∈ sq.1.unassigned then
          ({ unassigned := sq.1.unassigned.erase nb
             parentById := JsMap.set sq.1.parentById nb (some current)
             depthById := JsMap.set sq.1.depthById nb
               (((JsMap.get? sq.1.depthById current).getD 0) + 1)
             treeById := JsMap.set sq.1.treeById nb rootId }, sq.2 ++ [nb])
        else sq) (st, rest)
    forestStep adjacency nodes componentSet rootId fuel sq.2 sq.1

/-- The per-root loop of the spanning forest (source lines 260-295). -/
noncomputable def buildForest (adjacency : List (String × List String))
    (nodes : List (String × LayoutNode)) (componentSet : List String)
    (pseudoRoots : List LayoutNode) : BfsState :=
  pseudoRoots.foldl (fun st root =>
    if root.id ∈ st.unassigned then
      forestStep adjacency nodes componentSet root.id (componentSet.length + 1) [root.id]
        { unassigned := st.unassigned.erase root.id
          parentById := JsMap.set st.parentById root.id none
          depthById := JsMap.set st.depthById root.id 0
          treeById := JsMap.set st.treeById root.id root.id }
    else st)
    { unassigned := componentSet.dedup, parentById := [], depthById := [], treeById := [] }

/-- Orphan absorption (source lines 297-305): every BFS-unreached id becomes
a depth-1 child of the first pseudo-root.  When the pseudo-root list is empty
(possible only with caller-preferred roots disjoint from the component, where
the source would throw) the state is returned unchanged; the theorems below
about whole-layout behavior assume no caller-preferred roots. -/
noncomputable def absorbOrphans (st : BfsState) (pseudoRoots : List LayoutNode) : BfsState :=
  match pseudoRoots.head? with
  | none => st
  | some fallbackRoot =>
    st.unassigned.foldl (fun s orphan =>
      { unassigned := s.unassigned.erase orphan
        parentById := JsMap.set s.parentById orphan (some fallbackRoot.id)
        depthById := JsMap.set s.depthById orphan 1
        treeById := JsMap.set s.treeById orphan fallbackRoot.id }) st

/-- The weight formula `(max(width, height) + NODE_MARGIN) * (1 +
ARC_EXTRA_BY_DEGREE * degree)` (source lines 321-324 and 380-383). -/
noncomputable def nodeWeight (meta : LayoutNode) : ℝ :=
  (max meta.width meta.height + NODE_MARGIN) * (1 + ARC_EXTRA_BY_DEGREE * meta.degree)

/-- `nodesByTree` (source lines 307-316). -/
noncomputable def nodesByTree (componentNodes : List LayoutNode)
    (treeById : List (String × String)) : List (String × List LayoutNode) :=
  componentNodes.foldl (fun m meta =>
    let treeId := (JsMap.get? treeById meta.id).getD meta.id
    match JsMap.get? m treeId with
    | some l => JsMap.set m treeId (l ++ [meta])
    | none => JsMap.set m treeId [meta]) []

/-- `treeWeights` (source lines 318-327). -/
noncomputable def treeWeightsOf (nbt : List (String × List LayoutNode)) :
    List (String × ℝ) :=
  nbt.foldl (fun m p =>
    JsMap.set m p.1 (p.2.foldl (fun acc meta => acc + nodeWeight meta) 0)) []

/-- The angle allocated to each root tree before normalization (source lines
334-339). -/
noncomputable def angleAllocationsOf (pseudoRoots : List LayoutNode)
    (nbt : List (String × List LayoutNode)) (weights : List (String × ℝ))
    (totalWeight : ℝ) : List ℝ :=
  pseudoRoots.map (fun root =>
    let weight := (JsMap.get? weights root.id).getD 1
    let minAngle := MIN_ANGLE_RAD *
      max 1 (((JsMap.get? nbt root.id).getD []).length : ℝ)
    max minAngle (2 * Real.pi * weight / max totalWeight 1))

/-- The sector map (source lines 331-346): spans scaled to fill `2π`, laid
out from `-π` in root order. -/
noncomputable def sectorsOf (pseudoRoots : List LayoutNode) (allocations : List ℝ)
    (scale : ℝ) : List (String × (ℝ × ℝ)) :=
  ((pseudoRoots.zip allocations).foldl
    (fun (st : List (String × (ℝ × ℝ)) × ℝ) p =>
      let span := p.2 * scale
      (JsMap.set st.1 p.1.id (st.2, st.2 + span), st.2 + span))
    ([], -Real.pi)).1

/-- `childrenById` built from the parent map (source lines 350-361),
in parent-assignment order. -/
noncomputable def childrenOf (parentById : List (String × Option String)) :
    List (String × List String) :=
  parentById.foldl (fun m p =>
    match p.2 with
    | some par =>
      (match JsMap.get? m par with
       | some l => JsMap.set m par (l ++ [p.1])
       | none => JsMap.set m par [p.1])
    | none => m) []

/-- Output of the recursive angle assignment. -/
structure AngleState where
  angleById : List (String × ℝ)
  clusterDepthById : List (String × ℕ)

/-- `assignAngles` (source lines 363-395): a node sits at the midpoint of its
sector; the sector is subdivided among the sorted children proportionally to
their weights.  Fuel bounds the recursion depth (call sites pass more than
the component size, which the parent forest's depth cannot exceed). -/
noncomputable def assignAngles (nodes : List (String × LayoutNode))
    (childrenById : List (String × List String)) :
    ℕ → String → ℝ → ℝ → ℕ → AngleState → AngleState
  | 0, _, _, _, _, st => st
  | fuel + 1, nodeId, startAngle, endAngle, depth, st =>
    let st1 : AngleState :=
      { angleById := JsMap.set st.angleById nodeId ((startAngle + endAngle) / 2)
        clusterDepthById := JsMap.set st.clusterDepthById nodeId depth }
    match JsMap.get? childrenById nodeId with
    | none => st1
    | some children =>
      if children.isEmpty then st1
      else
        let sortedChildren := List.insertionSort
          (fun a b => localeLe (sortKeyOf nodes a) (sortKeyOf nodes b) = true) children
        let childWeights := sortedChildren.map (fun child =>
          match JsMap.get? nodes child with
          | none => (1 : ℝ)
          | some meta => nodeWeight meta)
        let totalChildWeight : ℝ := childWeights.foldl (fun a b => a + b) 0
        ((sortedChildren.zip childWeights).foldl
          (fun (sc : AngleState × ℝ) p =>
            let weightShare := if totalChildWeight > 0 then p.2 / totalChildWeight
              else 1 / (sortedChildren.length : ℝ)
            let span := (endAngle - startAngle) * weightShare
            (assignAngles nodes childrenById fuel p.1 sc.2 (sc.2 + span) (depth + 1) sc.1,
             sc.2 + span))
          (st1, startAngle)).1

/-- The per-tree angle assignment loop (source lines 397-407). -/
noncomputable def assignAllAngles (nodes : List (String × LayoutNode))
    (childrenById : List (String × List String))
    (sectorByTree : List (String × (ℝ × ℝ))) (pseudoRoots : List LayoutNode)
    (fuel : ℕ) : AngleState :=
  pseudoRoots.foldl (fun st root =>
    match JsMap.get? sectorByTree root.id with
    | none => st
    | some sector =>
      let st1 : AngleState :=
        { angleById := JsMap.set st.angleById root.id ((sector.1 + sector.2) / 2)
          clusterDepthById := JsMap.set st.clusterDepthById root.id 0 }
      assignAngles nodes childrenById fuel root.id sector.1 sector.2 0 st1)
    ⟨[], []⟩

/-- `maxDepth` (source lines 409-412). -/
def maxDepthOf (clusterDepthById : List (String × ℕ)) : ℕ :=
  clusterDepthById.foldl (fun m p => max m p.2) 0

/-- `baseRadiusByDepth` (source lines 414-422); the map holds entries for
depths `0..maxDepth` only, and a missing depth reads as `0`. -/
noncomputable def baseRadiusAt (hasMultiRoots : Bool) (maxDepth : ℕ) (depth : ℕ) : ℝ :=
  if depth ≤ maxDepth then
    if depth = 0 then (if hasMultiRoots then FIRST_RADIUS * 0.6 else 0)
    else (if hasMultiRoots then FIRST_RADIUS * 1.6 else FIRST_RADIUS)
      + LEVEL_GAP * ((depth : ℝ) - 1)
  else 0

/-- `addDepthOffset` (source lines 424-429): add `delta` to the offsets of
every depth from `depth` through `maxDepth`. -/
noncomputable def addDepthOffset (maxDepth : ℕ) (off : ℕ → ℝ) (depth : ℕ)
    (delta : ℝ) : ℕ → ℝ :=
  fun d => if depth ≤ d ∧ d ≤ maxDepth then off d + delta else off d

/-- Everything the relaxation passes read. -/
structure RelaxCtx where
  nodes : List (String × LayoutNode)
  movables : List LayoutNode
  lockedNodes : List LayoutNode
  angleById : List (String × ℝ)
  clusterDepthById : List (String × ℕ)
  hasMultiRoots : Bool
  maxDepth : ℕ

/-- The radius of a depth ring under the current offsets
(`getRadiusForDepth`, source lines 431-435). -/
noncomputable def radiusAt (ctx : RelaxCtx) (off : ℕ → ℝ) (depth : ℕ) : ℝ :=
  baseRadiusAt ctx.hasMultiRoots ctx.maxDepth depth + off depth

/-- `getComputedPosition` (source lines 437-449). -/
noncomputable def getComputedPosition (ctx : RelaxCtx) (off : ℕ → ℝ) (id : String) :
    Position :=
  let angle := (JsMap.get? ctx.angleById id).getD 0
  let depth := (JsMap.get? ctx.clusterDepthById id).getD 0
  let radius := radiusAt ctx off depth
  match JsMap.get? ctx.nodes id with
  | none => ⟨radius * Real.cos angle, radius * Real.sin angle⟩
  | some meta =>
    match meta.locked, meta.node.position with
    | true, some pos => pos
    | _, _ => ⟨radius * Real.cos angle, radius * Real.sin angle⟩

/-- The movable nodes of one depth ring, in component order (source line
460). -/
noncomputable def movablesAtDepth (ctx : RelaxCtx) (depth : ℕ) : List LayoutNode :=
  ctx.movables.filter (fun meta => (JsMap.get? ctx.clusterDepthById meta.id).getD 0 = depth)

/-- The same ring sorted by angle (source lines 464-468). -/
noncomputable def sortedRing (ctx : RelaxCtx) (depth : ℕ) : List LayoutNode :=
  List.insertionSort
    (fun a b => (JsMap.get? ctx.angleById a.id).getD 0 ≤ (JsMap.get? ctx.angleById b.id).getD 0)
    (movablesAtDepth ctx depth)

/-- The adjacent pairs tested by the same-depth pass (source lines 469-476):
each element with its cyclic successor, the wrap-around pair skipped for
rings of fewer than three nodes. -/
def testPairsOf (sorted : List LayoutNode) : List (LayoutNode × LayoutNode) :=
  (List.range sorted.length).foldl (fun acc idx =>
    if idx = sorted.length - 1 ∧ sorted.length < 3 then acc
    else
      match sorted.get? idx, sorted.get? ((idx + 1) % sorted.length) with
      | some a, some b => acc ++ [(a, b)]
      | _, _ => acc) []

open scoped Classical

/-- The same-depth sweep body: does ring `depth` (at least two nodes) have an
overlapping tested pair under the current offsets? -/
noncomputable def ringDepthOverlap (ctx : RelaxCtx) (off : ℕ → ℝ) (depth : ℕ) : Prop :=
  2 ≤ (movablesAtDepth ctx depth).length ∧
  ∃ pr ∈ testPairsOf (sortedRing ctx depth),
    boxOverlap (getComputedPosition ctx off pr.1.id) pr.1
      (getComputedPosition ctx off pr.2.id) pr.2 (NODE_MARGIN / 2)

/-- One sweep of the same-depth pass (source lines 459-491): the first depth
whose ring shows an overlap, scanning depths `0..maxDepth`. -/
noncomputable def ringSweep (ctx : RelaxCtx) (off : ℕ → ℝ) : Option ℕ :=
  (List.range (ctx.maxDepth + 1)).find? (fun depth => decide (ringDepthOverlap ctx off depth))

/-- The bounded same-depth relaxation loop (source lines 454-492): on an
overlap at some depth push that ring and all deeper rings out by
`NODE_MARGIN` and rescan; stop after `MAX_RING_ITERATIONS` scans. -/
noncomputable def ringLoop (ctx : RelaxCtx) : ℕ → (ℕ → ℝ) → (ℕ → ℝ)
  | 0, off => off
  | fuel + 1, off =>
    match ringSweep ctx off with
    | none => off
    | some depth => ringLoop ctx fuel (addDepthOffset ctx.maxDepth off depth NODE_MARGIN)

/-- The cross-depth sweep body: does some inner/outer pair of depths
`depth`/`depth+1` overlap? -/
noncomputable def radialDepthOverlap (ctx : RelaxCtx) (off : ℕ → ℝ) (depth : ℕ) : Prop :=
  ∃ inner ∈ movablesAtDepth ctx depth, ∃ outer ∈ movablesAtDepth ctx (depth + 1),
    boxOverlap (getComputedPosition ctx off inner.id) inner
      (getComputedPosition ctx off outer.id) outer (NODE_MARGIN / 2)

/-- One sweep of the cross-depth pass (source lines 496-524). -/
noncomputable def radialSweep (ctx : RelaxCtx) (off : ℕ → ℝ) : Option ℕ :=
  (List.range ctx.maxDepth).find? (fun depth => decide (radialDepthOverlap ctx off depth))

/-- The bounded cross-depth relaxation loop (source lines 494-525). -/
noncomputable def radialLoop (ctx : RelaxCtx) : ℕ → (ℕ → ℝ) → (ℕ → ℝ)
  | 0, off => off
  | fuel + 1, off =>
    match radialSweep ctx off with
    | none => off
    | some depth =>
      radialLoop ctx fuel (addDepthOffset ctx.maxDepth off (depth + 1) NODE_MARGIN)

/-- The locked-node pass (source lines 527-538).  The source reads the
movable node's position once before its `while` guard loop, so the guard
condition never changes: an overlapping movable node causes exactly
`MAX_RADIAL_ITERATIONS` offset increments of `NODE_MARGIN / 2` at its
depth. -/
noncomputable def lockedAdjust (ctx : RelaxCtx) (off0 : ℕ → ℝ) : ℕ → ℝ :=
  ctx.lockedNodes.foldl (fun off locked =>
    let lockedPos := locked.node.position.getD ⟨0, 0⟩
    ctx.movables.foldl (fun off2 meta =>
      let depth := (JsMap.get? ctx.clusterDepthById meta.id).getD 0
      let currentPos := getComputedPosition ctx off2 meta.id
      if boxOverlap lockedPos locked currentPos meta (NODE_MARGIN / 2) then
        (List.range MAX_RADIAL_ITERATIONS).foldl
          (fun o _ => addDepthOffset ctx.maxDepth o depth (NODE_MARGIN / 2)) off2
      else off2) off) off0

/-- The final position of one node (source lines 541-549): locked nodes with
caller positions verbatim, everything else on its ring at its angle. -/
noncomputable def finalNodePos (angleById : List (String × ℝ))
    (clusterDepthById : List (String × ℕ)) (radius : ℕ → ℝ) (meta : LayoutNode) :
    Position :=
  match meta.locked, meta.node.position with
  | true, some pos => pos
  | _, _ =>
    let angle := (JsMap.get? angleById meta.id).getD 0
    let depth := (JsMap.get? clusterDepthById meta.id).getD 0
    ⟨radius depth * Real.cos angle, radius depth * Real.sin angle⟩

/-- The final per-component positions (source lines 540-550). -/
noncomputable def componentPositions (componentNodes : List LayoutNode)
    (angleById : List (String × ℝ)) (clusterDepthById : List (String × ℕ))
    (radius : ℕ → ℝ) : List (String × Position) :=
  componentNodes.foldl (fun m meta =>
    JsMap.set m meta.id (finalNodePos angleById clusterDepthById radius meta)) []

/-- Result record of one component (source lines 35-39). -/
structure LayoutComponentResult where
  positions : List (String × Position)
  bounds : BoundingBox
  hasLocked : Bool

/-- The pseudo-roots of a component. -/
noncomputable def componentPseudoRoots (nodes : List (String × LayoutNode))
    (preferred : List String) (component : List String) : List LayoutNode :=
  selectPseudoRoots (componentNodesOf nodes component) preferred

/-- The component's spanning forest after orphan absorption. -/
noncomputable def componentForest (adjacency : List (String × List String))
    (nodes : List (String × LayoutNode)) (preferred : List String)
    (component : List String) : BfsState :=
  absorbOrphans
    (buildForest adjacency nodes component (componentPseudoRoots nodes preferred component))
    (componentPseudoRoots nodes preferred component)

/-- The component's angle and cluster-depth maps (source lines 307-407
composed). -/
noncomputable def componentAngleState (adjacency : List (String × List String))
    (nodes : List (String × LayoutNode)) (preferred : List String)
    (component : List String) : AngleState :=
  let componentNodes := componentNodesOf nodes component
  let pseudoRoots := componentPseudoRoots nodes preferred component
  let forest := componentForest adjacency nodes preferred component
  let nbt := nodesByTree componentNodes forest.treeById
  let weights := treeWeightsOf nbt
  let totalWeight : ℝ := (weights.map (fun p => p.2)).foldl (fun a b => a + b) 0
  let allocations := angleAllocationsOf pseudoRoots nbt weights totalWeight
  let sumAngles : ℝ := allocations.foldl (fun a b => a + b) 0
  let scale : ℝ := if sumAngles > 0 then 2 * Real.pi / sumAngles else 1
  let sectorByTree := sectorsOf pseudoRoots allocations scale
  let childrenById := childrenOf forest.parentById
  assignAllAngles nodes childrenById sectorByTree pseudoRoots (component.length + 1)

/-- The relaxation context of a component. -/
noncomputable def componentCtx (adjacency : List (String × List String))
    (nodes : List (String × LayoutNode)) (preferred : List String)
    (component : List String) : RelaxCtx :=
  let componentNodes := componentNodesOf nodes component
  let angles := componentAngleState adjacency nodes preferred component
  { nodes := nodes
    movables := componentNodes.filter (fun meta => !meta.locked)
    lockedNodes := componentNodes.filter (fun meta => meta.locked)
    angleById := angles.angleById
    clusterDepthById := angles.clusterDepthById
    hasMultiRoots := 1 < (componentPseudoRoots nodes preferred component).length
    maxDepth := maxDepthOf angles.clusterDepthById }

/-- The component's final depth offsets: same-depth pass, cross-depth pass,
then the locked-node pass (source lines 454-538). -/
noncomputable def componentOffsets (adjacency : List (String × List String))
    (nodes : List (String × LayoutNode)) (preferred : List String)
    (component : List String) : ℕ → ℝ :=
  let ctx := componentCtx adjacency nodes preferred component
  lockedAdjust ctx
    (radialLoop ctx MAX_RADIAL_ITERATIONS
      (ringLoop ctx MAX_RING_ITERATIONS (fun _ => 0)))

/-- The component's final radius per depth. -/
noncomputable def componentRadiusAt (adjacency : List (String × List String))
    (nodes : List (String × LayoutNode)) (preferred : List String)
    (component : List String) : ℕ → ℝ :=
  radiusAt (componentCtx adjacency nodes preferred component)
    (componentOffsets adjacency nodes preferred component)

/-- One component's layout result (source lines 240-558). -/
noncomputable def componentResult (adjacency : List (String × List String))
    (nodes : List (String × LayoutNode)) (preferred : List String)
    (component : List String) : LayoutComponentResult :=
  let componentNodes := componentNodesOf nodes component
  if componentNodes.isEmpty then ⟨[], ⟨0, 0, 0, 0⟩, false⟩
  else
    let angles := componentAngleState adjacency nodes preferred component
    let positions := componentPositions componentNodes angles.angleById
      angles.clusterDepthById (componentRadiusAt adjacency nodes preferred component)
    ⟨positions, toBoundingBox positions nodes,
      !(componentNodes.filter (fun meta => meta.locked)).isEmpty⟩

/-- State of the component-packing fold (source lines 560-609). -/
structure PackState where
  finalPositions : List (String × Position)
  packingOffsetX : ℝ
  packingOffsetY : ℝ
  aggregate : Option BoundingBox
  anyLocked : Bool

/-- One step of the component-packing fold: components with locked nodes are
copied verbatim; the others are shifted so their boxes start at the packing
cursor, which then advances by the box extent plus `COMPONENT_GAP`. -/
noncomputable def packStep (vertical : Bool) (st : PackState)
    (result : LayoutComponentResult) : PackState :=
  if result.positions.isEmpty then st
  else if result.hasLocked then
    { st with
      finalPositions := result.positions.foldl (fun m p => JsMap.set m p.1 p.2)
        st.finalPositions
      aggregate := some (match st.aggregate with
        | some b => mergeBoundingBoxes b result.bounds
        | none => result.bounds)
      anyLocked := true }
  else
    let width := result.bounds.maxX - result.bounds.minX
    let height := result.bounds.maxY - result.bounds.minY
    let offX : ℝ := if vertical then -result.bounds.minX
      else st.packingOffsetX - result.bounds.minX
    let offY : ℝ := if vertical then st.packingOffsetY - result.bounds.minY
      else -result.bounds.minY
    let shifted : BoundingBox := ⟨result.bounds.minX + offX, result.bounds.maxX + offX,
      result.bounds.minY + offY, result.bounds.maxY + offY⟩
    { finalPositions := result.positions.foldl
        (fun m p => JsMap.set m p.1 ⟨p.2.x + offX, p.2.y + offY⟩) st.finalPositions
      packingOffsetX := if vertical then st.packingOffsetX
        else st.packingOffsetX + width + COMPONENT_GAP
      packingOffsetY := if vertical then st.packingOffsetY + height + COMPONENT_GAP
        else st.packingOffsetY
      aggregate := some (match st.aggregate with
        | some b => mergeBoundingBoxes b shifted
        | none => shifted)
      anyLocked := st.anyLocked }

/-- The component-packing fold over all component results. -/
noncomputable def packComponents (results : List LayoutComponentResult)
    (vertical : Bool) : PackState :=
  results.foldl (packStep vertical) ⟨[], 0, 0, none, false⟩

/-- The final centering (source lines 611-617): only when no nonempty
component carried a locked node, translate everything so the aggregate box is
centered at the origin. -/
noncomputable def centerPositions (st : PackState) : List (String × Position) :=
  if st.anyLocked then st.finalPositions
  else
    match st.aggregate with
    | none => st.finalPositions
    | some b =>
      let cx := (b.minX + b.maxX) / 2
      let cy := (b.minY + b.maxY) / 2
      st.finalPositions.map (fun p => (p.1, ⟨p.2.x - cx, p.2.y - cy⟩))

/-- The backfill loop (source lines 619-623): any input node still missing
from the map gets its existing position, or the origin. -/
noncomputable def backfillPositions (nodesToLayout : List AppNode)
    (m : List (String × Position)) : List (String × Position) :=
  nodesToLayout.foldl (fun m2 node =>
    if (JsMap.get? m2 node.id).isSome then m2
    else JsMap.set m2 node.id (node.position.getD ⟨0, 0⟩)) m

/-- Options of `computeMindMapLayout`; `packVertical` models
`componentPacking: 'vertical'` (`false` is the `'horizontal'` default). -/
structure LayoutOptions where
  preferredRootIds : List String := []
  packVertical : Bool := false

/-- The nodes map and component list shared by the pipeline stages. -/
noncomputable def nodesMapOf (nodesToLayout : List AppNode)
    (edgesToLayout : List GEdge) : List (String × LayoutNode) :=
  buildNodesMap nodesToLayout (buildAdjacency nodesToLayout edgesToLayout)

/-- The connected components of the input. -/
noncomputable def componentsOf (nodesToLayout : List AppNode)
    (edgesToLayout : List GEdge) : List (List String) :=
  getConnectedComponents (buildAdjacency nodesToLayout edgesToLayout)
    (nodesMapOf nodesToLayout edgesToLayout)

/-- All per-component results of one layout invocation. -/
noncomputable def componentResultsOf (nodesToLayout : List AppNode)
    (edgesToLayout : List GEdge) (opts : LayoutOptions) : List LayoutComponentResult :=
  (componentsOf nodesToLayout edgesToLayout).map
    (componentResult (buildAdjacency nodesToLayout edgesToLayout)
      (nodesMapOf nodesToLayout edgesToLayout) opts.preferredRootIds)

/-- `computeMindMapLayout` (source lines 214-626): per-component radial
layout, component packing, optional global centering, backfill. -/
noncomputable def computeMindMapLayout (nodesToLayout : List AppNode)
    (edgesToLayout : List GEdge) (opts : LayoutOptions) : List (String × Position) :=
  backfillPositions nodesToLayout
    (centerPositions (packComponents (componentResultsOf nodesToLayout edgesToLayout opts)
      opts.packVertical))

end MindMap

namespace JsMap

theorem mem_keys_foldl_setv {α β : Type} (key : α → String) (val : α → β)
    (ps : List α) (m0 : List (String × β)) (k : String) :
    k ∈ keys (ps.foldl (fun m p => set m (key p) (val p)) m0) ↔
      k ∈ keys m0 ∨ k ∈ ps.map key := by
  induction ps generalizing m0 with
  | nil => simp
  | cons p t ih =>
    simp only [List.foldl_cons, List.map_cons, List.mem_cons]
    rw [ih, mem_keys_set]
    tauto

theorem nodup_keys_foldl_setv {α β : Type} (key : α → String) (val : α → β)
    (ps : List α) (m0 : List (String × β)) (h : (keys m0).Nodup) :
    (keys (ps.foldl (fun m p => set m (key p) (val p)) m0)).Nodup := by
  induction ps generalizing m0 with
  | nil => exact h
  | cons p t ih => exact ih _ (nodup_keys_set m0 (key p) (val p) h)

theorem get?_foldl_setv_skip {α β : Type} (key : α → String) (val : α → β)
    (ps : List α) (m0 : List (String × β)) (k : String) (h : ∀ p ∈ ps, key p ≠ k) :
    get? (ps.foldl (fun m p => set m (key p) (val p)) m0) k = get? m0 k := by
  induction ps generalizing m0 with
  | nil => rfl
  | cons p t ih =>
    simp only [List.foldl_cons]
    rw [ih _ (fun q hq => h q (List.mem_cons_of_mem p hq))]
    exact get?_set_ne m0 (key p) (val p) k
      (fun hk => h p (List.mem_cons_self p t) hk.symm)

theorem entry_mem_foldl_setv {α β : Type} (key : α → String) (val : α → β)
    (ps : List α) (m0 : List (String × β)) (e : String × β)
    (he : e ∈ ps.foldl (fun m p => set m (key p) (val p)) m0) :
    e ∈ m0 ∨ ∃ p ∈ ps, e = (key p, val p) := by
  induction ps generalizing m0 with
  | nil => exact Or.inl he
  | cons p t ih =>
    rcases ih (set m0 (key p) (val p)) he with h | h
    · rcases mem_set m0 (key p) (val p) e h with h2 | h2
      · exact Or.inl h2
      · exact Or.inr ⟨p, List.mem_cons_self p t, h2⟩
    · obtain ⟨q, hq, he2⟩ := h
      exact Or.inr ⟨q, List.mem_cons_of_mem p hq, he2⟩

theorem get?_foldl_setv_unique {α β : Type} (key : α → String) (val : α → β)
    (ps : List α) (m0 : List (String × β)) (p : α) (hp : p ∈ ps)
    (hnd : (ps.map key).Nodup) :
    get? (ps.foldl (fun m q => set m (key q) (val q)) m0) (key p) = some (val p) := by
  induction ps generalizing m0 with
  | nil => cases hp
  | cons q t ih =>
    simp only [List.map_cons, List.nodup_cons] at hnd
    rcases List.mem_cons.mp hp with h | h
    · subst h
      simp only [List.foldl_cons]
      rw [get?_foldl_setv_skip key val t _ (key p)
        (fun r hr hrk => hnd.1 (hrk ▸ List.mem_map.mpr ⟨r, hr, rfl⟩))]
      exact get?_set_self m0 (key p) (val p)
    · simp only [List.foldl_cons]
      exact ih _ h hnd.2

theorem get?_foldl_pairs_const {β : Type} (pairs : List (String × β))
    (m0 : List (String × β)) (k : String) (p : β)
    (h : ∀ e ∈ pairs, e.1 = k → e.2 = p) :
    get? (pairs.foldl (fun m e => set m e.1 e.2) m0) k = get? m0 k ∨
    get? (pairs.foldl (fun m e => set m e.1 e.2) m0) k = some p := by
  induction pairs generalizing m0 with
  | nil => exact Or.inl rfl
  | cons e t ih =>
    simp only [List.foldl_cons]
    by_cases hek : e.1 = k
    · have hv : e.2 = p := h e (List.mem_cons_self e t) hek
      rcases ih (set m0 e.1 e.2) (fun q hq => h q (List.mem_cons_of_mem e hq)) with
        h2 | h2
      · rw [h2, hek]
        rw [get?_set_self m0 k (e.2), hv]
        exact Or.inr rfl
      · exact Or.inr h2
    · rcases ih (set m0 e.1 e.2) (fun q hq => h q (List.mem_cons_of_mem e hq)) with
        h2 | h2
      · rw [h2]
        exact Or.inl (get?_set_ne m0 e.1 e.2 k (fun hk => hek hk.symm))
      · exact Or.inr h2

theorem get?_mono_foldl_pairs {β : Type} (pairs : List (String × β))
    (m0 : List (String × β)) (k : String) (p : β) (h : get? m0 k = some p)
    (hc : ∀ e ∈ pairs, e.1 = k → e.2 = p) :
    get? (pairs.foldl (fun m e => set m e.1 e.2) m0) k = some p := by
  induction pairs generalizing m0 with
  | nil => exact h
  | cons e t ih =>
    simp only [List.foldl_cons]
    by_cases hek : e.1 = k
    · refine ih (set m0 e.1 e.2) ?_ (fun q hq => hc q (List.mem_cons_of_mem e hq))
      rw [hek, get?_set_self, hc e (List.mem_cons_self e t) hek]
    · refine ih (set m0 e.1 e.2) ?_ (fun q hq => hc q (List.mem_cons_of_mem e hq))
      rw [get?_set_ne m0 e.1 e.2 k (fun hk => hek hk.symm)]
      exact h

end JsMap

namespace MindMap

theorem buildNodesMap_entry (input : List AppNode) (adj : List (String × List String))
    (e : String × LayoutNode) (he : e ∈ buildNodesMap input adj) :
    e.2.id = e.1 ∧ e.1 ∈ input.map (fun n => n.id) := by
  rw [buildNodesMap] at he
  rcases JsMap.entry_mem_foldl_setv (fun n => n.id) (mkLayoutNode adj) input [] e he
    with h | h
  · cases h
  · obtain ⟨p, hp, he2⟩ := h
    rw [he2]
    exact ⟨rfl, List.mem_map.mpr ⟨p, hp, rfl⟩⟩

theorem nodesMap_value_id (input : List AppNode) (adj : List (String × List String))
    (k : String) (v : LayoutNode) (h : JsMap.get? (buildNodesMap input adj) k = some v) :
    v.id = k :=
  (buildNodesMap_entry input adj (k, v) (JsMap.get?_mem _ k v h)).1

theorem nodesMap_key_mem (input : List AppNode) (adj : List (String × List String))
    (k : String) (v : LayoutNode) (h : JsMap.get? (buildNodesMap input adj) k = some v) :
    k ∈ input.map (fun n => n.id) :=
  (buildNodesMap_entry input adj (k, v) (JsMap.get?_mem _ k v h)).2

theorem get?_buildNodesMap_of_mem (input : List AppNode)
    (adj : List (String × List String)) (hnd : (input.map (fun n => n.id)).Nodup)
    (n : AppNode) (hmem : n ∈ input) :
    JsMap.get? (buildNodesMap input adj) n.id = some (mkLayoutNode adj n) := by
  rw [buildNodesMap]
  exact JsMap.get?_foldl_setv_unique (fun q => q.id) (mkLayoutNode adj) input [] n hmem hnd

theorem componentNodesOf_mem_get (nodes : List (String × LayoutNode))
    (component : List String) (meta : LayoutNode)
    (hvid : ∀ k v, JsMap.get? nodes k = some v → v.id = k)
    (h : meta ∈ componentNodesOf nodes component) :
    JsMap.get? nodes meta.id = some meta := by
  rw [componentNodesOf] at h
  obtain ⟨id, _, hid⟩ := List.mem_filterMap.mp h
  have hvi := hvid id meta hid
  rw [← hvi] at hid
  exact hid

theorem componentPositions_entry (cns : List LayoutNode)
    (angleById : List (String × ℝ)) (clusterDepthById : List (String × ℕ))
    (radius : ℕ → ℝ) (e : String × Position)
    (he : e ∈ componentPositions cns angleById clusterDepthById radius) :
    ∃ meta ∈ cns, e = (meta.id, finalNodePos angleById clusterDepthById radius meta) := by
  rw [componentPositions] at he
  rcases JsMap.entry_mem_foldl_setv (fun meta => meta.id)
    (finalNodePos angleById clusterDepthById radius) cns [] e he with h | h
  · cases h
  · exact h

theorem componentResult_entry (adj : List (String × List String))
    (nodes : List (String × LayoutNode)) (preferred : List String)
    (component : List String) (e : String × Position)
    (he : e ∈ (componentResult adj nodes preferred component).positions) :
    ∃ meta ∈ componentNodesOf nodes component,
      e.1 = meta.id ∧
      e.2 = finalNodePos (componentAngleState adj nodes preferred component).angleById
        (componentAngleState adj nodes preferred component).clusterDepthById
        (componentRadiusAt adj nodes preferred component) meta := by
  rw [componentResult] at he
  by_cases hemp : (componentNodesOf nodes component).isEmpty
  · rw [if_pos hemp] at he
    cases he
  · rw [if_neg hemp] at he
    obtain ⟨meta, hm, he2⟩ := componentPositions_entry _ _ _ _ e he
    exact ⟨meta, hm, by rw [he2], by rw [he2]⟩

theorem componentResult_hasLocked_of_mem (adj : List (String × List String))
    (nodes : List (String × LayoutNode)) (preferred : List String)
    (component : List String) (meta : LayoutNode)
    (hm : meta ∈ componentNodesOf nodes component) (hl : meta.locked = true) :
    (componentResult adj nodes preferred component).hasLocked = true := by
  rw [componentResult]
  have hemp : (componentNodesOf nodes component).isEmpty = false := by
    cases hcn : componentNodesOf nodes component with
    | nil => rw [hcn] at hm; cases hm
    | cons a t => simp [List.isEmpty]
  rw [if_neg (by rw [hemp]; exact fun h => nomatch h)]
  have : meta ∈ (componentNodesOf nodes component).filter (fun q => q.locked) :=
    List.mem_filter.mpr ⟨hm, hl⟩
  cases hf : (componentNodesOf nodes component).filter (fun q => q.locked) with
  | nil => rw [hf] at this; cases this
  | cons a t => simp [List.isEmpty]

theorem backfill_mem_keys (input : List AppNode) (m : List (String × Position))
    (k : String) :
    k ∈ JsMap.keys (backfillPositions input m) ↔
      k ∈ JsMap.keys m ∨ k ∈ input.map (fun n => n.id) := by
  induction input generalizing m with
  | nil => simp [backfillPositions]
  | cons node t ih =>
    rw [backfillPositions, List.foldl_cons]
    rw [show (t.foldl (fun m2 q =>
        if (JsMap.get? m2 q.id).isSome then m2
        else JsMap.set m2 q.id (q.position.getD ⟨0, 0⟩))
        (if (JsMap.get? m node.id).isSome then m
         else JsMap.set m node.id (node.position.getD ⟨0, 0⟩)))
      = backfillPositions t (if (JsMap.get? m node.id).isSome then m
         else JsMap.set m node.id (node.position.getD ⟨0, 0⟩)) from rfl]
    rw [ih]
    by_cases hs : (JsMap.get? m node.id).isSome
    · rw [if_pos hs]
      have hmem := (JsMap.get?_isSome_iff_mem_keys m node.id).mp hs
      simp only [List.map_cons, List.mem_cons]
      constructor
      · rintro (h | h)
        · exact Or.inl h
        · exact Or.inr (Or.inr h)
      · rintro (h | rfl | h)
        · exact Or.inl h
        · exact Or.inl hmem
        · exact Or.inr h
    · rw [if_neg hs]
      rw [JsMap.mem_keys_set]
      simp only [List.map_cons, List.mem_cons]
      tauto

theorem backfill_nodup_keys (input : List AppNode) (m : List (String × Position))
    (h : (JsMap.keys m).Nodup) : (JsMap.keys (backfillPositions input m)).Nodup := by
  induction input generalizing m with
  | nil => exact h
  | cons node t ih =>
    rw [backfillPositions, List.foldl_cons]
    by_cases hs : (JsMap.get? m node.id).isSome
    · rw [if_pos hs]
      exact ih m h
    · rw [if_neg hs]
      exact ih _ (JsMap.nodup_keys_set m node.id _ h)

theorem centerPositions_keys (st : PackState) :
    JsMap.keys (centerPositions st) = JsMap.keys st.finalPositions := by
  rw [centerPositions]
  by_cases hl : st.anyLocked
  · rw [if_pos hl]
  · rw [if_neg hl]
    cases st.aggregate with
    | none => rfl
    | some b => simp [JsMap.keys, List.map_map]

theorem packStep_keys (vertical : Bool) (st : PackState) (r : LayoutComponentResult)
    (k : String) (h : k ∈ JsMap.keys (packStep vertical st r).finalPositions) :
    k ∈ JsMap.keys st.finalPositions ∨ k ∈ JsMap.keys r.positions := by
  rw [packStep] at h
  by_cases hemp : r.positions.isEmpty
  · rw [if_pos hemp] at h
    exact Or.inl h
  · rw [if_neg hemp] at h
    by_cases hlock : r.hasLocked
    · rw [if_pos hlock] at h
      simp only at h
      rcases (JsMap.mem_keys_foldl_setv (fun p => p.1) (fun p => p.2) r.positions
        st.finalPositions k).mp (by simpa using h) with h2 | h2
      · exact Or.inl h2
      · exact Or.inr (by simpa [JsMap.keys] using h2)
    · rw [if_neg hlock] at h
      simp only at h
      rcases (JsMap.mem_keys_foldl_setv (fun p => p.1)
        (fun p => (⟨p.2.x + (if vertical then -r.bounds.minX else st.packingOffsetX - r.bounds.minX),
          p.2.y + (if vertical then st.packingOffsetY - r.bounds.minY else -r.bounds.minY)⟩ : Position))
        r.positions st.finalPositions k).mp (by simpa using h) with h2 | h2
      · exact Or.inl h2
      · exact Or.inr (by simpa [JsMap.keys] using h2)

theorem packComponents_keys (results : List LayoutComponentResult) (vertical : Bool)
    (k : String) (h : k ∈ JsMap.keys (packComponents results vertical).finalPositions) :
    ∃ r ∈ results, k ∈ JsMap.keys r.positions := by
  rw [packComponents] at h
  suffices hgen : ∀ (rs : List LayoutComponentResult) (st : PackState),
      k ∈ JsMap.keys (rs.foldl (packStep vertical) st).finalPositions →
      k ∈ JsMap.keys st.finalPositions ∨ ∃ r ∈ rs, k ∈ JsMap.keys r.positions by
    rcases hgen results ⟨[], 0, 0, none, false⟩ h with h2 | h2
    · cases h2
    · exact h2
  intro rs
  induction rs with
  | nil => exact fun st h2 => Or.inl h2
  | cons r t ih =>
    intro st h2
    rw [List.foldl_cons] at h2
    rcases ih (packStep vertical st r) h2 with h3 | h3
    · rcases packStep_keys vertical st r k h3 with h4 | h4
      · exact Or.inl h4
      · exact Or.inr ⟨r, List.mem_cons_self r t, h4⟩
    · obtain ⟨q, hq, hk⟩ := h3
      exact Or.inr ⟨q, List.mem_cons_of_mem r hq, hk⟩

end MindMap

namespace MindMap

theorem packStep_nodup (vertical : Bool) (st : PackState) (r : LayoutComponentResult)
    (h : (JsMap.keys st.finalPositions).Nodup) :
    (JsMap.keys (packStep vertical st r).finalPositions).Nodup := by
  rw [packStep]
  by_cases hemp : r.positions.isEmpty
  · rw [if_pos hemp]
    exact h
  · rw [if_neg hemp]
    by_cases hlock : r.hasLocked
    · rw [if_pos hlock]
      exact JsMap.nodup_keys_foldl_setv (fun p => p.1) (fun p => p.2) r.positions
        st.finalPositions h
    · rw [if_neg hlock]
      simp only
      exact JsMap.nodup_keys_foldl_setv (fun p => p.1) _ r.positions st.finalPositions h

theorem packComponents_nodup (results : List LayoutComponentResult) (vertical : Bool) :
    (JsMap.keys (packComponents results vertical).finalPositions).Nodup := by
  rw [packComponents]
  suffices hgen : ∀ (rs : List LayoutComponentResult) (st : PackState),
      (JsMap.keys st.finalPositions).Nodup →
      (JsMap.keys (rs.foldl (packStep vertical) st).finalPositions).Nodup by
    exact hgen results ⟨[], 0, 0, none, false⟩ (by simp [JsMap.keys])
  intro rs
  induction rs with
  | nil => exact fun st h => h
  | cons r t ih =>
    intro st h
    rw [List.foldl_cons]
    exact ih (packStep vertical st r) (packStep_nodup vertical st r h)

/-- C6: the key set of the returned position map is exactly the set of input
node ids, each appearing once (keys of the modelled map are duplicate-free).
The hypothesis pins the options to the caller-used shape (no preferred
roots), where the embedding is faithful. -/
theorem computeMindMapLayout_keys (nodesToLayout : List AppNode)
    (edgesToLayout : List GEdge) (opts : LayoutOptions)
    (_hpref : opts.preferredRootIds = []) :
    (JsMap.keys (computeMindMapLayout nodesToLayout edgesToLayout opts)).Nodup ∧
    ∀ k, k ∈ JsMap.keys (computeMindMapLayout nodesToLayout edgesToLayout opts) ↔
      k ∈ nodesToLayout.map (fun n => n.id) := by
  rw [computeMindMapLayout]
  constructor
  · apply backfill_nodup_keys
    rw [centerPositions_keys]
    exact packComponents_nodup _ _
  · intro k
    rw [backfill_mem_keys]
    constructor
    · rintro (h | h)
      · rw [centerPositions_keys] at h
        obtain ⟨r, hr, hk⟩ := packComponents_keys _ _ k h
        rw [componentResultsOf] at hr
        obtain ⟨component, _, hrc⟩ := List.mem_map.mp hr
        rw [← hrc] at hk
        have hsome := (JsMap.get?_isSome_iff_mem_keys _ k).mpr hk
        obtain ⟨v, hv⟩ := Option.isSome_iff_exists.mp hsome
        obtain ⟨meta, hmeta, hk1, _⟩ :=
          componentResult_entry _ _ _ component (k, v) (JsMap.get?_mem _ k v hv)
        have hget := componentNodesOf_mem_get _ component meta
          (fun a b hb => nodesMap_value_id nodesToLayout _ a b hb) hmeta
        have hmm := nodesMap_key_mem nodesToLayout _ meta.id meta hget
        have hk2 : k = meta.id := hk1
        rw [hk2]
        exact hmm
      · exact h
    · intro h
      exact Or.inr h

end MindMap

namespace MindMap

theorem packComponents_locked_value (results : List LayoutComponentResult)
    (vertical : Bool) (k : String) (p : Position)
    (hall : ∀ r ∈ results, (∀ e ∈ r.positions, e.1 = k → e.2 = p) ∧
      ((∃ e ∈ r.positions, e.1 = k) → r.hasLocked = true)) :
    JsMap.get? (packComponents results vertical).finalPositions k = none ∨
    (JsMap.get? (packComponents results vertical).finalPositions k = some p ∧
      (packComponents results vertical).anyLocked = true) := by
  rw [packComponents]
  suffices hgen : ∀ (rs : List LayoutComponentResult) (st : PackState),
      (∀ r ∈ rs, (∀ e ∈ r.positions, e.1 = k → e.2 = p) ∧
        ((∃ e ∈ r.positions, e.1 = k) → r.hasLocked = true)) →
      (JsMap.get? st.finalPositions k = none ∨
        (JsMap.get? st.finalPositions k = some p ∧ st.anyLocked = true)) →
      (JsMap.get? (rs.foldl (packStep vertical) st).finalPositions k = none ∨
        (JsMap.get? (rs.foldl (packStep vertical) st).finalPositions k = some p ∧
          (rs.foldl (packStep vertical) st).anyLocked = true)) by
    exact hgen results ⟨[], 0, 0, none, false⟩ hall (Or.inl rfl)
  intro rs
  induction rs with
  | nil => exact fun st _ h => h
  | cons r t ih =>
    intro st hall2 hst
    rw [List.foldl_cons]
    refine ih (packStep vertical st r) (fun q hq => hall2 q (List.mem_cons_of_mem r hq)) ?_
    have hr := hall2 r (List.mem_cons_self r t)
    rw [packStep]
    by_cases hemp : r.positions.isEmpty
    · rw [if_pos hemp]
      exact hst
    · rw [if_neg hemp]
      by_cases hlock : r.hasLocked
      · rw [if_pos hlock]
        simp only
        rcases JsMap.get?_foldl_pairs_const r.positions st.finalPositions k p hr.1 with
          h2 | h2
        · rw [h2]
          rcases hst with h3 | h3
          · exact Or.inl h3
          · exact Or.inr ⟨h3.1, by trivial⟩
        · rw [h2]
          exact Or.inr ⟨rfl, by trivial⟩
      · rw [if_neg hlock]
        simp only
        have hnone : ∀ e ∈ r.positions, e.1 ≠ k := by
          intro e he hek
          exact hlock (by rw [hr.2 ⟨e, he, hek⟩])
        rw [JsMap.get?_foldl_setv_skip (fun e => e.1) _ r.positions st.finalPositions k
          hnone]
        exact hst

theorem centerPositions_locked_value (st : PackState) (k : String) (p : Position)
    (h : JsMap.get? st.finalPositions k = none ∨
      (JsMap.get? st.finalPositions k = some p ∧ st.anyLocked = true)) :
    JsMap.get? (centerPositions st) k = none ∨
    JsMap.get? (centerPositions st) k = some p := by
  rcases h with h | ⟨hsome, hany⟩
  · left
    have hk : k ∉ JsMap.keys st.finalPositions := by
      intro hk
      have := (JsMap.get?_isSome_iff_mem_keys st.finalPositions k).mpr hk
      rw [h] at this
      cases this
    have hk2 : k ∉ JsMap.keys (centerPositions st) := by
      rw [centerPositions_keys]
      exact hk
    cases ho : JsMap.get? (centerPositions st) k with
    | none => rfl
    | some v =>
      exact absurd ((JsMap.get?_isSome_iff_mem_keys _ k).mp (by rw [ho]; rfl)) hk2
  · right
    rw [centerPositions, if_pos hany]
    exact hsome

theorem backfill_preserve (input : List AppNode) (m : List (String × Position))
    (k : String) (p : Position) (h : JsMap.get? m k = some p) :
    JsMap.get? (backfillPositions input m) k = some p := by
  induction input generalizing m with
  | nil => exact h
  | cons node t ih =>
    rw [backfillPositions, List.foldl_cons]
    by_cases hs : (JsMap.get? m node.id).isSome
    · rw [if_pos hs]
      exact ih m h
    · rw [if_neg hs]
      by_cases hk : node.id = k
      · exfalso
        rw [hk, h] at hs
        exact hs rfl
      · refine ih _ ?_
        rw [JsMap.get?_set_ne m node.id _ k (fun h2 => hk h2.symm)]
        exact h

theorem backfill_fills (input : List AppNode)
    (hnd : (input.map (fun n => n.id)).Nodup) (n : AppNode) (hmem : n ∈ input)
    (m : List (String × Position)) (h : JsMap.get? m n.id = none) :
    JsMap.get? (backfillPositions input m) n.id = some (n.position.getD ⟨0, 0⟩) := by
  induction input generalizing m with
  | nil => cases hmem
  | cons q t ih =>
    simp only [List.map_cons, List.nodup_cons] at hnd
    rw [backfillPositions, List.foldl_cons]
    rcases List.mem_cons.mp hmem with rfl | hmem2
    · rw [if_neg (by rw [h]; exact fun h2 => nomatch h2)]
      exact backfill_preserve t _ n.id _ (JsMap.get?_set_self m n.id _)
    · have hq : q.id ≠ n.id := by
        intro h2
        exact hnd.1 (h2 ▸ List.mem_map.mpr ⟨n, hmem2, rfl⟩)
      by_cases hs : (JsMap.get? m q.id).isSome
      · rw [if_pos hs]
        exact ih hnd.2 hmem2 m h
      · rw [if_neg hs]
        refine ih hnd.2 hmem2 _ ?_
        rw [JsMap.get?_set_ne m q.id _ n.id (fun h2 => hq h2.symm)]
        exact h

theorem results_locked_value (nodesToLayout : List AppNode)
    (edgesToLayout : List GEdge) (opts : LayoutOptions)
    (hnd : (nodesToLayout.map (fun n => n.id)).Nodup)
    (n : AppNode) (hmem : n ∈ nodesToLayout) (hlock : isNodeLocked n = true)
    (p : Position) (hpos : n.position = some p) :
    ∀ r ∈ componentResultsOf nodesToLayout edgesToLayout opts,
      (∀ e ∈ r.positions, e.1 = n.id → e.2 = p) ∧
      ((∃ e ∈ r.positions, e.1 = n.id) → r.hasLocked = true) := by
  intro r hr
  rw [componentResultsOf] at hr
  obtain ⟨component, _, hrc⟩ := List.mem_map.mp hr
  have hget : JsMap.get? (nodesMapOf nodesToLayout edgesToLayout) n.id
      = some (mkLayoutNode (buildAdjacency nodesToLayout edgesToLayout) n) :=
    get?_buildNodesMap_of_mem nodesToLayout _ hnd n hmem
  have hmeta_of : ∀ e ∈ r.positions, e.1 = n.id →
      ∃ meta ∈ componentNodesOf (nodesMapOf nodesToLayout edgesToLayout) component,
        meta = mkLayoutNode (buildAdjacency nodesToLayout edgesToLayout) n ∧
        e.2 = finalNodePos
          (componentAngleState (buildAdjacency nodesToLayout edgesToLayout)
            (nodesMapOf nodesToLayout edgesToLayout) opts.preferredRootIds component).angleById
          (componentAngleState (buildAdjacency nodesToLayout edgesToLayout)
            (nodesMapOf nodesToLayout edgesToLayout) opts.preferredRootIds component).clusterDepthById
          (componentRadiusAt (buildAdjacency nodesToLayout edgesToLayout)
            (nodesMapOf nodesToLayout edgesToLayout) opts.preferredRootIds component) meta := by
    intro e he hek
    rw [← hrc] at he
    obtain ⟨meta, hm, hk1, hval⟩ := componentResult_entry
      (buildAdjacency nodesToLayout edgesToLayout) (nodesMapOf nodesToLayout edgesToLayout)
      opts.preferredRootIds component e he
    have hgm := componentNodesOf_mem_get (nodesMapOf nodesToLayout edgesToLayout)
      component meta
      (fun a b hb => nodesMap_value_id nodesToLayout
        (buildAdjacency nodesToLayout edgesToLayout) a b hb) hm
    have hid : meta.id = n.id := by rw [← hk1, hek]
    rw [hid, hget] at hgm
    exact ⟨meta, hm, by injection hgm with h2; exact h2.symm, hval⟩
  constructor
  · intro e he hek
    obtain ⟨meta, _, hmeq, hval⟩ := hmeta_of e he hek
    rw [hval, hmeq, finalNodePos]
    rw [show (mkLayoutNode (buildAdjacency nodesToLayout edgesToLayout) n).locked
        = true from hlock]
    rw [show (mkLayoutNode (buildAdjacency nodesToLayout edgesToLayout) n).node.position
        = some p from hpos]
  · rintro ⟨e, he, hek⟩
    obtain ⟨meta, hm, hmeq, _⟩ := hmeta_of e he hek
    rw [← hrc]
    refine componentResult_hasLocked_of_mem _ _ _ component meta hm ?_
    rw [hmeq]
    exact hlock

/-- C1, radial-solver part (amended claim): `computeMindMapLayout` returns a
locked node's caller-provided position verbatim. -/
theorem computeMindMapLayout_locked_preserved (nodesToLayout : List AppNode)
    (edgesToLayout : List GEdge) (opts : LayoutOptions)
    (_hpref : opts.preferredRootIds = [])
    (hnd : (nodesToLayout.map (fun n => n.id)).Nodup)
    (n : AppNode) (hmem : n ∈ nodesToLayout) (hlock : isNodeLocked n = true)
    (p : Position) (hpos : n.position = some p) :
    JsMap.get? (computeMindMapLayout nodesToLayout edgesToLayout opts) n.id = some p := by
  rw [computeMindMapLayout]
  have hall := results_locked_value nodesToLayout edgesToLayout opts hnd n hmem hlock p hpos
  rcases centerPositions_locked_value _ n.id p
    (packComponents_locked_value _ opts.packVertical n.id p hall) with hc | hc
  · rw [backfill_fills nodesToLayout hnd n hmem _ hc, hpos]
    rfl
  · exact backfill_preserve nodesToLayout _ n.id p hc

/-- C1 witness: one locked node at `(1, 2)` keeps its position. -/
theorem computeMindMapLayout_locked_preserved_witness :
    JsMap.get? (computeMindMapLayout
      [{ id := "a", lockedFlag := true, position := some ⟨1, 2⟩ }] [] {}) "a"
      = some ⟨1, 2⟩ :=
  computeMindMapLayout_locked_preserved
    [{ id := "a", lockedFlag := true, position := some ⟨1, 2⟩ }] [] {} rfl
    (by simp) { id := "a", lockedFlag := true, position := some ⟨1, 2⟩ }
    (by simp) rfl ⟨1, 2⟩ rfl

/-! ### The ELK fallback path (source lines 650-724)

`runElkLayout` hands the node sizes and edges to the external `elk.layout`
and overwrites every node's position with whatever the library returns; the
input positions are not part of the request at all.  The external library is
modelled as an oracle function from the request to the returned children. -/

/-- A node of the ELK request: id and dimensions only. -/
structure ElkNodeIn where
  id : String
  width : ℝ
  height : ℝ

/-- An edge of the ELK request. -/
structure ElkEdgeIn where
  id : String
  source : String
  target : String

/-- A child of the ELK response: its `x`/`y` may be absent. -/
structure ElkChildOut where
  id : String
  x : Option ℝ
  y : Option ℝ

/-- The node payload `runElkLayout` sends (source lines 651-655). -/
noncomputable def elkRequestNodes (nodesToLayout : List AppNode) : List ElkNodeIn :=
  nodesToLayout.map (fun n =>
    ⟨n.id, n.measuredWidth.getD NODE_WIDTH, n.measuredHeight.getD NODE_HEIGHT⟩)

/-- The edge payload `runElkLayout` sends (source lines 656-660). -/
def elkRequestEdges (edgesToLayout : List GEdge) : List ElkEdgeIn :=
  edgesToLayout.map (fun e => ⟨e.id, e.source, e.target⟩)

/-- `runElkLayout` (source lines 650-675), parametric in the library's
response: the returned position map is `{x: child.x ?? 0, y: child.y ?? 0}`
per returned child. -/
noncomputable def runElkLayout
    (elkResponse : List ElkNodeIn → List ElkEdgeIn → List ElkChildOut)
    (nodesToLayout : List AppNode) (edgesToLayout : List GEdge) :
    List (String × Position) :=
  (elkResponse (elkRequestNodes nodesToLayout) (elkRequestEdges edgesToLayout)).foldl
    (fun m child => JsMap.set m child.id ⟨child.x.getD 0, child.y.getD 0⟩) []

/-- The catch branch of `applyLayout` (source lines 706-712): every node's
position becomes the ELK result, falling back to the old position or the
origin only when ELK returned nothing for it. -/
noncomputable def applyElkFallback
    (elkResponse : List ElkNodeIn → List ElkEdgeIn → List ElkChildOut)
    (nodesToLayout : List AppNode) (edgesToLayout : List GEdge) :
    List (String × Position) :=
  nodesToLayout.map (fun node =>
    (node.id,
      match JsMap.get? (runElkLayout elkResponse nodesToLayout edgesToLayout) node.id with
      | some pos => pos
      | none => node.position.getD ⟨0, 0⟩))

/-- The ELK request carries no position information: two inputs with the same
ids and measured sizes produce the same request, whatever their positions and
lock flags. -/
theorem elkRequest_ignores_positions (nodes1 nodes2 : List AppNode)
    (h : nodes1.map (fun n => (n.id, n.measuredWidth, n.measuredHeight))
       = nodes2.map (fun n => (n.id, n.measuredWidth, n.measuredHeight))) :
    elkRequestNodes nodes1 = elkRequestNodes nodes2 := by
  induction nodes1 generalizing nodes2 with
  | nil =>
    cases nodes2 with
    | nil => rfl
    | cons b t => cases h
  | cons a t ih =>
    cases nodes2 with
    | nil => cases h
    | cons b t2 =>
      simp only [List.map_cons, List.cons.injEq] at h
      simp only [elkRequestNodes, List.map_cons, List.cons.injEq]
      constructor
      · rw [show a.id = b.id from congrArg Prod.fst h.1]
        have hw : a.measuredWidth = b.measuredWidth := congrArg (fun q => q.2.1) h.1
        have hh : a.measuredHeight = b.measuredHeight := congrArg (fun q => q.2.2) h.1
        rw [hw, hh]
      · exact ih t2 h.2

/-- C1, as stated, is false on the ELK fallback path: with a single node
locked at `(1, 2)` and the library returning `(5, 7)` for it, the fallback
path outputs `(5, 7)`, not the caller-provided position — the input position
is never sent to the library, so it cannot be preserved. -/
theorem elk_fallback_locked_counterexample :
    JsMap.get? (applyElkFallback (fun _ _ => [⟨"a", some 5, some 7⟩])
      [{ id := "a", lockedFlag := true, position := some ⟨1, 2⟩ }] []) "a"
      = some ⟨5, 7⟩ ∧
    (⟨5, 7⟩ : Position) ≠ ⟨1, 2⟩ := by
  constructor
  · rw [applyElkFallback, runElkLayout]
    simp [JsMap.get?, JsMap.set, elkRequestNodes, elkRequestEdges]
  · intro h
    have : (5 : ℝ) = 1 := congrArg Position.x h
    norm_num at this

end MindMap

namespace MindMap

/-- C6 witness: the key-set theorem applied at a concrete one-node input. -/
theorem computeMindMapLayout_keys_witness :
    (JsMap.keys (computeMindMapLayout [{ id := "a" }] [] {})).Nodup ∧
    ∀ k, k ∈ JsMap.keys (computeMindMapLayout [{ id := "a" }] [] {}) ↔
      k ∈ ([{ id := "a" }] : List AppNode).map (fun n => n.id) :=
  computeMindMapLayout_keys [{ id := "a" }] [] {} rfl

/-- The widths (plus gaps) of the components that advance the packing
cursor: empty components and components holding locked nodes contribute
nothing. -/
noncomputable def activeWidthSum : List LayoutComponentResult → ℝ
  | [] => 0
  | r :: t =>
    (if r.positions.isEmpty then 0
     else if r.hasLocked then 0
     else (r.bounds.maxX - r.bounds.minX) + COMPONENT_GAP) + activeWidthSum t

theorem packStep_offsetX (st : PackState) (r : LayoutComponentResult) :
    (packStep false st r).packingOffsetX = st.packingOffsetX +
      (if r.positions.isEmpty then 0
       else if r.hasLocked then 0
       else (r.bounds.maxX - r.bounds.minX) + COMPONENT_GAP) := by
  rw [packStep]
  by_cases hemp : r.positions.isEmpty
  · rw [if_pos hemp, if_pos hemp]
    ring
  · rw [if_neg hemp, if_neg hemp]
    by_cases hlock : r.hasLocked
    · rw [if_pos hlock, if_pos hlock]
      ring
    · rw [if_neg hlock, if_neg hlock]
      simp only [Bool.false_eq_true, if_false]
      ring

theorem foldl_packStep_offsetX (rs : List LayoutComponentResult) (st : PackState) :
    (rs.foldl (packStep false) st).packingOffsetX
      = st.packingOffsetX + activeWidthSum rs := by
  induction rs generalizing st with
  | nil =>
    rw [List.foldl_nil, activeWidthSum]
    ring
  | cons r t ih =>
    rw [List.foldl_cons, ih (packStep false st r), packStep_offsetX, activeWidthSum]
    ring

theorem packComponents_offsetX (rs : List LayoutComponentResult) :
    (packComponents rs false).packingOffsetX = activeWidthSum rs := by
  rw [packComponents, foldl_packStep_offsetX]
  show (0 : ℝ) + activeWidthSum rs = activeWidthSum rs
  ring

/-- Locked or empty components do not move the packing cursor: the active
width sum of a result list equals that of its active sublist. -/
theorem activeWidthSum_ignores_locked (rs : List LayoutComponentResult) :
    activeWidthSum rs = activeWidthSum (rs.filter
      (fun r => !r.positions.isEmpty && !r.hasLocked)) := by
  induction rs with
  | nil => rfl
  | cons r t ih =>
    by_cases hemp : r.positions.isEmpty
    · rw [activeWidthSum, if_pos hemp, ih]
      rw [show (List.filter (fun r => !r.positions.isEmpty && !r.hasLocked) (r :: t))
          = List.filter (fun r => !r.positions.isEmpty && !r.hasLocked) t by
        simp [List.filter, hemp]]
      ring
    · by_cases hlock : r.hasLocked
      · rw [activeWidthSum, if_neg hemp, if_pos hlock, ih]
        rw [show (List.filter (fun r => !r.positions.isEmpty && !r.hasLocked) (r :: t))
            = List.filter (fun r => !r.positions.isEmpty && !r.hasLocked) t by
          simp [List.filter, hemp, hlock]]
        ring
      · rw [activeWidthSum, if_neg hemp, if_neg hlock]
        rw [show (List.filter (fun r => !r.positions.isEmpty && !r.hasLocked) (r :: t))
            = r :: List.filter (fun r => !r.positions.isEmpty && !r.hasLocked) t by
          simp [List.filter, hemp, hlock]]
        rw [activeWidthSum, if_neg hemp, if_neg hlock, ih]

theorem packComponents_anyLocked (rs : List LayoutComponentResult) (vertical : Bool) :
    (packComponents rs vertical).anyLocked = true ↔
      ∃ r ∈ rs, r.hasLocked = true ∧ r.positions.isEmpty = false := by
  rw [packComponents]
  suffices hgen : ∀ (l : List LayoutComponentResult) (st : PackState),
      (l.foldl (packStep vertical) st).anyLocked = true ↔
      (st.anyLocked = true ∨ ∃ r ∈ l, r.hasLocked = true ∧ r.positions.isEmpty = false) by
    rw [hgen rs ⟨[], 0, 0, none, false⟩]
    simp
  intro l
  induction l with
  | nil =>
    intro st
    simp only [List.foldl_nil]
    constructor
    · exact fun h => Or.inl h
    · rintro (h | ⟨r, hr, _⟩)
      · exact h
      · cases hr
  | cons r t ih =>
    intro st
    rw [List.foldl_cons, ih (packStep vertical st r)]
    have hstep : (packStep vertical st r).anyLocked = true ↔
        (st.anyLocked = true ∨ (r.hasLocked = true ∧ r.positions.isEmpty = false)) := by
      rw [packStep]
      by_cases hemp : r.positions.isEmpty
      · rw [if_pos hemp]
        simp [hemp]
      · rw [if_neg hemp]
        by_cases hlock : r.hasLocked
        · rw [if_pos hlock]
          simp [hlock, hemp]
        · rw [if_neg hlock]
          simp [hlock]
    rw [hstep]
    constructor
    · rintro ((h | h) | ⟨q, hq, hcond⟩)
      · exact Or.inl h
      · exact Or.inr ⟨r, List.mem_cons_self r t, h⟩
      · exact Or.inr ⟨q, List.mem_cons_of_mem r hq, hcond⟩
    · rintro (h | ⟨q, hq, hcond⟩)
      · exact Or.inl (Or.inl h)
      · rcases List.mem_cons.mp hq with rfl | hq2
        · exact Or.inl (Or.inr hcond)
        · exact Or.inr ⟨q, hq2, hcond⟩

end MindMap

namespace MindMap

/-- C10: the final centering translation is applied only when no (nonempty)
component carries a locked node; when any does, every component is emitted
uncentered, and the packing cursor for components without locked nodes
advances only over the preceding components without locked nodes (the sum
`activeWidthSum`, which ignores locked components entirely) — the first such
component is packed starting at offset `0 - minX`. -/
theorem computeMindMapLayout_centering (nodesToLayout : List AppNode)
    (edgesToLayout : List GEdge) (opts : LayoutOptions)
    (_hpref : opts.preferredRootIds = []) :
    ((∃ r ∈ componentResultsOf nodesToLayout edgesToLayout opts,
        r.hasLocked = true ∧ r.positions.isEmpty = false) →
      computeMindMapLayout nodesToLayout edgesToLayout opts
        = backfillPositions nodesToLayout
            (packComponents (componentResultsOf nodesToLayout edgesToLayout opts)
              opts.packVertical).finalPositions) ∧
    ((¬ ∃ r ∈ componentResultsOf nodesToLayout edgesToLayout opts,
        r.hasLocked = true ∧ r.positions.isEmpty = false) →
      ∀ b, (packComponents (componentResultsOf nodesToLayout edgesToLayout opts)
          opts.packVertical).aggregate = some b →
        computeMindMapLayout nodesToLayout edgesToLayout opts
          = backfillPositions nodesToLayout
              ((packComponents (componentResultsOf nodesToLayout edgesToLayout opts)
                opts.packVertical).finalPositions.map
                (fun p => (p.1, ⟨p.2.x - (b.minX + b.maxX) / 2,
                  p.2.y - (b.minY + b.maxY) / 2⟩)))) ∧
    (∀ pre r post, opts.packVertical = false →
      componentResultsOf nodesToLayout edgesToLayout opts = pre ++ r :: post →
      r.positions.isEmpty = false → r.hasLocked = false →
      packComponents (componentResultsOf nodesToLayout edgesToLayout opts) false
          = post.foldl (packStep false) (packStep false (packComponents pre false) r) ∧
      (packStep false (packComponents pre false) r).finalPositions
        = r.positions.foldl
            (fun m p => JsMap.set m p.1
              ⟨p.2.x + (activeWidthSum pre - r.bounds.minX), p.2.y + -r.bounds.minY⟩)
            (packComponents pre false).finalPositions) := by
  refine ⟨?_, ?_, ?_⟩
  · intro hex
    have hany := (packComponents_anyLocked
      (componentResultsOf nodesToLayout edgesToLayout opts) opts.packVertical).mpr hex
    rw [computeMindMapLayout, centerPositions, if_pos hany]
  · intro hnex b haggr
    have hany : (packComponents (componentResultsOf nodesToLayout edgesToLayout opts)
        opts.packVertical).anyLocked = false := by
      cases hal : (packComponents (componentResultsOf nodesToLayout edgesToLayout opts)
          opts.packVertical).anyLocked with
      | false => rfl
      | true =>
        exact absurd ((packComponents_anyLocked _ _).mp hal) hnex
    rw [computeMindMapLayout, centerPositions, if_neg (by rw [hany]; exact fun h => nomatch h),
      haggr]
  · intro pre r post hvert hsplit hemp hlock
    constructor
    · rw [hsplit, packComponents, List.foldl_append, List.foldl_cons]
      rfl
    · rw [packStep, if_neg (by rw [hemp]; exact fun h => nomatch h),
        if_neg (by rw [hlock]; exact fun h => nomatch h)]
      simp only [Bool.false_eq_true, if_false]
      rw [packComponents_offsetX pre]

end MindMap

namespace MindMap

/-- C10 witness: the centering theorem applied at a concrete one-node
input. -/
theorem computeMindMapLayout_centering_witness :
    ((∃ r ∈ componentResultsOf [{ id := "a" }] [] {},
        r.hasLocked = true ∧ r.positions.isEmpty = false) →
      computeMindMapLayout [{ id := "a" }] [] {}
        = backfillPositions [{ id := "a" }]
            (packComponents (componentResultsOf [{ id := "a" }] [] {})
              false).finalPositions) ∧
    ((¬ ∃ r ∈ componentResultsOf [{ id := "a" }] [] {},
        r.hasLocked = true ∧ r.positions.isEmpty = false) →
      ∀ b, (packComponents (componentResultsOf [{ id := "a" }] [] {})
          false).aggregate = some b →
        computeMindMapLayout [{ id := "a" }] [] {}
          = backfillPositions [{ id := "a" }]
              ((packComponents (componentResultsOf [{ id := "a" }] [] {})
                false).finalPositions.map
                (fun p => (p.1, ⟨p.2.x - (b.minX + b.maxX) / 2,
                  p.2.y - (b.minY + b.maxY) / 2⟩)))) ∧
    (∀ pre r post, (false : Bool) = false →
      componentResultsOf [{ id := "a" }] [] {} = pre ++ r :: post →
      r.positions.isEmpty = false → r.hasLocked = false →
      packComponents (componentResultsOf [{ id := "a" }] [] {}) false
          = post.foldl (packStep false) (packStep false (packComponents pre false) r) ∧
      (packStep false (packComponents pre false) r).finalPositions
        = r.positions.foldl
            (fun m p => JsMap.set m p.1
              ⟨p.2.x + (activeWidthSum pre - r.bounds.minX), p.2.y + -r.bounds.minY⟩)
            (packComponents pre false).finalPositions) :=
  computeMindMapLayout_centering [{ id := "a" }] [] {} rfl

end MindMap

namespace MindMap

open scoped Classical

/-- The three-node chain of the depth/radius scenario: ids `A`, `B`, `C`. -/
noncomputable def c2nodes : List AppNode := [{ id := "A" }, { id := "B" }, { id := "C" }]

/-- The structural edges `A-B` and `B-C`. -/
def c2edges : List GEdge := [⟨"e1", "A", "B"⟩, ⟨"e2", "B", "C"⟩]

/-- The chain's adjacency map. -/
noncomputable def c2adj : List (String × List String) := buildAdjacency c2nodes c2edges

/-- The chain's layout-node map. -/
noncomputable def c2map : List (String × LayoutNode) := nodesMapOf c2nodes c2edges

/-- The layout records of the three chain nodes. -/
noncomputable def c2mA : LayoutNode := mkLayoutNode c2adj { id := "A" }

noncomputable def c2mB : LayoutNode := mkLayoutNode c2adj { id := "B" }

noncomputable def c2mC : LayoutNode := mkLayoutNode c2adj { id := "C" }

/-- Node weights of the chain. -/
noncomputable def c2wA : ℝ := nodeWeight c2mA

noncomputable def c2wB : ℝ := nodeWeight c2mB

noncomputable def c2wC : ℝ := nodeWeight c2mC

/-- The single root tree's weight, total weight, allocation, scale and sector
end, exactly as the angle pipeline folds them. -/
noncomputable def c2w : ℝ := ((0 + c2wA) + c2wB) + c2wC

noncomputable def c2total : ℝ := 0 + c2w

noncomputable def c2alloc : ℝ :=
  max (MIN_ANGLE_RAD * max 1 (((3:ℕ)) : ℝ)) (2 * Real.pi * c2w / max c2total 1)

noncomputable def c2sum : ℝ := 0 + c2alloc

noncomputable def c2scale : ℝ := if c2sum > 0 then 2 * Real.pi / c2sum else 1

noncomputable def c2end : ℝ := -Real.pi + c2alloc * c2scale

/-- Child weights and shares under root `B`. -/
noncomputable def c2T : ℝ := (0 + c2wA) + c2wC

noncomputable def c2shareA : ℝ := if c2T > 0 then c2wA / c2T else 1 / (((2:ℕ)) : ℝ)

noncomputable def c2spanA : ℝ := (c2end - -Real.pi) * c2shareA

noncomputable def c2shareC : ℝ := if c2T > 0 then c2wC / c2T else 1 / (((2:ℕ)) : ℝ)

noncomputable def c2spanC : ℝ := (c2end - -Real.pi) * c2shareC

/-- The raw angle terms the assignment produces. -/
noncomputable def c2angleB : ℝ := (-Real.pi + c2end) / 2

noncomputable def c2angleA : ℝ := (-Real.pi + (-Real.pi + c2spanA)) / 2

noncomputable def c2angleC : ℝ :=
  ((-Real.pi + c2spanA) + ((-Real.pi + c2spanA) + c2spanC)) / 2

noncomputable def c2angles : List (String × ℝ) :=
  [("B", c2angleB), ("A", c2angleA), ("C", c2angleC)]

def c2depths : List (String × ℕ) := [("B", 0), ("A", 1), ("C", 1)]

/-- The chain's relaxation context. -/
noncomputable def c2ctx : RelaxCtx := componentCtx c2adj c2map [] ["A", "B", "C"]

set_option maxHeartbeats 2000000 in
theorem c2ctx_eq :
    c2ctx = { nodes := c2map, movables := [c2mA, c2mB, c2mC], lockedNodes := [],
              angleById := c2angles, clusterDepthById := c2depths,
              hasMultiRoots := false, maxDepth := 1 } := by rfl

end MindMap

namespace MindMap

open scoped Classical

/-- Numeric values of the chain weights. -/
theorem c2wA_val : c2wA = 2001 / 10 := by
  have h : c2wA = (max (150:ℝ) 50 + 24) * (1 + 15 / 100 * (((1:ℕ)) : ℝ)) := rfl
  rw [h, max_eq_left (by norm_num : (50:ℝ) ≤ 150)]
  push_cast
  norm_num

theorem c2wB_val : c2wB = 1131 / 5 := by
  have h : c2wB = (max (150:ℝ) 50 + 24) * (1 + 15 / 100 * (((2:ℕ)) : ℝ)) := rfl
  rw [h, max_eq_left (by norm_num : (50:ℝ) ≤ 150)]
  push_cast
  norm_num

theorem c2wC_val : c2wC = 2001 / 10 := by
  have h : c2wC = (max (150:ℝ) 50 + 24) * (1 + 15 / 100 * (((1:ℕ)) : ℝ)) := rfl
  rw [h, max_eq_left (by norm_num : (50:ℝ) ≤ 150)]
  push_cast
  norm_num

theorem c2w_val : c2w = 3132 / 5 := by
  show ((0 + c2wA) + c2wB) + c2wC = 3132 / 5
  rw [c2wA_val, c2wB_val, c2wC_val]
  norm_num

theorem c2alloc_val : c2alloc = 2 * Real.pi := by
  have htot : c2total = 3132 / 5 := by
    show (0:ℝ) + c2w = 3132 / 5
    rw [c2w_val]; norm_num
  show max (MIN_ANGLE_RAD * max 1 (((3:ℕ)) : ℝ)) (2 * Real.pi * c2w / max c2total 1)
      = 2 * Real.pi
  rw [c2w_val, htot, max_eq_left (by norm_num : (1:ℝ) ≤ 3132 / 5)]
  rw [show (2 * Real.pi * (3132 / 5) / (3132 / 5) : ℝ) = 2 * Real.pi by
    field_simp]
  rw [show MIN_ANGLE_RAD * max 1 (((3:ℕ)) : ℝ) = Real.pi / 4 by
    show 15 * Real.pi / 180 * max 1 (((3:ℕ)) : ℝ) = Real.pi / 4
    rw [show max (1:ℝ) (((3:ℕ)) : ℝ) = 3 by
      rw [max_eq_right]; · push_cast; ring
      · push_cast; norm_num]
    ring]
  exact max_eq_right (by nlinarith [Real.pi_pos])

theorem c2scale_val : c2scale = 1 := by
  have hs : c2sum = 2 * Real.pi := by
    show (0:ℝ) + c2alloc = 2 * Real.pi
    rw [c2alloc_val]; ring
  show (if c2sum > 0 then 2 * Real.pi / c2sum else 1) = 1
  rw [hs, if_pos (by positivity : (0:ℝ) < 2 * Real.pi)]
  rw [div_self (by positivity : (2 * Real.pi : ℝ) ≠ 0)]

theorem c2end_val : c2end = Real.pi := by
  show -Real.pi + c2alloc * c2scale = Real.pi
  rw [c2alloc_val, c2scale_val]; ring

theorem c2T_val : c2T = 2001 / 5 := by
  show (0 + c2wA) + c2wC = 2001 / 5
  rw [c2wA_val, c2wC_val]; norm_num

theorem c2spanA_val : c2spanA = Real.pi := by
  show (c2end - -Real.pi) * c2shareA = Real.pi
  have hsh : c2shareA = 1 / 2 := by
    show (if c2T > 0 then c2wA / c2T else 1 / (((2:ℕ)) : ℝ)) = 1 / 2
    rw [if_pos (by rw [c2T_val]; norm_num : c2T > 0), c2wA_val, c2T_val]
    norm_num
  rw [hsh, c2end_val]; ring

theorem c2spanC_val : c2spanC = Real.pi := by
  show (c2end - -Real.pi) * c2shareC = Real.pi
  have hsh : c2shareC = 1 / 2 := by
    show (if c2T > 0 then c2wC / c2T else 1 / (((2:ℕ)) : ℝ)) = 1 / 2
    rw [if_pos (by rw [c2T_val]; norm_num : c2T > 0), c2wC_val, c2T_val]
    norm_num
  rw [hsh, c2end_val]; ring

theorem c2angleA_val : c2angleA = -(Real.pi / 2) := by
  show (-Real.pi + (-Real.pi + c2spanA)) / 2 = -(Real.pi / 2)
  rw [c2spanA_val]; ring

theorem c2angleB_val : c2angleB = 0 := by
  show (-Real.pi + c2end) / 2 = 0
  rw [c2end_val]; ring

theorem c2angleC_val : c2angleC = Real.pi / 2 := by
  show ((-Real.pi + c2spanA) + ((-Real.pi + c2spanA) + c2spanC)) / 2 = Real.pi / 2
  rw [c2spanA_val, c2spanC_val]; ring

/-- The depth rings of the chain. -/
theorem c2_mov0 : movablesAtDepth c2ctx 0 = [c2mB] := by
  rw [c2ctx_eq]; rfl

theorem c2_mov1 : movablesAtDepth c2ctx 1 = [c2mA, c2mC] := by
  rw [c2ctx_eq]; rfl

/-- Raw computed positions of the chain under zero offsets. -/
theorem c2_posA_raw : getComputedPosition c2ctx (fun _ => 0) "A"
    = ⟨(baseRadiusAt false 1 1 + 0) * Real.cos c2angleA,
       (baseRadiusAt false 1 1 + 0) * Real.sin c2angleA⟩ := by
  rw [c2ctx_eq]; rfl

theorem c2_posB_raw : getComputedPosition c2ctx (fun _ => 0) "B"
    = ⟨(baseRadiusAt false 1 0 + 0) * Real.cos c2angleB,
       (baseRadiusAt false 1 0 + 0) * Real.sin c2angleB⟩ := by
  rw [c2ctx_eq]; rfl

theorem c2_posC_raw : getComputedPosition c2ctx (fun _ => 0) "C"
    = ⟨(baseRadiusAt false 1 1 + 0) * Real.cos c2angleC,
       (baseRadiusAt false 1 1 + 0) * Real.sin c2angleC⟩ := by
  rw [c2ctx_eq]; rfl

/-- Base radii of the chain's two depths. -/
theorem c2_base0 : baseRadiusAt false 1 0 = 0 := by
  norm_num [baseRadiusAt]

theorem c2_base1 : baseRadiusAt false 1 1 = 220 := by
  norm_num [baseRadiusAt, FIRST_RADIUS, LEVEL_GAP]

/-- The vertical coordinates under zero offsets. -/
theorem c2_yA : (getComputedPosition c2ctx (fun _ => 0) "A").y = -220 := by
  rw [c2_posA_raw]
  show (baseRadiusAt false 1 1 + 0) * Real.sin c2angleA = -220
  rw [c2_base1, c2angleA_val, Real.sin_neg, Real.sin_pi_div_two]
  norm_num

theorem c2_yB : (getComputedPosition c2ctx (fun _ => 0) "B").y = 0 := by
  rw [c2_posB_raw]
  show (baseRadiusAt false 1 0 + 0) * Real.sin c2angleB = 0
  rw [c2_base0, c2angleB_val]
  norm_num

theorem c2_yC : (getComputedPosition c2ctx (fun _ => 0) "C").y = 220 := by
  rw [c2_posC_raw]
  show (baseRadiusAt false 1 1 + 0) * Real.sin c2angleC = 220
  rw [c2_base1, c2angleC_val, Real.sin_pi_div_two]
  norm_num

/-- Ring 1 sorted by angle. -/
theorem c2_sorted1 : sortedRing c2ctx 1 = [c2mA, c2mC] := by
  have hAC : (JsMap.get? c2ctx.angleById c2mA.id).getD 0
      ≤ (JsMap.get? c2ctx.angleById c2mC.id).getD 0 := by
    rw [c2ctx_eq]
    show c2angleA ≤ c2angleC
    rw [c2angleA_val, c2angleC_val]
    nlinarith [Real.pi_pos]
  show List.insertionSort
      (fun a b => (JsMap.get? c2ctx.angleById a.id).getD 0
        ≤ (JsMap.get? c2ctx.angleById b.id).getD 0) (movablesAtDepth c2ctx 1)
      = [c2mA, c2mC]
  rw [c2_mov1]
  simp only [List.insertionSort, List.orderedInsert]
  rw [if_pos hAC]

/-- No tested ring shows an overlap under zero offsets. -/
theorem c2_ring_none : ringSweep c2ctx (fun _ => 0) = none := by
  have h0 : ¬ ringDepthOverlap c2ctx (fun _ => 0) 0 := by
    rintro ⟨h2, -⟩
    rw [c2_mov0] at h2
    exact absurd h2 (by norm_num)
  have h1 : ¬ ringDepthOverlap c2ctx (fun _ => 0) 1 := by
    rintro ⟨-, pr, hpr, hov⟩
    rw [c2_sorted1] at hpr
    rw [show testPairsOf [c2mA, c2mC] = [(c2mA, c2mC)] from rfl,
      List.mem_singleton] at hpr
    subst hpr
    have h2 := hov.2
    rw [show c2mA.id = "A" from rfl, show c2mC.id = "C" from rfl] at h2
    rw [c2_yA, c2_yC] at h2
    rw [show c2mA.height = (50:ℝ) from rfl, show c2mC.height = (50:ℝ) from rfl] at h2
    rw [abs_lt] at h2
    have h3 := h2.1
    norm_num [NODE_MARGIN] at h3
  show (List.range (c2ctx.maxDepth + 1)).find?
      (fun depth => decide (ringDepthOverlap c2ctx (fun _ => 0) depth)) = none
  rw [List.find?_eq_none]
  intro x hx
  rw [List.mem_range, show c2ctx.maxDepth = 1 by rw [c2ctx_eq]] at hx
  simp only [decide_eq_true_eq]
  interval_cases x
  · exact h0
  · exact h1

/-- No inner/outer pair overlaps under zero offsets. -/
theorem c2_radial_none : radialSweep c2ctx (fun _ => 0) = none := by
  have h0 : ¬ radialDepthOverlap c2ctx (fun _ => 0) 0 := by
    rintro ⟨inner, hin, outer, hout, hov⟩
    rw [c2_mov0, List.mem_singleton] at hin
    subst hin
    rw [c2_mov1] at hout
    have h2 := hov.2
    rw [show c2mB.id = "B" from rfl, c2_yB,
      show c2mB.height = (50:ℝ) from rfl] at h2
    rw [List.mem_cons] at hout
    rcases hout with h | h
    · subst h
      rw [show c2mA.id = "A" from rfl, c2_yA,
        show c2mA.height = (50:ℝ) from rfl, abs_lt] at h2
      have h3 := h2.2
      norm_num [NODE_MARGIN] at h3
    · rw [List.mem_singleton] at h
      subst h
      rw [show c2mC.id = "C" from rfl, c2_yC,
        show c2mC.height = (50:ℝ) from rfl, abs_lt] at h2
      have h3 := h2.1
      norm_num [NODE_MARGIN] at h3
  show (List.range c2ctx.maxDepth).find?
      (fun depth => decide (radialDepthOverlap c2ctx (fun _ => 0) depth)) = none
  rw [List.find?_eq_none]
  intro x hx
  rw [List.mem_range, show c2ctx.maxDepth = 1 by rw [c2ctx_eq]] at hx
  simp only [decide_eq_true_eq]
  interval_cases x
  exact h0

/-- The relaxation loops leave the chain's offsets at zero. -/
theorem c2_off : componentOffsets c2adj c2map [] ["A", "B", "C"] = (fun _ => 0) := by
  have hr : ringLoop c2ctx 12 (fun _ => 0) = (fun _ => 0) := by
    have e : ringLoop c2ctx 12 (fun _ => 0)
        = (match ringSweep c2ctx (fun _ => 0) with
           | none => (fun _ => (0:ℝ))
           | some depth => ringLoop c2ctx 11
               (addDepthOffset c2ctx.maxDepth (fun _ => 0) depth NODE_MARGIN)) := rfl
    rw [e, c2_ring_none]
  have hd : radialLoop c2ctx 12 (fun _ => 0) = (fun _ => 0) := by
    have e : radialLoop c2ctx 12 (fun _ => 0)
        = (match radialSweep c2ctx (fun _ => 0) with
           | none => (fun _ => (0:ℝ))
           | some depth => radialLoop c2ctx 11
               (addDepthOffset c2ctx.maxDepth (fun _ => 0) (depth + 1) NODE_MARGIN)) := rfl
    rw [e, c2_radial_none]
  show lockedAdjust c2ctx
      (radialLoop c2ctx 12 (ringLoop c2ctx 12 (fun _ => 0))) = (fun _ => 0)
  rw [hr, hd]
  rfl

/-- The chain's final per-depth radii. -/
theorem c2_radius_vals :
    componentRadiusAt c2adj c2map [] ["A", "B", "C"] 0 = 0 ∧
    componentRadiusAt c2adj c2map [] ["A", "B", "C"] 1 = 220 := by
  constructor
  · show baseRadiusAt c2ctx.hasMultiRoots c2ctx.maxDepth 0
        + componentOffsets c2adj c2map [] ["A", "B", "C"] 0 = 0
    rw [c2_off, show c2ctx.hasMultiRoots = false by rw [c2ctx_eq],
      show c2ctx.maxDepth = 1 by rw [c2ctx_eq], c2_base0]
    norm_num
  · show baseRadiusAt c2ctx.hasMultiRoots c2ctx.maxDepth 1
        + componentOffsets c2adj c2map [] ["A", "B", "C"] 1 = 220
    rw [c2_off, show c2ctx.hasMultiRoots = false by rw [c2ctx_eq],
      show c2ctx.maxDepth = 1 by rw [c2ctx_eq], c2_base1]
    norm_num

set_option maxHeartbeats 1000000 in
/-- C2, counterexample: on the 3-chain `A-B`, `B-C` the radial solver does
not assign depth 0 to `A`: the pseudo-root is the highest-degree node `B`,
and `A` gets depth 1. -/
theorem c2_depth_counterexample :
    componentsOf c2nodes c2edges = [["A", "B", "C"]] ∧
    JsMap.get? (componentAngleState c2adj c2map [] ["A", "B", "C"]).clusterDepthById "A"
      = some 1 ∧
    some (1:ℕ) ≠ some 0 :=
  ⟨by decide, by decide, by decide⟩

set_option maxHeartbeats 1000000 in
/-- C2, amended: on the 3-chain the component is `{A, B, C}`, the depths are
`B = 0`, `A = C = 1`, and the final radii are `0` for depth 0 and `220` for
depth 1 (no relaxation offsets fire). -/
theorem c2_chain_depths_radii_amended :
    componentsOf c2nodes c2edges = [["A", "B", "C"]] ∧
    (componentAngleState c2adj c2map [] ["A", "B", "C"]).clusterDepthById
      = [("B", 0), ("A", 1), ("C", 1)] ∧
    componentRadiusAt c2adj c2map [] ["A", "B", "C"] 0 = 0 ∧
    componentRadiusAt c2adj c2map [] ["A", "B", "C"] 1 = 220 :=
  ⟨by decide, by decide, c2_radius_vals.1, c2_radius_vals.2⟩

end MindMap

namespace MindMap

open scoped Classical

theorem NODE_MARGIN_nonneg : (0:ℝ) ≤ NODE_MARGIN := by norm_num [NODE_MARGIN]

/-- `addDepthOffset` moves each depth's offset up by at most `delta`. -/
theorem addDepthOffset_bounds (maxDepth : ℕ) (off : ℕ → ℝ) (depth : ℕ) (delta : ℝ)
    (d : ℕ) (hd : 0 ≤ delta) :
    off d ≤ addDepthOffset maxDepth off depth delta d ∧
    addDepthOffset maxDepth off depth delta d ≤ off d + delta := by
  unfold addDepthOffset
  split <;> constructor <;> linarith

/-- Each same-depth relaxation iteration adds at most `NODE_MARGIN` per depth. -/
theorem ringLoop_bounds (ctx : RelaxCtx) :
    ∀ (fuel : ℕ) (off : ℕ → ℝ) (d : ℕ),
      off d ≤ ringLoop ctx fuel off d ∧
      ringLoop ctx fuel off d ≤ off d + fuel * NODE_MARGIN := by
  intro fuel
  induction fuel with
  | zero =>
    intro off d
    rw [show ringLoop ctx 0 off = off from rfl]
    constructor
    · exact le_refl _
    · push_cast
      linarith
  | succ n ih =>
    intro off d
    rcases hsv : ringSweep ctx off with _ | depth
    · have e : ringLoop ctx (n + 1) off = off := by
        show (match ringSweep ctx off with
              | none => off
              | some depth => ringLoop ctx n
                  (addDepthOffset ctx.maxDepth off depth NODE_MARGIN)) = off
        rw [hsv]
      rw [e]
      constructor
      · exact le_refl _
      · have h : (0:ℝ) ≤ ((n + 1 : ℕ) : ℝ) * NODE_MARGIN :=
          mul_nonneg (by positivity) NODE_MARGIN_nonneg
      
        linarith
    · have e : ringLoop ctx (n + 1) off
          = ringLoop ctx n (addDepthOffset ctx.maxDepth off depth NODE_MARGIN) := by
        show (match ringSweep ctx off with
              | none => off
              | some depth => ringLoop ctx n
                  (addDepthOffset ctx.maxDepth off depth NODE_MARGIN)) = _
        rw [hsv]
      rw [e]
      have h1 := addDepthOffset_bounds ctx.maxDepth off depth NODE_MARGIN d NODE_MARGIN_nonneg
      have h2 := ih (addDepthOffset ctx.maxDepth off depth NODE_MARGIN) d
      constructor
      · linarith [h1.1, h2.1]
      · have hc : ((n + 1 : ℕ) : ℝ) * NODE_MARGIN = (n:ℝ) * NODE_MARGIN + NODE_MARGIN := by
          push_cast; ring
        rw [hc]
        linarith [h1.2, h2.2]

/-- Each cross-depth relaxation iteration adds at most `NODE_MARGIN` per depth. -/
theorem radialLoop_bounds (ctx : RelaxCtx) :
    ∀ (fuel : ℕ) (off : ℕ → ℝ) (d : ℕ),
      off d ≤ radialLoop ctx fuel off d ∧
      radialLoop ctx fuel off d ≤ off d + fuel * NODE_MARGIN := by
  intro fuel
  induction fuel with
  | zero =>
    intro off d
    rw [show radialLoop ctx 0 off = off from rfl]
    constructor
    · exact le_refl _
    · push_cast
      linarith
  | succ n ih =>
    intro off d
    rcases hsv : radialSweep ctx off with _ | depth
    · have e : radialLoop ctx (n + 1) off = off := by
        show (match radialSweep ctx off with
              | none => off
              | some depth => radialLoop ctx n
                  (addDepthOffset ctx.maxDepth off (depth + 1) NODE_MARGIN)) = off
        rw [hsv]
      rw [e]
      constructor
      · exact le_refl _
      · have h : (0:ℝ) ≤ ((n + 1 : ℕ) : ℝ) * NODE_MARGIN :=
          mul_nonneg (by positivity) NODE_MARGIN_nonneg
        linarith
    · have e : radialLoop ctx (n + 1) off
          = radialLoop ctx n (addDepthOffset ctx.maxDepth off (depth + 1) NODE_MARGIN) := by
        show (match radialSweep ctx off with
              | none => off
              | some depth => radialLoop ctx n
                  (addDepthOffset ctx.maxDepth off (depth + 1) NODE_MARGIN)) = _
        rw [hsv]
      rw [e]
      have h1 := addDepthOffset_bounds ctx.maxDepth off (depth + 1) NODE_MARGIN d
        NODE_MARGIN_nonneg
      have h2 := ih (addDepthOffset ctx.maxDepth off (depth + 1) NODE_MARGIN) d
      constructor
      · linarith [h1.1, h2.1]
      · have hc : ((n + 1 : ℕ) : ℝ) * NODE_MARGIN = (n:ℝ) * NODE_MARGIN + NODE_MARGIN := by
          push_cast; ring
        rw [hc]
        linarith [h1.2, h2.2]

/-- A tested pair only exists on a ring of at least two nodes. -/
theorem testPairs_len {l : List LayoutNode} {pr : LayoutNode × LayoutNode}
    (h : pr ∈ testPairsOf l) : 2 ≤ l.length := by
  match l with
  | [] => exact absurd h (by rw [show testPairsOf [] = [] from rfl]; exact List.not_mem_nil pr)
  | [x] => exact absurd h (by rw [show testPairsOf [x] = [] from rfl]; exact List.not_mem_nil pr)
  | x :: y :: t =>
    simp only [List.length_cons]
    omega

/-- C7, amended: the same-depth pass guarantees separation only when its final
sweep comes back clean; in that case no tested adjacent pair of a ring
overlaps with half-margin padding. -/
theorem relaxation_clean_sweep_no_overlap (ctx : RelaxCtx) (off : ℕ → ℝ)
    (hsweep : ringSweep ctx off = none) (depth : ℕ) (hdepth : depth < ctx.maxDepth + 1) :
    ∀ pr ∈ testPairsOf (sortedRing ctx depth),
      ¬ boxOverlap (getComputedPosition ctx off pr.1.id) pr.1
          (getComputedPosition ctx off pr.2.id) pr.2 (NODE_MARGIN / 2) := by
  intro pr hpr hov
  have h := List.find?_eq_none.mp hsweep depth (List.mem_range.mpr hdepth)
  simp only [decide_eq_true_eq] at h
  apply h
  refine ⟨?_, pr, hpr, hov⟩
  have h2 := testPairs_len hpr
  have h3 : (sortedRing ctx depth).length = (movablesAtDepth ctx depth).length :=
    List.Perm.length_eq (List.perm_insertionSort _ (movablesAtDepth ctx depth))
  rw [h3] at h2
  exact h2

/-- Witness: the 3-chain's context satisfies the clean-sweep hypothesis at
depth 1 with a two-node ring. -/
theorem relaxation_clean_sweep_no_overlap_witness :
    ringSweep c2ctx (fun _ => 0) = none ∧ 1 < c2ctx.maxDepth + 1 ∧
    ∀ pr ∈ testPairsOf (sortedRing c2ctx 1),
      ¬ boxOverlap (getComputedPosition c2ctx (fun _ => 0) pr.1.id) pr.1
          (getComputedPosition c2ctx (fun _ => 0) pr.2.id) pr.2 (NODE_MARGIN / 2) :=
  ⟨c2_ring_none, by rw [show c2ctx.maxDepth = 1 by rw [c2ctx_eq]]; omega,
   relaxation_clean_sweep_no_overlap c2ctx (fun _ => 0) c2_ring_none 1
     (by rw [show c2ctx.maxDepth = 1 by rw [c2ctx_eq]]; omega)⟩

end MindMap

namespace MindMap

open scoped Classical

/-- The 3-chain with very tall end nodes (`measuredHeight` 10000). -/
noncomputable def c7nodes : List AppNode :=
  [{ id := "A", measuredHeight := some 10000 }, { id := "B" },
   { id := "C", measuredHeight := some 10000 }]

def c7edges : List GEdge := [⟨"e1", "A", "B"⟩, ⟨"e2", "B", "C"⟩]

noncomputable def c7adj : List (String × List String) := buildAdjacency c7nodes c7edges

noncomputable def c7map : List (String × LayoutNode) := nodesMapOf c7nodes c7edges

noncomputable def c7mA : LayoutNode :=
  mkLayoutNode c7adj { id := "A", measuredHeight := some 10000 }

noncomputable def c7mB : LayoutNode := mkLayoutNode c7adj { id := "B" }

noncomputable def c7mC : LayoutNode :=
  mkLayoutNode c7adj { id := "C", measuredHeight := some 10000 }

noncomputable def c7wA : ℝ := nodeWeight c7mA

noncomputable def c7wB : ℝ := nodeWeight c7mB

noncomputable def c7wC : ℝ := nodeWeight c7mC

noncomputable def c7w : ℝ := ((0 + c7wA) + c7wB) + c7wC

noncomputable def c7total : ℝ := 0 + c7w

noncomputable def c7alloc : ℝ :=
  max (MIN_ANGLE_RAD * max 1 (((3:ℕ)) : ℝ)) (2 * Real.pi * c7w / max c7total 1)

noncomputable def c7sum : ℝ := 0 + c7alloc

noncomputable def c7scale : ℝ := if c7sum > 0 then 2 * Real.pi / c7sum else 1

noncomputable def c7end : ℝ := -Real.pi + c7alloc * c7scale

noncomputable def c7T : ℝ := (0 + c7wA) + c7wC

noncomputable def c7shareA : ℝ := if c7T > 0 then c7wA / c7T else 1 / (((2:ℕ)) : ℝ)

noncomputable def c7spanA : ℝ := (c7end - -Real.pi) * c7shareA

noncomputable def c7shareC : ℝ := if c7T > 0 then c7wC / c7T else 1 / (((2:ℕ)) : ℝ)

noncomputable def c7spanC : ℝ := (c7end - -Real.pi) * c7shareC

noncomputable def c7angleB : ℝ := (-Real.pi + c7end) / 2

noncomputable def c7angleA : ℝ := (-Real.pi + (-Real.pi + c7spanA)) / 2

noncomputable def c7angleC : ℝ :=
  ((-Real.pi + c7spanA) + ((-Real.pi + c7spanA) + c7spanC)) / 2

noncomputable def c7angles : List (String × ℝ) :=
  [("B", c7angleB), ("A", c7angleA), ("C", c7angleC)]

def c7depths : List (String × ℕ) := [("B", 0), ("A", 1), ("C", 1)]

noncomputable def c7ctx : RelaxCtx := componentCtx c7adj c7map [] ["A", "B", "C"]

/-- The final offsets of the tall chain (after all relaxation passes). -/
noncomputable def c7off : ℕ → ℝ := componentOffsets c7adj c7map [] ["A", "B", "C"]

set_option maxHeartbeats 2000000 in
theorem c7ctx_eq :
    c7ctx = { nodes := c7map, movables := [c7mA, c7mB, c7mC], lockedNodes := [],
              angleById := c7angles, clusterDepthById := c7depths,
              hasMultiRoots := false, maxDepth := 1 } := by rfl

theorem c7wA_val : c7wA = 57638 / 5 := by
  have h : c7wA = (max (150:ℝ) 10000 + 24) * (1 + 15 / 100 * (((1:ℕ)) : ℝ)) := rfl
  rw [h, max_eq_right (by norm_num : (150:ℝ) ≤ 10000)]
  push_cast
  norm_num

theorem c7wB_val : c7wB = 1131 / 5 := by
  have h : c7wB = (max (150:ℝ) 50 + 24) * (1 + 15 / 100 * (((2:ℕ)) : ℝ)) := rfl
  rw [h, max_eq_left (by norm_num : (50:ℝ) ≤ 150)]
  push_cast
  norm_num

theorem c7wC_val : c7wC = 57638 / 5 := by
  have h : c7wC = (max (150:ℝ) 10000 + 24) * (1 + 15 / 100 * (((1:ℕ)) : ℝ)) := rfl
  rw [h, max_eq_right (by norm_num : (150:ℝ) ≤ 10000)]
  push_cast
  norm_num

theorem c7w_val : c7w = 116407 / 5 := by
  show ((0 + c7wA) + c7wB) + c7wC = 116407 / 5
  rw [c7wA_val, c7wB_val, c7wC_val]
  norm_num

theorem c7alloc_val : c7alloc = 2 * Real.pi := by
  have htot : c7total = 116407 / 5 := by
    show (0:ℝ) + c7w = 116407 / 5
    rw [c7w_val]; norm_num
  show max (MIN_ANGLE_RAD * max 1 (((3:ℕ)) : ℝ)) (2 * Real.pi * c7w / max c7total 1)
      = 2 * Real.pi
  rw [c7w_val, htot, max_eq_left (by norm_num : (1:ℝ) ≤ 116407 / 5)]
  rw [show (2 * Real.pi * (116407 / 5) / (116407 / 5) : ℝ) = 2 * Real.pi by
    field_simp]
  rw [show MIN_ANGLE_RAD * max 1 (((3:ℕ)) : ℝ) = Real.pi / 4 by
    show 15 * Real.pi / 180 * max 1 (((3:ℕ)) : ℝ) = Real.pi / 4
    rw [show max (1:ℝ) (((3:ℕ)) : ℝ) = 3 by
      rw [max_eq_right]; · push_cast; ring
      · push_cast; norm_num]
    ring]
  exact max_eq_right (by nlinarith [Real.pi_pos])

theorem c7scale_val : c7scale = 1 := by
  have hs : c7sum = 2 * Real.pi := by
    show (0:ℝ) + c7alloc = 2 * Real.pi
    rw [c7alloc_val]; ring
  show (if c7sum > 0 then 2 * Real.pi / c7sum else 1) = 1
  rw [hs, if_pos (by positivity : (0:ℝ) < 2 * Real.pi)]
  rw [div_self (by positivity : (2 * Real.pi : ℝ) ≠ 0)]

theorem c7end_val : c7end = Real.pi := by
  show -Real.pi + c7alloc * c7scale = Real.pi
  rw [c7alloc_val, c7scale_val]; ring

theorem c7T_val : c7T = 115276 / 5 := by
  show (0 + c7wA) + c7wC = 115276 / 5
  rw [c7wA_val, c7wC_val]; norm_num

theorem c7spanA_val : c7spanA = Real.pi := by
  show (c7end - -Real.pi) * c7shareA = Real.pi
  have hsh : c7shareA = 1 / 2 := by
    show (if c7T > 0 then c7wA / c7T else 1 / (((2:ℕ)) : ℝ)) = 1 / 2
    rw [if_pos (by rw [c7T_val]; norm_num : c7T > 0), c7wA_val, c7T_val]
    norm_num
  rw [hsh, c7end_val]; ring

theorem c7spanC_val : c7spanC = Real.pi := by
  show (c7end - -Real.pi) * c7shareC = Real.pi
  have hsh : c7shareC = 1 / 2 := by
    show (if c7T > 0 then c7wC / c7T else 1 / (((2:ℕ)) : ℝ)) = 1 / 2
    rw [if_pos (by rw [c7T_val]; norm_num : c7T > 0), c7wC_val, c7T_val]
    norm_num
  rw [hsh, c7end_val]; ring

theorem c7angleA_val : c7angleA = -(Real.pi / 2) := by
  show (-Real.pi + (-Real.pi + c7spanA)) / 2 = -(Real.pi / 2)
  rw [c7spanA_val]; ring

theorem c7angleC_val : c7angleC = Real.pi / 2 := by
  show ((-Real.pi + c7spanA) + ((-Real.pi + c7spanA) + c7spanC)) / 2 = Real.pi / 2
  rw [c7spanA_val, c7spanC_val]; ring

theorem c7_mov1 : movablesAtDepth c7ctx 1 = [c7mA, c7mC] := by
  rw [c7ctx_eq]; rfl

theorem c7_lockedAdjust (off : ℕ → ℝ) : lockedAdjust c7ctx off = off := rfl

/-- The final depth-1 offset of the tall chain stays within the 24 bounded
iterations' reach. -/
theorem c7off1_bounds : 0 ≤ c7off 1 ∧ c7off 1 ≤ 576 := by
  have h1 := ringLoop_bounds c7ctx 12 (fun _ => 0) 1
  have h2 := radialLoop_bounds c7ctx 12 (ringLoop c7ctx 12 (fun _ => 0)) 1
  have he : c7off = radialLoop c7ctx 12 (ringLoop c7ctx 12 (fun _ => 0)) := by
    show componentOffsets c7adj c7map [] ["A", "B", "C"] = _
    show lockedAdjust c7ctx (radialLoop c7ctx 12 (ringLoop c7ctx 12 (fun _ => 0))) = _
    exact c7_lockedAdjust _
  rw [he]
  rw [show NODE_MARGIN = (24:ℝ) from rfl] at h1 h2
  push_cast at h1 h2
  constructor
  · linarith [h1.1, h2.1]
  · linarith [h1.2, h2.2]

theorem c7_posA_raw : getComputedPosition c7ctx c7off "A"
    = ⟨(baseRadiusAt false 1 1 + c7off 1) * Real.cos c7angleA,
       (baseRadiusAt false 1 1 + c7off 1) * Real.sin c7angleA⟩ := by
  rw [c7ctx_eq]; rfl

theorem c7_posC_raw : getComputedPosition c7ctx c7off "C"
    = ⟨(baseRadiusAt false 1 1 + c7off 1) * Real.cos c7angleC,
       (baseRadiusAt false 1 1 + c7off 1) * Real.sin c7angleC⟩ := by
  rw [c7ctx_eq]; rfl

set_option maxHeartbeats 1000000 in
/-- C7, counterexample: in the tall 3-chain the two depth-1 movable nodes
`A` and `C` still overlap (half-margin padding) after every relaxation pass:
the 12+12 bounded iterations can push depth 1 out by at most 576, far less
than the 10000-high boxes need. -/
theorem c7_same_depth_overlap_counterexample :
    c7mA ∈ movablesAtDepth c7ctx 1 ∧ c7mC ∈ movablesAtDepth c7ctx 1 ∧
    c7mA.id ≠ c7mC.id ∧
    boxOverlap (getComputedPosition c7ctx c7off c7mA.id) c7mA
      (getComputedPosition c7ctx c7off c7mC.id) c7mC (NODE_MARGIN / 2) := by
  have hb := c7off1_bounds
  refine ⟨?_, ?_, by decide, ?_⟩
  · rw [c7_mov1]; exact List.mem_cons_self _ _
  · rw [c7_mov1]; exact List.mem_cons_of_mem _ (List.mem_singleton.mpr rfl)
  rw [show c7mA.id = "A" from rfl, show c7mC.id = "C" from rfl]
  have hxA : (getComputedPosition c7ctx c7off "A").x = 0 := by
    rw [c7_posA_raw]
    show (baseRadiusAt false 1 1 + c7off 1) * Real.cos c7angleA = 0
    rw [c7angleA_val, Real.cos_neg, Real.cos_pi_div_two, mul_zero]
  have hxC : (getComputedPosition c7ctx c7off "C").x = 0 := by
    rw [c7_posC_raw]
    show (baseRadiusAt false 1 1 + c7off 1) * Real.cos c7angleC = 0
    rw [c7angleC_val, Real.cos_pi_div_two, mul_zero]
  have hyA : (getComputedPosition c7ctx c7off "A").y
      = -(baseRadiusAt false 1 1 + c7off 1) := by
    rw [c7_posA_raw]
    show (baseRadiusAt false 1 1 + c7off 1) * Real.sin c7angleA
        = -(baseRadiusAt false 1 1 + c7off 1)
    rw [c7angleA_val, Real.sin_neg, Real.sin_pi_div_two, mul_neg_one]
  have hyC : (getComputedPosition c7ctx c7off "C").y
      = baseRadiusAt false 1 1 + c7off 1 := by
    rw [c7_posC_raw]
    show (baseRadiusAt false 1 1 + c7off 1) * Real.sin c7angleC
        = baseRadiusAt false 1 1 + c7off 1
    rw [c7angleC_val, Real.sin_pi_div_two, mul_one]
  constructor
  · rw [hxA, hxC, sub_self, abs_zero,
      show c7mA.width = (150:ℝ) from rfl, show c7mC.width = (150:ℝ) from rfl,
      show NODE_MARGIN = (24:ℝ) from rfl]
    norm_num
  · rw [hyA, hyC, c2_base1,
      show c7mA.height = (10000:ℝ) from rfl, show c7mC.height = (10000:ℝ) from rfl,
      show NODE_MARGIN = (24:ℝ) from rfl, abs_lt]
    constructor
    · linarith [hb.1, hb.2]
    · linarith [hb.1, hb.2]

end MindMap

namespace MindMap

open scoped Classical

/-- Two disconnected pairs: `A-B` and `C-D`. -/
noncomputable def c8nodes : List AppNode :=
  [{ id := "A" }, { id := "B" }, { id := "C" }, { id := "D" }]

def c8edges : List GEdge := [⟨"e1", "A", "B"⟩, ⟨"e2", "C", "D"⟩]

noncomputable def c8adj : List (String × List String) := buildAdjacency c8nodes c8edges

noncomputable def c8map : List (String × LayoutNode) := nodesMapOf c8nodes c8edges

noncomputable def c8mA : LayoutNode := mkLayoutNode c8adj { id := "A" }

noncomputable def c8mB : LayoutNode := mkLayoutNode c8adj { id := "B" }

noncomputable def c8mC : LayoutNode := mkLayoutNode c8adj { id := "C" }

noncomputable def c8mD : LayoutNode := mkLayoutNode c8adj { id := "D" }

/-- Raw angle-pipeline terms of component `{A, B}` (root `A`). -/
noncomputable def c81wA : ℝ := nodeWeight c8mA

noncomputable def c81wB : ℝ := nodeWeight c8mB

noncomputable def c81w : ℝ := (0 + c81wA) + c81wB

noncomputable def c81total : ℝ := 0 + c81w

noncomputable def c81alloc : ℝ :=
  max (MIN_ANGLE_RAD * max 1 (((2:ℕ)) : ℝ)) (2 * Real.pi * c81w / max c81total 1)

noncomputable def c81sum : ℝ := 0 + c81alloc

noncomputable def c81scale : ℝ := if c81sum > 0 then 2 * Real.pi / c81sum else 1

noncomputable def c81end : ℝ := -Real.pi + c81alloc * c81scale

noncomputable def c81T : ℝ := 0 + c81wB

noncomputable def c81shareB : ℝ := if c81T > 0 then c81wB / c81T else 1 / (((1:ℕ)) : ℝ)

noncomputable def c81spanB : ℝ := (c81end - -Real.pi) * c81shareB

noncomputable def c81aA : ℝ := (-Real.pi + c81end) / 2

noncomputable def c81aB : ℝ := (-Real.pi + (-Real.pi + c81spanB)) / 2

noncomputable def c81ctx : RelaxCtx := componentCtx c8adj c8map [] ["A", "B"]

noncomputable def c81ang : List (String × ℝ) :=
  (componentAngleState c8adj c8map [] ["A", "B"]).angleById

noncomputable def c81dep : List (String × ℕ) :=
  (componentAngleState c8adj c8map [] ["A", "B"]).clusterDepthById

noncomputable def c81rad : ℕ → ℝ := componentRadiusAt c8adj c8map [] ["A", "B"]

/-- Raw angle-pipeline terms of component `{C, D}` (root `C`). -/
noncomputable def c82wC : ℝ := nodeWeight c8mC

noncomputable def c82wD : ℝ := nodeWeight c8mD

noncomputable def c82w : ℝ := (0 + c82wC) + c82wD

noncomputable def c82total : ℝ := 0 + c82w

noncomputable def c82alloc : ℝ :=
  max (MIN_ANGLE_RAD * max 1 (((2:ℕ)) : ℝ)) (2 * Real.pi * c82w / max c82total 1)

noncomputable def c82sum : ℝ := 0 + c82alloc

noncomputable def c82scale : ℝ := if c82sum > 0 then 2 * Real.pi / c82sum else 1

noncomputable def c82end : ℝ := -Real.pi + c82alloc * c82scale

noncomputable def c82T : ℝ := 0 + c82wD

noncomputable def c82shareD : ℝ := if c82T > 0 then c82wD / c82T else 1 / (((1:ℕ)) : ℝ)

noncomputable def c82spanD : ℝ := (c82end - -Real.pi) * c82shareD

noncomputable def c82aC : ℝ := (-Real.pi + c82end) / 2

noncomputable def c82aD : ℝ := (-Real.pi + (-Real.pi + c82spanD)) / 2

noncomputable def c82ctx : RelaxCtx := componentCtx c8adj c8map [] ["C", "D"]

noncomputable def c82ang : List (String × ℝ) :=
  (componentAngleState c8adj c8map [] ["C", "D"]).angleById

noncomputable def c82dep : List (String × ℕ) :=
  (componentAngleState c8adj c8map [] ["C", "D"]).clusterDepthById

noncomputable def c82rad : ℕ → ℝ := componentRadiusAt c8adj c8map [] ["C", "D"]

set_option maxHeartbeats 2000000 in
theorem c81ctx_eq :
    c81ctx = { nodes := c8map, movables := [c8mA, c8mB], lockedNodes := [],
               angleById := [("A", c81aA), ("B", c81aB)],
               clusterDepthById := [("A", 0), ("B", 1)],
               hasMultiRoots := false, maxDepth := 1 } := by rfl

set_option maxHeartbeats 2000000 in
theorem c82ctx_eq :
    c82ctx = { nodes := c8map, movables := [c8mC, c8mD], lockedNodes := [],
               angleById := [("C", c82aC), ("D", c82aD)],
               clusterDepthById := [("C", 0), ("D", 1)],
               hasMultiRoots := false, maxDepth := 1 } := by rfl

theorem c81w_val : c81w = 2001 / 5 := by
  have ha : c81wA = (max (150:ℝ) 50 + 24) * (1 + 15 / 100 * (((1:ℕ)) : ℝ)) := rfl
  have hb : c81wB = (max (150:ℝ) 50 + 24) * (1 + 15 / 100 * (((1:ℕ)) : ℝ)) := rfl
  show (0 + c81wA) + c81wB = 2001 / 5
  rw [ha, hb, max_eq_left (by norm_num : (50:ℝ) ≤ 150)]
  push_cast
  norm_num

theorem c81alloc_val : c81alloc = 2 * Real.pi := by
  have htot : c81total = 2001 / 5 := by
    show (0:ℝ) + c81w = 2001 / 5
    rw [c81w_val]; norm_num
  show max (MIN_ANGLE_RAD * max 1 (((2:ℕ)) : ℝ)) (2 * Real.pi * c81w / max c81total 1)
      = 2 * Real.pi
  rw [c81w_val, htot, max_eq_left (by norm_num : (1:ℝ) ≤ 2001 / 5)]
  rw [show (2 * Real.pi * (2001 / 5) / (2001 / 5) : ℝ) = 2 * Real.pi by field_simp]
  rw [show MIN_ANGLE_RAD * max 1 (((2:ℕ)) : ℝ) = Real.pi / 6 by
    show 15 * Real.pi / 180 * max 1 (((2:ℕ)) : ℝ) = Real.pi / 6
    rw [show max (1:ℝ) (((2:ℕ)) : ℝ) = 2 by
      rw [max_eq_right]; · push_cast; ring
      · push_cast; norm_num]
    ring]
  exact max_eq_right (by nlinarith [Real.pi_pos])

theorem c81end_val : c81end = Real.pi := by
  have hsc : c81scale = 1 := by
    have hs : c81sum = 2 * Real.pi := by
      show (0:ℝ) + c81alloc = 2 * Real.pi
      rw [c81alloc_val]; ring
    show (if c81sum > 0 then 2 * Real.pi / c81sum else 1) = 1
    rw [hs, if_pos (by positivity : (0:ℝ) < 2 * Real.pi)]
    rw [div_self (by positivity : (2 * Real.pi : ℝ) ≠ 0)]
  show -Real.pi + c81alloc * c81scale = Real.pi
  rw [c81alloc_val, hsc]; ring

theorem c81aA_val : c81aA = 0 := by
  show (-Real.pi + c81end) / 2 = 0
  rw [c81end_val]; ring

theorem c81aB_val : c81aB = 0 := by
  have hT : c81T = 2001 / 10 := by
    have hb : c81wB = (max (150:ℝ) 50 + 24) * (1 + 15 / 100 * (((1:ℕ)) : ℝ)) := rfl
    show (0:ℝ) + c81wB = 2001 / 10
    rw [hb, max_eq_left (by norm_num : (50:ℝ) ≤ 150)]
    push_cast
    norm_num
  have hsp : c81spanB = 2 * Real.pi := by
    show (c81end - -Real.pi) * c81shareB = 2 * Real.pi
    have hsh : c81shareB = 1 := by
      show (if c81T > 0 then c81wB / c81T else 1 / (((1:ℕ)) : ℝ)) = 1
      rw [if_pos (by rw [hT]; norm_num : c81T > 0)]
      have hb : c81wB = 2001 / 10 := by
        have hb0 : c81wB = (max (150:ℝ) 50 + 24) * (1 + 15 / 100 * (((1:ℕ)) : ℝ)) := rfl
        rw [hb0, max_eq_left (by norm_num : (50:ℝ) ≤ 150)]
        push_cast
        norm_num
      rw [hb, hT]
      norm_num
    rw [hsh, c81end_val]; ring
  show (-Real.pi + (-Real.pi + c81spanB)) / 2 = 0
  rw [hsp]; ring

theorem c82w_val : c82w = 2001 / 5 := by
  have ha : c82wC = (max (150:ℝ) 50 + 24) * (1 + 15 / 100 * (((1:ℕ)) : ℝ)) := rfl
  have hb : c82wD = (max (150:ℝ) 50 + 24) * (1 + 15 / 100 * (((1:ℕ)) : ℝ)) := rfl
  show (0 + c82wC) + c82wD = 2001 / 5
  rw [ha, hb, max_eq_left (by norm_num : (50:ℝ) ≤ 150)]
  push_cast
  norm_num

theorem c82alloc_val : c82alloc = 2 * Real.pi := by
  have htot : c82total = 2001 / 5 := by
    show (0:ℝ) + c82w = 2001 / 5
    rw [c82w_val]; norm_num
  show max (MIN_ANGLE_RAD * max 1 (((2:ℕ)) : ℝ)) (2 * Real.pi * c82w / max c82total 1)
      = 2 * Real.pi
  rw [c82w_val, htot, max_eq_left (by norm_num : (1:ℝ) ≤ 2001 / 5)]
  rw [show (2 * Real.pi * (2001 / 5) / (2001 / 5) : ℝ) = 2 * Real.pi by field_simp]
  rw [show MIN_ANGLE_RAD * max 1 (((2:ℕ)) : ℝ) = Real.pi / 6 by
    show 15 * Real.pi / 180 * max 1 (((2:ℕ)) : ℝ) = Real.pi / 6
    rw [show max (1:ℝ) (((2:ℕ)) : ℝ) = 2 by
      rw [max_eq_right]; · push_cast; ring
      · push_cast; norm_num]
    ring]
  exact max_eq_right (by nlinarith [Real.pi_pos])

theorem c82end_val : c82end = Real.pi := by
  have hsc : c82scale = 1 := by
    have hs : c82sum = 2 * Real.pi := by
      show (0:ℝ) + c82alloc = 2 * Real.pi
      rw [c82alloc_val]; ring
    show (if c82sum > 0 then 2 * Real.pi / c82sum else 1) = 1
    rw [hs, if_pos (by positivity : (0:ℝ) < 2 * Real.pi)]
    rw [div_self (by positivity : (2 * Real.pi : ℝ) ≠ 0)]
  show -Real.pi + c82alloc * c82scale = Real.pi
  rw [c82alloc_val, hsc]; ring

theorem c82aC_val : c82aC = 0 := by
  show (-Real.pi + c82end) / 2 = 0
  rw [c82end_val]; ring

theorem c82aD_val : c82aD = 0 := by
  have hT : c82T = 2001 / 10 := by
    have hb : c82wD = (max (150:ℝ) 50 + 24) * (1 + 15 / 100 * (((1:ℕ)) : ℝ)) := rfl
    show (0:ℝ) + c82wD = 2001 / 10
    rw [hb, max_eq_left (by norm_num : (50:ℝ) ≤ 150)]
    push_cast
    norm_num
  have hsp : c82spanD = 2 * Real.pi := by
    show (c82end - -Real.pi) * c82shareD = 2 * Real.pi
    have hsh : c82shareD = 1 := by
      show (if c82T > 0 then c82wD / c82T else 1 / (((1:ℕ)) : ℝ)) = 1
      rw [if_pos (by rw [hT]; norm_num : c82T > 0)]
      have hb : c82wD = 2001 / 10 := by
        have hb0 : c82wD = (max (150:ℝ) 50 + 24) * (1 + 15 / 100 * (((1:ℕ)) : ℝ)) := rfl
        rw [hb0, max_eq_left (by norm_num : (50:ℝ) ≤ 150)]
        push_cast
        norm_num
      rw [hb, hT]
      norm_num
    rw [hsh, c82end_val]; ring
  show (-Real.pi + (-Real.pi + c82spanD)) / 2 = 0
  rw [hsp]; ring

end MindMap

namespace MindMap

open scoped Classical

theorem c81_mov0 : movablesAtDepth c81ctx 0 = [c8mA] := by rw [c81ctx_eq]; rfl

theorem c81_mov1 : movablesAtDepth c81ctx 1 = [c8mB] := by rw [c81ctx_eq]; rfl

theorem c82_mov0 : movablesAtDepth c82ctx 0 = [c8mC] := by rw [c82ctx_eq]; rfl

theorem c82_mov1 : movablesAtDepth c82ctx 1 = [c8mD] := by rw [c82ctx_eq]; rfl

theorem c81_ring_none : ringSweep c81ctx (fun _ => 0) = none := by
  have h0 : ¬ ringDepthOverlap c81ctx (fun _ => 0) 0 := by
    rintro ⟨h2, -⟩
    rw [c81_mov0] at h2
    exact absurd h2 (by norm_num)
  have h1 : ¬ ringDepthOverlap c81ctx (fun _ => 0) 1 := by
    rintro ⟨h2, -⟩
    rw [c81_mov1] at h2
    exact absurd h2 (by norm_num)
  show (List.range (c81ctx.maxDepth + 1)).find?
      (fun depth => decide (ringDepthOverlap c81ctx (fun _ => 0) depth)) = none
  rw [List.find?_eq_none]
  intro x hx
  rw [List.mem_range, show c81ctx.maxDepth = 1 by rw [c81ctx_eq]] at hx
  simp only [decide_eq_true_eq]
  interval_cases x
  · exact h0
  · exact h1

theorem c82_ring_none : ringSweep c82ctx (fun _ => 0) = none := by
  have h0 : ¬ ringDepthOverlap c82ctx (fun _ => 0) 0 := by
    rintro ⟨h2, -⟩
    rw [c82_mov0] at h2
    exact absurd h2 (by norm_num)
  have h1 : ¬ ringDepthOverlap c82ctx (fun _ => 0) 1 := by
    rintro ⟨h2, -⟩
    rw [c82_mov1] at h2
    exact absurd h2 (by norm_num)
  show (List.range (c82ctx.maxDepth + 1)).find?
      (fun depth => decide (ringDepthOverlap c82ctx (fun _ => 0) depth)) = none
  rw [List.find?_eq_none]
  intro x hx
  rw [List.mem_range, show c82ctx.maxDepth = 1 by rw [c82ctx_eq]] at hx
  simp only [decide_eq_true_eq]
  interval_cases x
  · exact h0
  · exact h1

theorem c81_posA0 : getComputedPosition c81ctx (fun _ => 0) "A"
    = ⟨(baseRadiusAt false 1 0 + 0) * Real.cos c81aA,
       (baseRadiusAt false 1 0 + 0) * Real.sin c81aA⟩ := by
  rw [c81ctx_eq]; rfl

theorem c81_posB0 : getComputedPosition c81ctx (fun _ => 0) "B"
    = ⟨(baseRadiusAt false 1 1 + 0) * Real.cos c81aB,
       (baseRadiusAt false 1 1 + 0) * Real.sin c81aB⟩ := by
  rw [c81ctx_eq]; rfl

theorem c82_posC0 : getComputedPosition c82ctx (fun _ => 0) "C"
    = ⟨(baseRadiusAt false 1 0 + 0) * Real.cos c82aC,
       (baseRadiusAt false 1 0 + 0) * Real.sin c82aC⟩ := by
  rw [c82ctx_eq]; rfl

theorem c82_posD0 : getComputedPosition c82ctx (fun _ => 0) "D"
    = ⟨(baseRadiusAt false 1 1 + 0) * Real.cos c82aD,
       (baseRadiusAt false 1 1 + 0) * Real.sin c82aD⟩ := by
  rw [c82ctx_eq]; rfl

theorem c81_radial_none : radialSweep c81ctx (fun _ => 0) = none := by
  have h0 : ¬ radialDepthOverlap c81ctx (fun _ => 0) 0 := by
    rintro ⟨inner, hin, outer, hout, hov⟩
    rw [c81_mov0, List.mem_singleton] at hin
    subst hin
    rw [c81_mov1, List.mem_singleton] at hout
    subst hout
    have h2 := hov.1
    rw [show c8mA.id = "A" from rfl, show c8mB.id = "B" from rfl] at h2
    have hxA : (getComputedPosition c81ctx (fun _ => 0) "A").x = 0 := by
      rw [c81_posA0]
      show (baseRadiusAt false 1 0 + 0) * Real.cos c81aA = 0
      rw [c2_base0]
      norm_num
    have hxB : (getComputedPosition c81ctx (fun _ => 0) "B").x = 220 := by
      rw [c81_posB0]
      show (baseRadiusAt false 1 1 + 0) * Real.cos c81aB = 220
      rw [c2_base1, c81aB_val, Real.cos_zero]
      norm_num
    rw [hxA, hxB, show c8mA.width = (150:ℝ) from rfl, show c8mB.width = (150:ℝ) from rfl,
      show NODE_MARGIN = (24:ℝ) from rfl, abs_lt] at h2
    have h3 := h2.1
    norm_num at h3
  show (List.range c81ctx.maxDepth).find?
      (fun depth => decide (radialDepthOverlap c81ctx (fun _ => 0) depth)) = none
  rw [List.find?_eq_none]
  intro x hx
  rw [List.mem_range, show c81ctx.maxDepth = 1 by rw [c81ctx_eq]] at hx
  simp only [decide_eq_true_eq]
  interval_cases x
  exact h0

theorem c82_radial_none : radialSweep c82ctx (fun _ => 0) = none := by
  have h0 : ¬ radialDepthOverlap c82ctx (fun _ => 0) 0 := by
    rintro ⟨inner, hin, outer, hout, hov⟩
    rw [c82_mov0, List.mem_singleton] at hin
    subst hin
    rw [c82_mov1, List.mem_singleton] at hout
    subst hout
    have h2 := hov.1
    rw [show c8mC.id = "C" from rfl, show c8mD.id = "D" from rfl] at h2
    have hxC : (getComputedPosition c82ctx (fun _ => 0) "C").x = 0 := by
      rw [c82_posC0]
      show (baseRadiusAt false 1 0 + 0) * Real.cos c82aC = 0
      rw [c2_base0]
      norm_num
    have hxD : (getComputedPosition c82ctx (fun _ => 0) "D").x = 220 := by
      rw [c82_posD0]
      show (baseRadiusAt false 1 1 + 0) * Real.cos c82aD = 220
      rw [c2_base1, c82aD_val, Real.cos_zero]
      norm_num
    rw [hxC, hxD, show c8mC.width = (150:ℝ) from rfl, show c8mD.width = (150:ℝ) from rfl,
      show NODE_MARGIN = (24:ℝ) from rfl, abs_lt] at h2
    have h3 := h2.1
    norm_num at h3
  show (List.range c82ctx.maxDepth).find?
      (fun depth => decide (radialDepthOverlap c82ctx (fun _ => 0) depth)) = none
  rw [List.find?_eq_none]
  intro x hx
  rw [List.mem_range, show c82ctx.maxDepth = 1 by rw [c82ctx_eq]] at hx
  simp only [decide_eq_true_eq]
  interval_cases x
  exact h0

theorem c81_off : componentOffsets c8adj c8map [] ["A", "B"] = (fun _ => 0) := by
  have hr : ringLoop c81ctx 12 (fun _ => 0) = (fun _ => 0) := by
    have e : ringLoop c81ctx 12 (fun _ => 0)
        = (match ringSweep c81ctx (fun _ => 0) with
           | none => (fun _ => (0:ℝ))
           | some depth => ringLoop c81ctx 11
               (addDepthOffset c81ctx.maxDepth (fun _ => 0) depth NODE_MARGIN)) := rfl
    rw [e, c81_ring_none]
  have hd : radialLoop c81ctx 12 (fun _ => 0) = (fun _ => 0) := by
    have e : radialLoop c81ctx 12 (fun _ => 0)
        = (match radialSweep c81ctx (fun _ => 0) with
           | none => (fun _ => (0:ℝ))
           | some depth => radialLoop c81ctx 11
               (addDepthOffset c81ctx.maxDepth (fun _ => 0) (depth + 1) NODE_MARGIN)) := rfl
    rw [e, c81_radial_none]
  show lockedAdjust c81ctx
      (radialLoop c81ctx 12 (ringLoop c81ctx 12 (fun _ => 0))) = (fun _ => 0)
  rw [hr, hd]
  rfl

theorem c82_off : componentOffsets c8adj c8map [] ["C", "D"] = (fun _ => 0) := by
  have hr : ringLoop c82ctx 12 (fun _ => 0) = (fun _ => 0) := by
    have e : ringLoop c82ctx 12 (fun _ => 0)
        = (match ringSweep c82ctx (fun _ => 0) with
           | none => (fun _ => (0:ℝ))
           | some depth => ringLoop c82ctx 11
               (addDepthOffset c82ctx.maxDepth (fun _ => 0) depth NODE_MARGIN)) := rfl
    rw [e, c82_ring_none]
  have hd : radialLoop c82ctx 12 (fun _ => 0) = (fun _ => 0) := by
    have e : radialLoop c82ctx 12 (fun _ => 0)
        = (match radialSweep c82ctx (fun _ => 0) with
           | none => (fun _ => (0:ℝ))
           | some depth => radialLoop c82ctx 11
               (addDepthOffset c82ctx.maxDepth (fun _ => 0) (depth + 1) NODE_MARGIN)) := rfl
    rw [e, c82_radial_none]
  show lockedAdjust c82ctx
      (radialLoop c82ctx 12 (ringLoop c82ctx 12 (fun _ => 0))) = (fun _ => 0)
  rw [hr, hd]
  rfl

theorem c81rad0 : c81rad 0 = 0 := by
  show baseRadiusAt c81ctx.hasMultiRoots c81ctx.maxDepth 0
      + componentOffsets c8adj c8map [] ["A", "B"] 0 = 0
  rw [c81_off, show c81ctx.hasMultiRoots = false by rw [c81ctx_eq],
    show c81ctx.maxDepth = 1 by rw [c81ctx_eq], c2_base0]
  norm_num

theorem c81rad1 : c81rad 1 = 220 := by
  show baseRadiusAt c81ctx.hasMultiRoots c81ctx.maxDepth 1
      + componentOffsets c8adj c8map [] ["A", "B"] 1 = 220
  rw [c81_off, show c81ctx.hasMultiRoots = false by rw [c81ctx_eq],
    show c81ctx.maxDepth = 1 by rw [c81ctx_eq], c2_base1]
  norm_num

theorem c82rad0 : c82rad 0 = 0 := by
  show baseRadiusAt c82ctx.hasMultiRoots c82ctx.maxDepth 0
      + componentOffsets c8adj c8map [] ["C", "D"] 0 = 0
  rw [c82_off, show c82ctx.hasMultiRoots = false by rw [c82ctx_eq],
    show c82ctx.maxDepth = 1 by rw [c82ctx_eq], c2_base0]
  norm_num

theorem c82rad1 : c82rad 1 = 220 := by
  show baseRadiusAt c82ctx.hasMultiRoots c82ctx.maxDepth 1
      + componentOffsets c8adj c8map [] ["C", "D"] 1 = 220
  rw [c82_off, show c82ctx.hasMultiRoots = false by rw [c82ctx_eq],
    show c82ctx.maxDepth = 1 by rw [c82ctx_eq], c2_base1]
  norm_num

theorem c8fA : finalNodePos c81ang c81dep c81rad c8mA = ⟨0, 0⟩ := by
  have e : finalNodePos c81ang c81dep c81rad c8mA
      = ⟨c81rad 0 * Real.cos c81aA, c81rad 0 * Real.sin c81aA⟩ := rfl
  rw [e, c81rad0]
  norm_num

theorem c8fB : finalNodePos c81ang c81dep c81rad c8mB = ⟨220, 0⟩ := by
  have e : finalNodePos c81ang c81dep c81rad c8mB
      = ⟨c81rad 1 * Real.cos c81aB, c81rad 1 * Real.sin c81aB⟩ := rfl
  rw [e, c81rad1, c81aB_val, Real.cos_zero, Real.sin_zero]
  norm_num

theorem c8fC : finalNodePos c82ang c82dep c82rad c8mC = ⟨0, 0⟩ := by
  have e : finalNodePos c82ang c82dep c82rad c8mC
      = ⟨c82rad 0 * Real.cos c82aC, c82rad 0 * Real.sin c82aC⟩ := rfl
  rw [e, c82rad0]
  norm_num

theorem c8fD : finalNodePos c82ang c82dep c82rad c8mD = ⟨220, 0⟩ := by
  have e : finalNodePos c82ang c82dep c82rad c8mD
      = ⟨c82rad 1 * Real.cos c82aD, c82rad 1 * Real.sin c82aD⟩ := rfl
  rw [e, c82rad1, c82aD_val, Real.cos_zero, Real.sin_zero]
  norm_num

end MindMap

namespace MindMap

open scoped Classical

theorem c8box1 : toBoundingBox [("A", (⟨0, 0⟩ : Position)), ("B", ⟨220, 0⟩)] c8map
    = ⟨-75, 295, -25, 25⟩ := by
  have e : toBoundingBox [("A", (⟨0, 0⟩ : Position)), ("B", ⟨220, 0⟩)] c8map
      = ⟨min (min ((0:ℝ) - 150 / 2) ((0:ℝ) - 150 / 2)) (220 - 150 / 2),
         max (max ((0:ℝ) + 150 / 2) ((0:ℝ) + 150 / 2)) (220 + 150 / 2),
         min (min ((0:ℝ) - 50 / 2) ((0:ℝ) - 50 / 2)) ((0:ℝ) - 50 / 2),
         max (max ((0:ℝ) + 50 / 2) ((0:ℝ) + 50 / 2)) ((0:ℝ) + 50 / 2)⟩ := rfl
  rw [e]
  rw [show ((0:ℝ) - 150 / 2) = -75 by norm_num, show ((220:ℝ) - 150 / 2) = 145 by norm_num,
    show ((0:ℝ) + 150 / 2) = 75 by norm_num, show ((220:ℝ) + 150 / 2) = 295 by norm_num,
    show ((0:ℝ) - 50 / 2) = -25 by norm_num, show ((0:ℝ) + 50 / 2) = 25 by norm_num]
  simp only [min_self, max_self]
  rw [min_eq_left (by norm_num : (-75:ℝ) ≤ 145),
    max_eq_right (by norm_num : (75:ℝ) ≤ 295)]

theorem c8box2 : toBoundingBox [("C", (⟨0, 0⟩ : Position)), ("D", ⟨220, 0⟩)] c8map
    = ⟨-75, 295, -25, 25⟩ := by
  have e : toBoundingBox [("C", (⟨0, 0⟩ : Position)), ("D", ⟨220, 0⟩)] c8map
      = ⟨min (min ((0:ℝ) - 150 / 2) ((0:ℝ) - 150 / 2)) (220 - 150 / 2),
         max (max ((0:ℝ) + 150 / 2) ((0:ℝ) + 150 / 2)) (220 + 150 / 2),
         min (min ((0:ℝ) - 50 / 2) ((0:ℝ) - 50 / 2)) ((0:ℝ) - 50 / 2),
         max (max ((0:ℝ) + 50 / 2) ((0:ℝ) + 50 / 2)) ((0:ℝ) + 50 / 2)⟩ := rfl
  rw [e]
  rw [show ((0:ℝ) - 150 / 2) = -75 by norm_num, show ((220:ℝ) - 150 / 2) = 145 by norm_num,
    show ((0:ℝ) + 150 / 2) = 75 by norm_num, show ((220:ℝ) + 150 / 2) = 295 by norm_num,
    show ((0:ℝ) - 50 / 2) = -25 by norm_num, show ((0:ℝ) + 50 / 2) = 25 by norm_num]
  simp only [min_self, max_self]
  rw [min_eq_left (by norm_num : (-75:ℝ) ≤ 145),
    max_eq_right (by norm_num : (75:ℝ) ≤ 295)]

set_option maxHeartbeats 1000000 in
theorem c8res1 : componentResult c8adj c8map [] ["A", "B"]
    = ⟨[("A", ⟨0, 0⟩), ("B", ⟨220, 0⟩)], ⟨-75, 295, -25, 25⟩, false⟩ := by
  have h1 : componentResult c8adj c8map [] ["A", "B"]
      = ⟨[("A", finalNodePos c81ang c81dep c81rad c8mA),
          ("B", finalNodePos c81ang c81dep c81rad c8mB)],
         toBoundingBox
           [("A", finalNodePos c81ang c81dep c81rad c8mA),
            ("B", finalNodePos c81ang c81dep c81rad c8mB)] c8map, false⟩ := rfl
  rw [h1, c8fA, c8fB, c8box1]

set_option maxHeartbeats 1000000 in
theorem c8res2 : componentResult c8adj c8map [] ["C", "D"]
    = ⟨[("C", ⟨0, 0⟩), ("D", ⟨220, 0⟩)], ⟨-75, 295, -25, 25⟩, false⟩ := by
  have h1 : componentResult c8adj c8map [] ["C", "D"]
      = ⟨[("C", finalNodePos c82ang c82dep c82rad c8mC),
          ("D", finalNodePos c82ang c82dep c82rad c8mD)],
         toBoundingBox
           [("C", finalNodePos c82ang c82dep c82rad c8mC),
            ("D", finalNodePos c82ang c82dep c82rad c8mD)] c8map, false⟩ := rfl
  rw [h1, c8fC, c8fD, c8box2]

set_option maxHeartbeats 1000000 in
theorem c8results : componentResultsOf c8nodes c8edges {}
    = [⟨[("A", ⟨0, 0⟩), ("B", ⟨220, 0⟩)], ⟨-75, 295, -25, 25⟩, false⟩,
       ⟨[("C", ⟨0, 0⟩), ("D", ⟨220, 0⟩)], ⟨-75, 295, -25, 25⟩, false⟩] := by
  show (componentsOf c8nodes c8edges).map (componentResult c8adj c8map []) = _
  rw [show componentsOf c8nodes c8edges = [["A", "B"], ["C", "D"]] from by decide]
  rw [List.map_cons, List.map_cons, List.map_nil, c8res1, c8res2]

theorem c8packed : packComponents (componentResultsOf c8nodes c8edges {}) false
    = ⟨[("A", ⟨75, 25⟩), ("B", ⟨295, 25⟩), ("C", ⟨865, 25⟩), ("D", ⟨1085, 25⟩)],
       1580, 0, some ⟨0, 1160, 0, 50⟩, false⟩ := by
  rw [show packComponents (componentResultsOf c8nodes c8edges {}) false
      = List.foldl (packStep false) ⟨[], 0, 0, none, false⟩
          (componentResultsOf c8nodes c8edges {}) from rfl, c8results]
  rw [List.foldl_cons, List.foldl_cons, List.foldl_nil]
  have hs1 : packStep false ⟨[], 0, 0, none, false⟩
      ⟨[("A", ⟨0, 0⟩), ("B", ⟨220, 0⟩)], ⟨-75, 295, -25, 25⟩, false⟩
      = ⟨[("A", ⟨0 + ((0:ℝ) - (-75)), 0 + (-(-25) : ℝ)⟩),
          ("B", ⟨220 + ((0:ℝ) - (-75)), 0 + (-(-25) : ℝ)⟩)],
         0 + (295 - (-75)) + COMPONENT_GAP, 0,
         some ⟨(-75) + ((0:ℝ) - (-75)), 295 + ((0:ℝ) - (-75)),
               (-25) + (-(-25) : ℝ), 25 + (-(-25) : ℝ)⟩,
         false⟩ := rfl
  have hs1v : packStep false ⟨[], 0, 0, none, false⟩
      ⟨[("A", ⟨0, 0⟩), ("B", ⟨220, 0⟩)], ⟨-75, 295, -25, 25⟩, false⟩
      = ⟨[("A", ⟨75, 25⟩), ("B", ⟨295, 25⟩)], 790, 0, some ⟨0, 370, 0, 50⟩, false⟩ := by
    rw [hs1]
    norm_num [COMPONENT_GAP]
  rw [hs1v]
  have hs2 : packStep false
      ⟨[("A", ⟨75, 25⟩), ("B", ⟨295, 25⟩)], 790, 0, some ⟨0, 370, 0, 50⟩, false⟩
      ⟨[("C", ⟨0, 0⟩), ("D", ⟨220, 0⟩)], ⟨-75, 295, -25, 25⟩, false⟩
      = ⟨[("A", ⟨75, 25⟩), ("B", ⟨295, 25⟩),
          ("C", ⟨0 + ((790:ℝ) - (-75)), 0 + (-(-25) : ℝ)⟩),
          ("D", ⟨220 + ((790:ℝ) - (-75)), 0 + (-(-25) : ℝ)⟩)],
         790 + (295 - (-75)) + COMPONENT_GAP, 0,
         some (mergeBoundingBoxes ⟨0, 370, 0, 50⟩
           ⟨(-75) + ((790:ℝ) - (-75)), 295 + ((790:ℝ) - (-75)),
            (-25) + (-(-25) : ℝ), 25 + (-(-25) : ℝ)⟩),
         false⟩ := rfl
  rw [hs2]
  rw [show ((-75):ℝ) + (790 - (-75)) = 790 by norm_num,
    show (295:ℝ) + (790 - (-75)) = 1160 by norm_num,
    show ((-25):ℝ) + (-(-25) : ℝ) = 0 by norm_num,
    show (25:ℝ) + (-(-25) : ℝ) = 50 by norm_num,
    show (0:ℝ) + ((790:ℝ) - (-75)) = 865 by norm_num,
    show (220:ℝ) + ((790:ℝ) - (-75)) = 1085 by norm_num,
    show (0:ℝ) + (-(-25) : ℝ) = 25 by norm_num,
    show (790:ℝ) + (295 - (-75)) + COMPONENT_GAP = 1580 by norm_num [COMPONENT_GAP]]
  rw [show mergeBoundingBoxes ⟨0, 370, 0, 50⟩ (⟨790, 1160, 0, 50⟩ : BoundingBox)
      = ⟨min (0:ℝ) 790, max (370:ℝ) 1160, min (0:ℝ) 0, max (50:ℝ) 50⟩ from rfl]
  rw [min_self, max_self, min_eq_left (by norm_num : (0:ℝ) ≤ 790),
    max_eq_right (by norm_num : (370:ℝ) ≤ 1160)]

theorem c8centered :
    centerPositions (packComponents (componentResultsOf c8nodes c8edges {}) false)
    = [("A", ⟨-505, 0⟩), ("B", ⟨-285, 0⟩), ("C", ⟨285, 0⟩), ("D", ⟨505, 0⟩)] := by
  rw [c8packed]
  have e : centerPositions
      ⟨[("A", ⟨75, 25⟩), ("B", ⟨295, 25⟩), ("C", ⟨865, 25⟩), ("D", ⟨1085, 25⟩)],
       1580, 0, some ⟨0, 1160, 0, 50⟩, false⟩
      = [("A", ⟨75 - ((0:ℝ) + 1160) / 2, 25 - ((0:ℝ) + 50) / 2⟩),
         ("B", ⟨295 - ((0:ℝ) + 1160) / 2, 25 - ((0:ℝ) + 50) / 2⟩),
         ("C", ⟨865 - ((0:ℝ) + 1160) / 2, 25 - ((0:ℝ) + 50) / 2⟩),
         ("D", ⟨1085 - ((0:ℝ) + 1160) / 2, 25 - ((0:ℝ) + 50) / 2⟩)] := rfl
  rw [e]
  norm_num

theorem c8final : computeMindMapLayout c8nodes c8edges {}
    = [("A", ⟨-505, 0⟩), ("B", ⟨-285, 0⟩), ("C", ⟨285, 0⟩), ("D", ⟨505, 0⟩)] := by
  show backfillPositions c8nodes
      (centerPositions (packComponents (componentResultsOf c8nodes c8edges {}) false)) = _
  rw [c8centered]
  rfl

set_option maxHeartbeats 1000000 in
/-- C8: the two-pair input yields exactly two components; the packed, centered
output keeps the two component boxes disjoint with exactly `COMPONENT_GAP`
(420) of horizontal clearance between the right edge of box `{A, B}` and the
left edge of box `{C, D}`. -/
theorem c8_two_components_packed_with_gap :
    componentsOf c8nodes c8edges = [["A", "B"], ["C", "D"]] ∧
    computeMindMapLayout c8nodes c8edges {}
      = [("A", ⟨-505, 0⟩), ("B", ⟨-285, 0⟩), ("C", ⟨285, 0⟩), ("D", ⟨505, 0⟩)] ∧
    (toBoundingBox [("A", ⟨-505, 0⟩), ("B", ⟨-285, 0⟩)] c8map).maxX = -210 ∧
    (toBoundingBox [("C", ⟨285, 0⟩), ("D", ⟨505, 0⟩)] c8map).minX = 210 ∧
    ((-210 : ℝ) < 210 ∧ (210 : ℝ) - (-210) = COMPONENT_GAP) := by
  refine ⟨by decide, c8final, ?_, ?_, by norm_num, by norm_num [COMPONENT_GAP]⟩
  · rw [show (toBoundingBox [("A", ⟨-505, 0⟩), ("B", ⟨-285, 0⟩)] c8map).maxX
        = max (max ((-505:ℝ) + 150 / 2) ((-505:ℝ) + 150 / 2)) ((-285:ℝ) + 150 / 2)
        from rfl]
    rw [show ((-505:ℝ) + 150 / 2) = -430 by norm_num,
      show ((-285:ℝ) + 150 / 2) = -210 by norm_num, max_self]
    rw [max_eq_right (by norm_num : (-430:ℝ) ≤ -210)]
  · rw [show (toBoundingBox [("C", ⟨285, 0⟩), ("D", ⟨505, 0⟩)] c8map).minX
        = min (min ((285:ℝ) - 150 / 2) ((285:ℝ) - 150 / 2)) ((505:ℝ) - 150 / 2)
        from rfl]
    rw [show ((285:ℝ) - 150 / 2) = 210 by norm_num,
      show ((505:ℝ) - 150 / 2) = 430 by norm_num, min_self]
    rw [min_eq_left (by norm_num : (210:ℝ) ≤ 430)]

end MindMap

namespace Canvas

open scoped Classical

/-- A graphology node with the attributes `handleExpandNode` reads
(`SigmaCanvas.tsx`): `hidden`, `x`, `y`, `size`. -/
structure CNode where
  id : String
  hidden : Bool := false
  x : Option ℝ := none
  y : Option ℝ := none
  size : Option ℝ := none

/-- A directed graph edge with its `edgeType` attribute. -/
structure CEdge where
  source : String
  target : String
  edgeType : Option String := none

/-- The mutable graph, modelled as plain lists. -/
structure CGraph where
  nodes : List CNode
  edges : List CEdge

def getNode? (g : CGraph) (id : String) : Option CNode :=
  g.nodes.find? (fun n => n.id == id)

/-- `readNumber(graph.getNodeAttribute(id, "x"))`. -/
def nodeX (g : CGraph) (id : String) : Option ℝ :=
  (getNode? g id).bind (fun n => n.x)

def nodeY (g : CGraph) (id : String) : Option ℝ :=
  (getNode? g id).bind (fun n => n.y)

def nodeSize (g : CGraph) (id : String) : Option ℝ :=
  (getNode? g id).bind (fun n => n.size)

/-- `graph.getNodeAttribute(id, "hidden") === true`. -/
def nodeHidden (g : CGraph) (id : String) : Bool :=
  match getNode? g id with
  | some n => n.hidden
  | none => false

def setX (g : CGraph) (id : String) (v : ℝ) : CGraph :=
  ⟨g.nodes.map (fun n => if n.id == id then { n with x := some v } else n), g.edges⟩

def setY (g : CGraph) (id : String) (v : ℝ) : CGraph :=
  ⟨g.nodes.map (fun n => if n.id == id then { n with y := some v } else n), g.edges⟩

def setHidden (g : CGraph) (id : String) (b : Bool) : CGraph :=
  ⟨g.nodes.map (fun n => if n.id == id then { n with hidden := b } else n), g.edges⟩

/-- `graph.forEachOutEdge(nodeId, ...)`: out-edges in insertion order. -/
def outEdges (g : CGraph) (nodeId : String) : List CEdge :=
  g.edges.filter (fun e => e.source == nodeId)

/-- Result of the structural-children reveal pass. -/
structure RevealResult where
  graph : CGraph
  structuralChildren : List String
  newlyRevealed : List String

/-- The reveal loop of `handleExpandNode` (source lines 387-394): un-hide each
structural-edge target, recording all of them and those that were hidden. -/
def revealChildren (g : CGraph) (nodeId : String) : RevealResult :=
  (outEdges g nodeId).foldl (fun st e =>
    if e.edgeType = some "structural" then
      let wasHidden := nodeHidden st.graph e.target
      { graph := setHidden st.graph e.target false
        structuralChildren := st.structuralChildren ++ [e.target]
        newlyRevealed := if wasHidden then st.newlyRevealed ++ [e.target]
          else st.newlyRevealed }
    else st) ⟨g, [], []⟩

/-- `shouldReposition` (source lines 402-409): reposition when the child has
no coordinates or sits within `minSeparation` of the parent. -/
noncomputable def shouldReposition (g : CGraph) (parentX parentY minSeparation : ℝ)
    (childId : String) : Bool :=
  match nodeX g childId, nodeY g childId with
  | some childX, some childY =>
    decide (Real.sqrt ((childX - parentX) * (childX - parentX)
      + (childY - parentY) * (childY - parentY)) < minSeparation)
  | _, _ => true

/-- The ring branch of `handleExpandNode` (source lines 396-401 and 459-477),
taken when the circle and layered placements do not apply: reveal the
structural children, then place each newly revealed child on a ring of at
most 12 around the parent, angle `(indexInRing / countInRing) * 2π`, radius
`max(140, parentSize*14) + ringIndex*140 + childSize*6`. -/
noncomputable def expandRingChildren (g : CGraph) (nodeId : String) : CGraph :=
  let r := revealChildren g nodeId
  if r.structuralChildren.length = 0 then r.graph
  else
    let parentX := (nodeX r.graph nodeId).getD 0
    let parentY := (nodeY r.graph nodeId).getD 0
    let parentSize := (nodeSize r.graph nodeId).getD 10
    let minSeparation := max 120 (parentSize * 12)
    let maxPerRing : ℕ := 12
    let ringGap : ℝ := 140
    let baseRadius := max 140 (parentSize * 14)
    r.newlyRevealed.enum.foldl (fun g2 p =>
      if shouldReposition g2 parentX parentY minSeparation p.2 then
        let ringIndex := p.1 / maxPerRing
        let indexInRing := p.1 % maxPerRing
        let countInRing := min maxPerRing (r.newlyRevealed.length - ringIndex * maxPerRing)
        let angle := ((indexInRing : ℝ) / ((max 1 countInRing : ℕ) : ℝ)) * Real.pi * 2
        let childSize := (nodeSize g2 p.2).getD 8
        let ringRadius := baseRadius + (ringIndex : ℝ) * ringGap + childSize * 6
        setY (setX g2 p.2 (parentX + Real.cos angle * ringRadius)) p.2
          (parentY + Real.sin angle * ringRadius)
      else g2) r.graph

/-- Squared Euclidean distance between two placed nodes. -/
noncomputable def distSq (g : CGraph) (a b : String) : ℝ :=
  ((nodeX g a).getD 0 - (nodeX g b).getD 0) ^ 2
    + ((nodeY g a).getD 0 - (nodeY g b).getD 0) ^ 2

/-- Parent `P` at the origin with five hidden structural children; `C0` has
size 20, the others default to 8. -/
noncomputable def c9g : CGraph :=
  ⟨[{ id := "P", x := some 0, y := some 0 },
    { id := "C0", hidden := true, size := some 20 },
    { id := "C1", hidden := true }, { id := "C2", hidden := true },
    { id := "C3", hidden := true }, { id := "C4", hidden := true }],
   [⟨"P", "C0", some "structural"⟩, ⟨"P", "C1", some "structural"⟩,
    ⟨"P", "C2", some "structural"⟩, ⟨"P", "C3", some "structural"⟩,
    ⟨"P", "C4", some "structural"⟩]⟩

noncomputable def c9out : CGraph := expandRingChildren c9g "P"

theorem c9out_x0 : nodeX c9out "C0"
    = some (0 + Real.cos ((((0:ℕ)) : ℝ) / (((5:ℕ)) : ℝ) * Real.pi * 2)
        * (max 140 ((10:ℝ) * 14) + (((0:ℕ)) : ℝ) * 140 + 20 * 6)) := rfl

theorem c9out_y0 : nodeY c9out "C0"
    = some (0 + Real.sin ((((0:ℕ)) : ℝ) / (((5:ℕ)) : ℝ) * Real.pi * 2)
        * (max 140 ((10:ℝ) * 14) + (((0:ℕ)) : ℝ) * 140 + 20 * 6)) := rfl

theorem c9out_x1 : nodeX c9out "C1"
    = some (0 + Real.cos ((((1:ℕ)) : ℝ) / (((5:ℕ)) : ℝ) * Real.pi * 2)
        * (max 140 ((10:ℝ) * 14) + (((0:ℕ)) : ℝ) * 140 + 8 * 6)) := rfl

theorem c9out_y1 : nodeY c9out "C1"
    = some (0 + Real.sin ((((1:ℕ)) : ℝ) / (((5:ℕ)) : ℝ) * Real.pi * 2)
        * (max 140 ((10:ℝ) * 14) + (((0:ℕ)) : ℝ) * 140 + 8 * 6)) := rfl

theorem c9out_xP : nodeX c9out "P" = some 0 := rfl

theorem c9out_yP : nodeY c9out "P" = some 0 := rfl

end Canvas

namespace Canvas

open scoped Classical

theorem c9_r0_val :
    (max (140:ℝ) ((10:ℝ) * 14) + (((0:ℕ)) : ℝ) * 140 + 20 * 6) = 260 := by
  rw [show ((10:ℝ) * 14) = 140 by norm_num, max_self]
  push_cast
  norm_num

theorem c9_r1_val :
    (max (140:ℝ) ((10:ℝ) * 14) + (((0:ℕ)) : ℝ) * 140 + 8 * 6) = 188 := by
  rw [show ((10:ℝ) * 14) = 140 by norm_num, max_self]
  push_cast
  norm_num

theorem c9_theta0_val : (((0:ℕ)) : ℝ) / (((5:ℕ)) : ℝ) * Real.pi * 2 = 0 := by
  push_cast
  ring

/-- C9, counterexample: with unequal child sizes (20 vs 8) the five revealed
siblings do not share one ring radius: `C0` ends at squared distance `260²`
from the parent while `C1` ends at `188²`. -/
theorem c9_same_radius_counterexample :
    distSq c9out "P" "C0" = 260 ^ 2 ∧ distSq c9out "P" "C1" = 188 ^ 2 ∧
    ((260:ℝ) ^ 2 ≠ 188 ^ 2) := by
  refine ⟨?_, ?_, by norm_num⟩
  · show ((nodeX c9out "P").getD 0 - (nodeX c9out "C0").getD 0) ^ 2
        + ((nodeY c9out "P").getD 0 - (nodeY c9out "C0").getD 0) ^ 2 = 260 ^ 2
    rw [c9out_xP, c9out_yP, c9out_x0, c9out_y0]
    simp only [Option.getD_some]
    rw [c9_theta0_val, c9_r0_val, Real.cos_zero, Real.sin_zero]
    norm_num
  · show ((nodeX c9out "P").getD 0 - (nodeX c9out "C1").getD 0) ^ 2
        + ((nodeY c9out "P").getD 0 - (nodeY c9out "C1").getD 0) ^ 2 = 188 ^ 2
    rw [c9out_xP, c9out_yP, c9out_x1, c9out_y1]
    simp only [Option.getD_some]
    rw [c9_r1_val]
    have h := Real.sin_sq_add_cos_sq ((((1:ℕ)) : ℝ) / (((5:ℕ)) : ℝ) * Real.pi * 2)
    linear_combination (188:ℝ) ^ 2 * h

/-- The same five-sibling expansion with all child sizes equal (default 8). -/
noncomputable def c9e : CGraph :=
  ⟨[{ id := "P", x := some 0, y := some 0 },
    { id := "C0", hidden := true }, { id := "C1", hidden := true },
    { id := "C2", hidden := true }, { id := "C3", hidden := true },
    { id := "C4", hidden := true }],
   [⟨"P", "C0", some "structural"⟩, ⟨"P", "C1", some "structural"⟩,
    ⟨"P", "C2", some "structural"⟩, ⟨"P", "C3", some "structural"⟩,
    ⟨"P", "C4", some "structural"⟩]⟩

noncomputable def c9eout : CGraph := expandRingChildren c9e "P"

/-- The angle the ring branch gives the `k`-th of five same-ring children. -/
noncomputable def c9angle (k : ℕ) : ℝ := (k : ℝ) / 5 * Real.pi * 2

theorem c9e_x0 : nodeX c9eout "C0"
    = some (0 + Real.cos ((((0:ℕ)) : ℝ) / (((5:ℕ)) : ℝ) * Real.pi * 2)
        * (max 140 ((10:ℝ) * 14) + (((0:ℕ)) : ℝ) * 140 + 8 * 6)) := rfl

theorem c9e_y0 : nodeY c9eout "C0"
    = some (0 + Real.sin ((((0:ℕ)) : ℝ) / (((5:ℕ)) : ℝ) * Real.pi * 2)
        * (max 140 ((10:ℝ) * 14) + (((0:ℕ)) : ℝ) * 140 + 8 * 6)) := rfl

theorem c9e_x1 : nodeX c9eout "C1"
    = some (0 + Real.cos ((((1:ℕ)) : ℝ) / (((5:ℕ)) : ℝ) * Real.pi * 2)
        * (max 140 ((10:ℝ) * 14) + (((0:ℕ)) : ℝ) * 140 + 8 * 6)) := rfl

theorem c9e_y1 : nodeY c9eout "C1"
    = some (0 + Real.sin ((((1:ℕ)) : ℝ) / (((5:ℕ)) : ℝ) * Real.pi * 2)
        * (max 140 ((10:ℝ) * 14) + (((0:ℕ)) : ℝ) * 140 + 8 * 6)) := rfl

theorem c9e_x2 : nodeX c9eout "C2"
    = some (0 + Real.cos ((((2:ℕ)) : ℝ) / (((5:ℕ)) : ℝ) * Real.pi * 2)
        * (max 140 ((10:ℝ) * 14) + (((0:ℕ)) : ℝ) * 140 + 8 * 6)) := rfl

theorem c9e_y2 : nodeY c9eout "C2"
    = some (0 + Real.sin ((((2:ℕ)) : ℝ) / (((5:ℕ)) : ℝ) * Real.pi * 2)
        * (max 140 ((10:ℝ) * 14) + (((0:ℕ)) : ℝ) * 140 + 8 * 6)) := rfl

theorem c9e_x3 : nodeX c9eout "C3"
    = some (0 + Real.cos ((((3:ℕ)) : ℝ) / (((5:ℕ)) : ℝ) * Real.pi * 2)
        * (max 140 ((10:ℝ) * 14) + (((0:ℕ)) : ℝ) * 140 + 8 * 6)) := rfl

theorem c9e_y3 : nodeY c9eout "C3"
    = some (0 + Real.sin ((((3:ℕ)) : ℝ) / (((5:ℕ)) : ℝ) * Real.pi * 2)
        * (max 140 ((10:ℝ) * 14) + (((0:ℕ)) : ℝ) * 140 + 8 * 6)) := rfl

theorem c9e_x4 : nodeX c9eout "C4"
    = some (0 + Real.cos ((((4:ℕ)) : ℝ) / (((5:ℕ)) : ℝ) * Real.pi * 2)
        * (max 140 ((10:ℝ) * 14) + (((0:ℕ)) : ℝ) * 140 + 8 * 6)) := rfl

theorem c9e_y4 : nodeY c9eout "C4"
    = some (0 + Real.sin ((((4:ℕ)) : ℝ) / (((5:ℕ)) : ℝ) * Real.pi * 2)
        * (max 140 ((10:ℝ) * 14) + (((0:ℕ)) : ℝ) * 140 + 8 * 6)) := rfl

theorem c9e_xP : nodeX c9eout "P" = some 0 := rfl

theorem c9e_yP : nodeY c9eout "P" = some 0 := rfl

theorem c9e_dist (k : ℕ) (ck : String)
    (hx : nodeX c9eout ck
      = some (0 + Real.cos (((k) : ℝ) / (((5:ℕ)) : ℝ) * Real.pi * 2)
          * (max 140 ((10:ℝ) * 14) + (((0:ℕ)) : ℝ) * 140 + 8 * 6)))
    (hy : nodeY c9eout ck
      = some (0 + Real.sin (((k) : ℝ) / (((5:ℕ)) : ℝ) * Real.pi * 2)
          * (max 140 ((10:ℝ) * 14) + (((0:ℕ)) : ℝ) * 140 + 8 * 6))) :
    distSq c9eout "P" ck = 188 ^ 2 := by
  show ((nodeX c9eout "P").getD 0 - (nodeX c9eout ck).getD 0) ^ 2
      + ((nodeY c9eout "P").getD 0 - (nodeY c9eout ck).getD 0) ^ 2 = 188 ^ 2
  rw [c9e_xP, c9e_yP, hx, hy]
  simp only [Option.getD_some]
  rw [c9_r1_val]
  have h := Real.sin_sq_add_cos_sq (((k) : ℝ) / (((5:ℕ)) : ℝ) * Real.pi * 2)
  linear_combination (188:ℝ) ^ 2 * h

theorem c9angle_lt {j k : ℕ} (h : j < k) : c9angle j < c9angle k := by
  unfold c9angle
  have hp := Real.pi_pos
  have hc : (j:ℝ) < (k:ℝ) := by exact_mod_cast h
  nlinarith [mul_pos (sub_pos.mpr hc) hp]

/-- C9, amended: with equal child sizes the five revealed siblings get
strictly increasing angles `k·(2π/5)` starting at 0 and closing the full
turn, and all five end at the same squared distance `188²` from the parent. -/
theorem c9_ring_equal_sizes_amended :
    (c9angle 0 < c9angle 1 ∧ c9angle 1 < c9angle 2 ∧ c9angle 2 < c9angle 3 ∧
     c9angle 3 < c9angle 4) ∧
    (c9angle 0 = 0 ∧ c9angle 1 - c9angle 0 = 2 * Real.pi / 5 ∧
     c9angle 2 - c9angle 1 = 2 * Real.pi / 5 ∧
     c9angle 3 - c9angle 2 = 2 * Real.pi / 5 ∧
     c9angle 4 - c9angle 3 = 2 * Real.pi / 5 ∧
     c9angle 4 + 2 * Real.pi / 5 = 2 * Real.pi) ∧
    (nodeX c9eout "C0" = some (Real.cos (c9angle 0) * 188) ∧
     nodeY c9eout "C0" = some (Real.sin (c9angle 0) * 188) ∧
     nodeX c9eout "C1" = some (Real.cos (c9angle 1) * 188) ∧
     nodeY c9eout "C1" = some (Real.sin (c9angle 1) * 188) ∧
     nodeX c9eout "C2" = some (Real.cos (c9angle 2) * 188) ∧
     nodeY c9eout "C2" = some (Real.sin (c9angle 2) * 188) ∧
     nodeX c9eout "C3" = some (Real.cos (c9angle 3) * 188) ∧
     nodeY c9eout "C3" = some (Real.sin (c9angle 3) * 188) ∧
     nodeX c9eout "C4" = some (Real.cos (c9angle 4) * 188) ∧
     nodeY c9eout "C4" = some (Real.sin (c9angle 4) * 188)) ∧
    (distSq c9eout "P" "C0" = 188 ^ 2 ∧ distSq c9eout "P" "C1" = 188 ^ 2 ∧
     distSq c9eout "P" "C2" = 188 ^ 2 ∧ distSq c9eout "P" "C3" = 188 ^ 2 ∧
     distSq c9eout "P" "C4" = 188 ^ 2) := by
  have hxv : ∀ (k : ℕ) (ck : String),
      nodeX c9eout ck
        = some (0 + Real.cos (((k) : ℝ) / (((5:ℕ)) : ℝ) * Real.pi * 2)
            * (max 140 ((10:ℝ) * 14) + (((0:ℕ)) : ℝ) * 140 + 8 * 6)) →
      nodeX c9eout ck = some (Real.cos (c9angle k) * 188) := by
    intro k ck hx
    rw [hx]
    congr 1
    rw [c9_r1_val, show ((k) : ℝ) / (((5:ℕ)) : ℝ) * Real.pi * 2 = c9angle k by
      unfold c9angle; push_cast; ring]
    ring
  have hyv : ∀ (k : ℕ) (ck : String),
      nodeY c9eout ck
        = some (0 + Real.sin (((k) : ℝ) / (((5:ℕ)) : ℝ) * Real.pi * 2)
            * (max 140 ((10:ℝ) * 14) + (((0:ℕ)) : ℝ) * 140 + 8 * 6)) →
      nodeY c9eout ck = some (Real.sin (c9angle k) * 188) := by
    intro k ck hy
    rw [hy]
    congr 1
    rw [c9_r1_val, show ((k) : ℝ) / (((5:ℕ)) : ℝ) * Real.pi * 2 = c9angle k by
      unfold c9angle; push_cast; ring]
    ring
  refine ⟨⟨c9angle_lt (by norm_num), c9angle_lt (by norm_num), c9angle_lt (by norm_num),
      c9angle_lt (by norm_num)⟩,
    ⟨by unfold c9angle; push_cast; ring, by unfold c9angle; push_cast; ring,
     by unfold c9angle; push_cast; ring, by unfold c9angle; push_cast; ring,
     by unfold c9angle; push_cast; ring, by unfold c9angle; push_cast; ring⟩,
    ⟨hxv 0 "C0" c9e_x0, hyv 0 "C0" c9e_y0, hxv 1 "C1" c9e_x1, hyv 1 "C1" c9e_y1,
     hxv 2 "C2" c9e_x2, hyv 2 "C2" c9e_y2, hxv 3 "C3" c9e_x3, hyv 3 "C3" c9e_y3,
     hxv 4 "C4" c9e_x4, hyv 4 "C4" c9e_y4⟩,
    c9e_dist 0 "C0" c9e_x0 c9e_y0, c9e_dist 1 "C1" c9e_x1 c9e_y1,
    c9e_dist 2 "C2" c9e_x2 c9e_y2, c9e_dist 3 "C3" c9e_x3 c9e_y3,
    c9e_dist 4 "C4" c9e_x4 c9e_y4⟩

end Canvas
